import Mathlib

/-!
Embedded key-value store with a write-ahead log (`src/src/database/database.c`).

A shallow embedding of the storage engine: the chained hash table used as Index and as
transaction overlay, the write-ahead log file, the Engine operations and the buffered
transactions.  The send stubs of `src/src/tcp_udp/tcp_udp.c` follow the definitions of the
engine.

Modelling conventions.

* A byte is a `Fin 256`.  A C string is the list of its bytes before the terminating NUL.
* A pointer argument that the code tests against `NULL` is an `Option`; `none` is `NULL`.
  A value buffer together with its `value_size` is one list (`value_size` is its length).
* A `db` pointer is a valid Engine.  The `txn` pointer of `transaction_put`,
  `transaction_get` and `transaction_delete` is a live Transaction.  `transaction_commit`
  and `transaction_rollback` free the object they are given, so their argument is a
  `txn_object`: a live Transaction or memory that was freed, and a call on freed memory has
  no result.  The reader/writer lock is not modelled (every operation runs to completion on
  its own).
* The data directory is represented by the content of its `wal.log`, field `wal_file`.
  The file is opened with `O_APPEND`, so every write lands at its end.
* `struct wal_entry_t` has the LP64 little-endian layout: `magic` at offset 0, `type` at 4,
  `txn_id` at 8, `key_size` at 16, `value_size` at 20, `sizeof` = 24, no padding.
* `write`/`fsync` results are ignored by the code; the number of bytes of a record that
  durably reach the file is an explicit argument `w` of the writing operations.
  `read`, `lseek`, `ftruncate` and `close` on the regular file succeed.
* Memory obtained from `safe_malloc` and not filled by `read` holds unspecified bytes, given
  by an argument `junk` (offset in the buffer to byte).  A read outside an allocation is
  undefined behaviour: the operation then has no result (`none`).
* `size_t` quantities are sizes of objects in memory and are computed exactly; the 32-bit
  and 64-bit fields and counters wrap explicitly.
* The hash table functions are `static` and every caller hands them a table and a key
  that are not `NULL`, so they take plain arguments and their `NULL` guard has no case.
  `safe_malloc(0)` is taken to return a valid block of size zero.
-/

namespace KVStore

/-- One byte of memory or of the log file. -/
abbrev Byte := Fin 256

/-! ## Status codes (`include/common.h`) -/

def SUCCESS : Int := 0
def ERROR_INVALID_PARAM : Int := -2
def ERROR_NOT_FOUND : Int := -3
def ERROR_IO : Int := -5

/-! ## Constants and types of `database.c` -/

def WAL_MAGIC : Nat := 0x57414C00

def WAL_ENTRY_PUT : Nat := 0
def WAL_ENTRY_DELETE : Nat := 1
def WAL_ENTRY_COMMIT : Nat := 2
def WAL_ENTRY_ROLLBACK : Nat := 3

/-- The value of `sizeof(wal_entry_t)`. -/
def WAL_HEADER_SIZE : Nat := 24

inductive isolation_level_t where
  | ISOLATION_READ_UNCOMMITTED
  | ISOLATION_READ_COMMITTED
  | ISOLATION_REPEATABLE_READ
  | ISOLATION_SERIALIZABLE
  deriving DecidableEq

/-- Hash table entry: `key`, `value` and `value_size` (the length of `value`); the `next`
pointer is the tail of the chain the entry sits in. -/
structure hash_entry_t where
  key : List Byte
  value : List Byte
  deriving DecidableEq

/-- Hash table: the array of bucket chains and the entry counter `size`. -/
structure hash_table_t where
  buckets : List (List hash_entry_t)
  size : Nat
  deriving DecidableEq

/-- The field `bucket_count`: the length of the bucket array. -/
def hash_table_t.bucket_count (table : hash_table_t) : Nat := table.buckets.length

/-- The Engine (`struct database`). -/
structure database where
  wal_file : List Byte
  table : hash_table_t
  wal_fd : Int
  next_txn_id : Nat
  is_open : Bool
  deriving DecidableEq

/-- A Transaction (`struct transaction`); its `db` pointer is passed explicitly to the
operations that follow it. -/
structure transaction where
  txn_id : Nat
  level : isolation_level_t
  writes : hash_table_t
  committed : Bool
  deriving DecidableEq

/-- The memory behind a `transaction_t*` of the caller: the Transaction while it is
allocated, or the block after `transaction_commit` or `transaction_rollback` has freed it. -/
inductive txn_object where
  | live (txn : transaction)
  | freed
  deriving DecidableEq

/-! ## Hash table -/

/-- The conversion of a `char` to `uint32_t` in `hash + c` (`char` is signed). -/
def char_to_u32 (c : Byte) : Nat :=
  if c.val < 128 then c.val else c.val + 4294967040

/-- One round of the loop of `hash_string`: `((hash << 5) + hash) + c` in `uint32_t`. -/
def hash_step (hash : Nat) (c : Byte) : Nat :=
  (hash * 32 + hash + char_to_u32 c) % 4294967296

def hash_string_loop (hash : Nat) : List Byte → Nat
  | [] => hash
  | c :: str => if c = 0 then hash else hash_string_loop (hash_step hash c) str

def hash_string (str : List Byte) : Nat := hash_string_loop 5381 str

def hash_table_create (bucket_count : Nat) : hash_table_t :=
  { buckets := List.replicate bucket_count [], size := 0 }

/-- The search loop of `hash_table_get`: the first entry of the chain whose key compares
equal. -/
def chain_lookup (key : List Byte) : List hash_entry_t → Option hash_entry_t
  | [] => none
  | entry :: next => if entry.key = key then some entry else chain_lookup key next

/-- The search loop of `hash_table_put`: the chain with the value of the first matching
entry replaced, `none` when the loop runs off the chain. -/
def chain_update (key value : List Byte) : List hash_entry_t → Option (List hash_entry_t)
  | [] => none
  | entry :: next =>
    if entry.key = key then some ({ entry with value := value } :: next)
    else (chain_update key value next).map (fun chain => entry :: chain)

/-- The search loop of `hash_table_delete`: the chain with the first matching entry
unlinked, `none` when the loop runs off the chain. -/
def chain_unlink (key : List Byte) : List hash_entry_t → Option (List hash_entry_t)
  | [] => none
  | entry :: next =>
    if entry.key = key then some next
    else (chain_unlink key next).map (fun chain => entry :: chain)

def hash_table_put (table : hash_table_t) (key value : List Byte) : Int × hash_table_t :=
  let bucket := hash_string key % table.bucket_count
  let chain := table.buckets.getD bucket []
  match chain_update key value chain with
  | some chain' => (SUCCESS, { table with buckets := table.buckets.set bucket chain' })
  | none =>
    (SUCCESS, { buckets := table.buckets.set bucket ({ key := key, value := value } :: chain),
                size := (table.size + 1) % 18446744073709551616 })

def hash_table_get (table : hash_table_t) (key : List Byte) : Int × Option (List Byte) :=
  let bucket := hash_string key % table.bucket_count
  match chain_lookup key (table.buckets.getD bucket []) with
  | some entry => (SUCCESS, some entry.value)
  | none => (ERROR_NOT_FOUND, none)

def hash_table_delete (table : hash_table_t) (key : List Byte) : Int × hash_table_t :=
  let bucket := hash_string key % table.bucket_count
  match chain_unlink key (table.buckets.getD bucket []) with
  | some chain' =>
    (SUCCESS, { buckets := table.buckets.set bucket chain',
                size := (table.size + 18446744073709551615) % 18446744073709551616 })
  | none => (ERROR_NOT_FOUND, table)

/-! ## Log records -/

def byte (n : Nat) : Byte := ⟨n % 256, Nat.mod_lt n (by decide)⟩

/-- The four bytes of a `uint32_t` in memory. -/
def u32_bytes (n : Nat) : List Byte :=
  [byte n, byte (n / 256), byte (n / 65536), byte (n / 16777216)]

/-- The eight bytes of a `uint64_t` in memory. -/
def u64_bytes (n : Nat) : List Byte :=
  u32_bytes n ++ u32_bytes (n / 4294967296)

/-- The `uint32_t` stored at offset `off` of a memory block. -/
def u32_at (mem : List Byte) (off : Nat) : Nat :=
  (mem.getD off 0).val + 256 * (mem.getD (off + 1) 0).val
    + 65536 * (mem.getD (off + 2) 0).val + 16777216 * (mem.getD (off + 3) 0).val

/-- The bytes of a `wal_entry_t` with the given fields, followed by its `data`. -/
def wal_entry_bytes (magic type txn_id key_size value_size : Nat) (data : List Byte) :
    List Byte :=
  u32_bytes magic ++ u32_bytes type ++ u64_bytes txn_id ++ u32_bytes key_size
    ++ u32_bytes value_size ++ data

/-- The record `database_put` builds for `(key, value)`. -/
def put_entry (key value : List Byte) : List Byte :=
  wal_entry_bytes WAL_MAGIC WAL_ENTRY_PUT 0 (key.length + 1) value.length
    (key ++ [0] ++ value)

/-- The record `database_delete` builds for `key`. -/
def delete_entry (key : List Byte) : List Byte :=
  wal_entry_bytes WAL_MAGIC WAL_ENTRY_DELETE 0 (key.length + 1) 0 (key ++ [0])

/-- The buffer after `read(fd, data, count)` into fresh memory: the bytes the file still
has, then the unspecified content of the rest of the allocation. -/
def read_fill (file : List Byte) (count : Nat) (junk : Nat → Byte) : List Byte :=
  file.take count ++ (List.range' (file.take count).length (count - (file.take count).length)).map junk

/-- The C string starting at the beginning of a buffer; no result when the buffer holds
no NUL (the scan leaves the allocation). -/
def c_string_at : List Byte → Option (List Byte)
  | [] => none
  | c :: data => if c = 0 then some [] else (c_string_at data).map (fun str => c :: str)

/-! ## Engine -/

def database_create (data_dir : List Byte) : database :=
  { wal_file := data_dir, table := hash_table_create 1024, wal_fd := -1,
    next_txn_id := 1, is_open := false }

/-- The loop of `database_recover` over the unread part `file` of the log.  Every round
consumes at least the 24 header bytes, so `fuel = file.length` rounds are never used up. -/
def recover_loop (junk : Nat → Byte) : Nat → hash_table_t → List Byte → Option hash_table_t
  | 0, table, _ => some table
  | fuel + 1, table, file =>
    if file.length < WAL_HEADER_SIZE then some table
    else
      let header := file.take WAL_HEADER_SIZE
      if u32_at header 0 ≠ WAL_MAGIC then some table
      else
        let type := u32_at header 4
        let key_size := u32_at header 16
        let value_size := u32_at header 20
        let count := (key_size + value_size) % 4294967296
        let data := read_fill (file.drop WAL_HEADER_SIZE) count junk
        let rest := (file.drop WAL_HEADER_SIZE).drop count
        if type = WAL_ENTRY_PUT then
          match c_string_at data with
          | none => none
          | some key =>
            if key_size + value_size ≤ data.length then
              recover_loop junk fuel
                (hash_table_put table key ((data.drop key_size).take value_size)).2 rest
            else none
        else if type = WAL_ENTRY_DELETE then
          match c_string_at data with
          | none => none
          | some key => recover_loop junk fuel (hash_table_delete table key).2 rest
        else recover_loop junk fuel table rest

/-- The replay of a log into a table: the loop of `database_recover` after
`lseek(fd, 0, SEEK_SET)`, run over the whole file. -/
def replay (junk : Nat → Byte) (table : hash_table_t) (file : List Byte) :
    Option hash_table_t :=
  recover_loop junk file.length table file

def database_recover (db : database) (junk : Nat → Byte) : Option (Int × database) :=
  if db.wal_fd < 0 then some (ERROR_INVALID_PARAM, db)
  else
    match replay junk db.table db.wal_file with
    | none => none
    | some table => some (SUCCESS, { db with table := table })

/-- The argument `fd` is the result of `open(wal_path, O_CREAT | O_RDWR | O_APPEND, 0644)`. -/
def database_open (db : database) (fd : Int) (junk : Nat → Byte) : Option (Int × database) :=
  if db.is_open then some (ERROR_INVALID_PARAM, db)
  else if fd < 0 then some ( ERROR_IO, { db with wal_fd := fd })
  else
    match database_recover { db with wal_fd := fd } junk with
    | none => none
    | some r => some (SUCCESS, { r.2 with is_open := true })

def database_checkpoint (db : database) : Int × database :=
  if db.wal_fd < 0 then (ERROR_INVALID_PARAM, db)
  else (SUCCESS, { db with wal_file := [] })

def database_close (db : database) : Int × database :=
  if !db.is_open then (ERROR_INVALID_PARAM, db)
  else
    let db1 := (database_checkpoint db).2
    let db2 := if 0 ≤ db1.wal_fd then { db1 with wal_fd := -1 } else db1
    (SUCCESS, { db2 with is_open := false })

def database_put (db : database) (key value : Option (List Byte)) (w : Nat) :
    Int × database :=
  match key, value with
  | some key, some value =>
    if value.length = 0 then (ERROR_INVALID_PARAM, db)
    else
      let wal_file :=
        if 0 ≤ db.wal_fd then db.wal_file ++ (put_entry key value).take w
        else db.wal_file
      let result := hash_table_put db.table key value
      (result.1, { db with wal_file := wal_file, table := result.2 })
  | _, _ => (ERROR_INVALID_PARAM, db)

def database_get (db : database) (key : Option (List Byte)) : Int × Option (List Byte) :=
  match key with
  | some key => hash_table_get db.table key
  | none => (ERROR_INVALID_PARAM, none)

def database_delete (db : database) (key : Option (List Byte)) (w : Nat) : Int × database :=
  match key with
  | some key =>
    let wal_file :=
      if 0 ≤ db.wal_fd then db.wal_file ++ (delete_entry key).take w
      else db.wal_file
    let result := hash_table_delete db.table key
    (result.1, { db with wal_file := wal_file, table := result.2 })
  | none => (ERROR_INVALID_PARAM, db)

def database_exists (db : database) (key : Option (List Byte)) : Nat :=
  match key with
  | some key => if (hash_table_get db.table key).1 = SUCCESS then 1 else 0
  | none => 0

inductive index_type_t where
  | INDEX_BTREE
  | INDEX_HASH
  deriving DecidableEq

/-- Placeholder of the source: nothing is read or written. -/
def database_create_index (_db : database) (_index_name : Option (List Byte))
    (_type : index_type_t) : Int :=
  SUCCESS

/-- Placeholder of the source: nothing is read or written. -/
def database_drop_index (_db : database) (_index_name : Option (List Byte)) : Int :=
  SUCCESS

/-- Placeholder of the source: nothing is read or written. -/
def database_compact (_db : database) : Int :=
  SUCCESS

structure database_stats_t where
  num_keys : Nat
  total_size : Nat
  wal_size : Nat
  num_transactions : Nat
  deriving DecidableEq

/-- The length `strlen` finds: the bytes before the first NUL. -/
def strlen : List Byte → Nat
  | [] => 0
  | c :: str => if c = 0 then 0 else strlen str + 1

/-- The loops of `database_get_stats` over the buckets and their chains, adding
`strlen(entry->key) + entry->value_size` for every entry. -/
def stats_total_size (buckets : List (List hash_entry_t)) : Nat :=
  buckets.foldl
    (fun total chain =>
      chain.foldl (fun sum entry => sum + (strlen entry.key + entry.value.length)) total)
    0

/-- The argument `stats` is the structure the caller's pointer refers to; the Engine is
only read. -/
def database_get_stats (db : database) (stats : Option database_stats_t) :
    Int × Option database_stats_t :=
  match stats with
  | none => (ERROR_INVALID_PARAM, none)
  | some _ =>
    (SUCCESS,
      some { num_keys := db.table.size,
             total_size := stats_total_size db.table.buckets,
             wal_size := if 0 ≤ db.wal_fd then db.wal_file.length else 0,
             num_transactions :=
               (db.next_txn_id + 18446744073709551615) % 18446744073709551616 })

/-! ## Transactions -/

def database_begin_transaction (db : database) (level : isolation_level_t) :
    transaction × database :=
  ({ txn_id := db.next_txn_id, level := level, writes := hash_table_create 64,
     committed := false },
   { db with next_txn_id := (db.next_txn_id + 1) % 18446744073709551616 })

/-- The inner `while` loop of `transaction_commit` over one bucket chain. -/
def commit_chain (table : hash_table_t) (chain : List hash_entry_t) : hash_table_t :=
  chain.foldl (fun t entry => (hash_table_put t entry.key entry.value).2) table

/-- The `for` loop of `transaction_commit` over the buckets of the write set. -/
def commit_buckets (table : hash_table_t) (buckets : List (List hash_entry_t)) :
    hash_table_t :=
  buckets.foldl commit_chain table

/-- The result is the return code, the Engine and the memory behind `txn` after the call.
A live Transaction whose `committed` flag is set is left alone; any other live Transaction
is applied to the Index and freed (`hash_table_destroy(txn->writes)`, `safe_free(&txn)`).
On freed memory the call reads `txn->committed` outside any allocation: no result. -/
def transaction_commit (db : database) : txn_object → Option (Int × database × txn_object)
  | .freed => none
  | .live txn =>
    if txn.committed then some (ERROR_INVALID_PARAM, db, .live txn)
    else
      some (SUCCESS, { db with table := commit_buckets db.table txn.writes.buckets }, .freed)

/-- The result is the return code, the Engine and the memory behind `txn` after the call.
The write set and the Transaction are freed, whatever the `committed` flag says; the Engine
is not accessed.  On freed memory the call reads `txn->writes` outside any allocation and
frees the block again: no result. -/
def transaction_rollback (db : database) : txn_object → Option (Int × database × txn_object)
  | .freed => none
  | .live _ => some (SUCCESS, db, .freed)

def transaction_put (txn : transaction) (key value : Option (List Byte)) :
    Int × transaction :=
  match key, value with
  | some key, some value =>
    let result := hash_table_put txn.writes key value
    (result.1, { txn with writes := result.2 })
  | _, _ => (ERROR_INVALID_PARAM, txn)

def transaction_get (db : database) (txn : transaction) (key : Option (List Byte)) :
    Int × Option (List Byte) :=
  match key with
  | some key =>
    let result := hash_table_get txn.writes key
    if result.1 = SUCCESS then result else database_get db (some key)
  | none => (ERROR_INVALID_PARAM, none)

def transaction_delete (txn : transaction) (key : Option (List Byte)) : Int × transaction :=
  match key with
  | some key =>
    let result := hash_table_delete txn.writes key
    (result.1, { txn with writes := result.2 })
  | none => (ERROR_INVALID_PARAM, txn)

/-! ## Sequences of calls -/

/-- A `database_put` or `database_delete` call with its arguments. -/
inductive db_call where
  | put (key value : Option (List Byte))
  | delete (key : Option (List Byte))
  deriving DecidableEq

/-- The record a call hands to `write`; empty when the call is rejected before. -/
def db_call.entry : db_call → List Byte
  | .put (some key) (some value) => if value.length = 0 then [] else put_entry key value
  | .delete (some key) => delete_entry key
  | _ => []

/-- The call is carried out and its record reaches the file whole. -/
def db_step (db : database) (call : db_call) : database :=
  match call with
  | .put key value => (database_put db key value call.entry.length).2
  | .delete key => (database_delete db key call.entry.length).2

def db_run (db : database) (calls : List db_call) : database :=
  calls.foldl db_step db

/-- The key of the call is a C string and the sizes in its record, `strlen(key) + 1` and
`value_size`, have a sum below `2^32`. -/
def db_call.fits : db_call → Prop
  | .put (some key) (some value) =>
    (0 : Byte) ∉ key ∧ key.length + 1 + value.length < 4294967296
  | .delete (some key) => (0 : Byte) ∉ key ∧ key.length + 1 < 4294967296
  | _ => True

instance db_call.fits_decidable : (call : db_call) → Decidable call.fits
  | .put (some key) (some value) =>
    inferInstanceAs (Decidable ((0 : Byte) ∉ key ∧ key.length + 1 + value.length < 4294967296))
  | .put (some _) none => inferInstanceAs (Decidable True)
  | .put none _ => inferInstanceAs (Decidable True)
  | .delete (some key) =>
    inferInstanceAs (Decidable ((0 : Byte) ∉ key ∧ key.length + 1 < 4294967296))
  | .delete none => inferInstanceAs (Decidable True)

/-- A `transaction_put` or `transaction_delete` call with its arguments. -/
inductive txn_call where
  | put (key value : Option (List Byte))
  | delete (key : Option (List Byte))
  deriving DecidableEq

/-- The key argument of a call. -/
def txn_call.key : txn_call → Option (List Byte)
  | .put key _ => key
  | .delete key => key

def txn_step (txn : transaction) : txn_call → transaction
  | .put key value => (transaction_put txn key value).2
  | .delete key => (transaction_delete txn key).2

def txn_run (txn : transaction) (calls : List txn_call) : transaction :=
  calls.foldl txn_step txn

/-- The overlay as a map from keys to pending values, told from one call on the
Transaction: a `transaction_put` with a key and a value makes the value pending for the
key, a `transaction_delete` with a key ends what was pending for it, and a call with a
`NULL` argument changes nothing. -/
def pending_step (pending : List Byte → Option (List Byte)) :
    txn_call → List Byte → Option (List Byte)
  | .put (some key) (some value) => fun k => if k = key then some value else pending k
  | .delete (some key) => fun k => if k = key then none else pending k
  | _ => pending

/-- What the calls made on a Transaction since it began have left pending for a key: the
value of the last `transaction_put` of the key when no `transaction_delete` of the key
came after it, nothing otherwise. -/
def pending_value (calls : List txn_call) : List Byte → Option (List Byte) :=
  calls.foldl pending_step (fun _ => none)

/-- The bucket chain a key hashes to. -/
def chain_of (table : hash_table_t) (key : List Byte) : List hash_entry_t :=
  table.buckets.getD (hash_string key % table.bucket_count) []

/-- Every entry sits in the chain its key hashes to, and no chain holds a key twice. -/
def table_wf (t : hash_table_t) : Prop :=
  ∀ i : Nat, ((t.buckets.getD i []).map hash_entry_t.key).Nodup ∧
    ∀ e ∈ t.buckets.getD i [], hash_string e.key % t.bucket_count = i

/-- The objects of a running program: the Engine and the Transactions begun on it, each
Transaction known by its place in the list. -/
structure program_state where
  db : database
  txns : List transaction

/-- A `transaction_put` or `transaction_delete` call on the Transaction at place `i`.  The
two functions receive the Transaction only and return it, so the call rewrites that place
of the list. -/
def txn_call_at (s : program_state) (i : Nat) (call : txn_call) : program_state :=
  match s.txns[i]? with
  | some txn => { s with txns := s.txns.set i (txn_step txn call) }
  | none => s

def txn_calls_at (s : program_state) (calls : List (Nat × txn_call)) : program_state :=
  calls.foldl (fun st c => txn_call_at st c.1 c.2) s

/-- A call of the public interface on an Engine that stays allocated, with its other
arguments.  The Transaction of a commit or rollback is the memory behind the pointer the
caller holds, live in any state or freed. -/
inductive engine_op where
  | open_db (fd : Int) (junk : Nat → Byte)
  | close_db
  | put (key value : Option (List Byte)) (w : Nat)
  | get (key : Option (List Byte))
  | delete (key : Option (List Byte)) (w : Nat)
  | exists_key (key : Option (List Byte))
  | begin_transaction (level : isolation_level_t)
  | commit (txn : txn_object)
  | rollback (txn : txn_object)
  | txn_get (txn : transaction) (key : Option (List Byte))
  | checkpoint
  | recover (junk : Nat → Byte)
  | get_stats
  | create_index (index_name : Option (List Byte)) (type : index_type_t)
  | drop_index (index_name : Option (List Byte))
  | compact

/-- The Engine after one call, with the id of the Transaction a
`database_begin_transaction` returns; no result where the call has none. -/
def engine_step (db : database) : engine_op → Option (database × Option Nat)
  | .open_db fd junk => (database_open db fd junk).map (fun r => (r.2, none))
  | .close_db => some ((database_close db).2, none)
  | .put key value w => some ((database_put db key value w).2, none)
  | .get _ => some (db, none)
  | .delete key w => some ((database_delete db key w).2, none)
  | .exists_key _ => some (db, none)
  | .begin_transaction level =>
    some ((database_begin_transaction db level).2,
      some (database_begin_transaction db level).1.txn_id)
  | .commit txn => (transaction_commit db txn).map (fun r => (r.2.1, none))
  | .rollback txn => (transaction_rollback db txn).map (fun r => (r.2.1, none))
  | .txn_get _ _ => some (db, none)
  | .checkpoint => some ((database_checkpoint db).2, none)
  | .recover junk => (database_recover db junk).map (fun r => (r.2, none))
  | .get_stats => some (db, none)
  | .create_index _ _ => some (db, none)
  | .drop_index _ => some (db, none)
  | .compact => some (db, none)

/-- The Engine after a sequence of calls and the ids of the Transactions begun, in the
order of the calls. -/
def engine_run : database → List engine_op → Option (database × List Nat)
  | db, [] => some (db, [])
  | db, op :: ops =>
    match engine_step db op with
    | none => none
    | some r =>
      match engine_run r.1 ops with
      | none => none
      | some rest => some (rest.1, r.2.toList ++ rest.2)

/-- A `hash_table_put` or `hash_table_delete` call with its arguments. -/
inductive table_op where
  | put (key value : List Byte)
  | delete (key : List Byte)
  deriving DecidableEq

def table_step (table : hash_table_t) : table_op → hash_table_t
  | .put key value => (hash_table_put table key value).2
  | .delete key => (hash_table_delete table key).2

def table_run (table : hash_table_t) (ops : List table_op) : hash_table_t :=
  ops.foldl table_step table

/-- No two entries of the table hold the same key, and every entry is stored in the bucket
`hash_string(key) % bucket_count`. -/
def key_unique (table : hash_table_t) : Prop :=
  (table.buckets.flatten.map hash_entry_t.key).Nodup ∧
    ∀ (i : Nat) (e : hash_entry_t), e ∈ table.buckets.getD i [] →
      hash_string e.key % table.bucket_count = i

/-- The bucket array is not empty and the counter `size` is the number of entries, as a
`size_t`. -/
def size_exact (table : hash_table_t) : Prop :=
  0 < table.bucket_count ∧
    table.size = table.buckets.flatten.length % 18446744073709551616

/-! ## Sockets (`src/src/tcp_udp/tcp_udp.c`)

The send functions are stubs.  Their `len` argument is a `size_t`, a number below `2^64`;
the connection, the socket and the data buffer are `none` for `NULL`. -/

/-- The fields of `struct tcp_connection_t` other than the remote address. -/
structure tcp_connection_t where
  sockfd : Int
  is_active : Bool
  deriving DecidableEq

/-- The fields of `struct udp_socket` other than the bound address. -/
structure udp_socket_t where
  sockfd : Int
  is_bound : Bool
  is_connected : Bool
  deriving DecidableEq

/-- The conversion `(ssize_t)len` of a `size_t` (two's complement, 64 bits). -/
def to_ssize_t (len : Nat) : Int :=
  if len % 18446744073709551616 < 9223372036854775808 then
    ((len % 18446744073709551616 : Nat) : Int)
  else ((len % 18446744073709551616 : Nat) : Int) - 18446744073709551616

def tcp_send (conn : Option tcp_connection_t) (data : Option (List Byte)) (len : Nat) :
    Int :=
  match conn, data with
  | some _, some _ => if len = 0 then -1 else to_ssize_t len
  | _, _ => -1

def udp_sendto (socket : Option udp_socket_t) (data : Option (List Byte)) (len : Nat)
    (_dest_addr : Option (List Byte)) (_dest_port : Int) : Int :=
  match socket, data with
  | some _, some _ => if len = 0 then -1 else to_ssize_t len
  | _, _ => -1

def udp_send (socket : Option udp_socket_t) (data : Option (List Byte)) (len : Nat) : Int :=
  match socket, data with
  | some _, some _ => if len = 0 then -1 else to_ssize_t len
  | _, _ => -1

/-! ## Hash table lemmas -/

theorem getD_set_self (l : List (List hash_entry_t)) (i : Nat) (x : List hash_entry_t)
    (h : i < l.length) : (l.set i x).getD i [] = x := by
  simp [List.getD_eq_getElem?_getD, List.getElem?_set, h]

theorem getD_set_other (l : List (List hash_entry_t)) (i j : Nat) (x : List hash_entry_t)
    (h : i ≠ j) : (l.set i x).getD j [] = l.getD j [] := by
  simp [List.getD_eq_getElem?_getD, List.getElem?_set, h]

theorem chain_update_eq_none (key value : List Byte) (chain : List hash_entry_t) :
    chain_update key value chain = none ↔ chain_lookup key chain = none := by
  induction chain with
  | nil => simp [chain_update, chain_lookup]
  | cons e next ih =>
    by_cases h : e.key = key <;> simp [chain_update, chain_lookup, h, ih]

theorem chain_lookup_update_self (key value : List Byte) (chain chain' : List hash_entry_t)
    (h : chain_update key value chain = some chain') :
    chain_lookup key chain' = some { key := key, value := value } := by
  induction chain generalizing chain' with
  | nil => simp [chain_update] at h
  | cons e next ih =>
    by_cases hk : e.key = key
    · simp [chain_update, hk] at h
      subst h
      simp [chain_lookup, hk]
      
    · simp [chain_update, hk] at h
      obtain ⟨c, hc, rfl⟩ := h
      simp [chain_lookup, hk, ih c hc]

theorem chain_lookup_update_other (key key' value : List Byte)
    (chain chain' : List hash_entry_t) (hne : key' ≠ key)
    (h : chain_update key value chain = some chain') :
    chain_lookup key' chain' = chain_lookup key' chain := by
  induction chain generalizing chain' with
  | nil => simp [chain_update] at h
  | cons e next ih =>
    by_cases hk : e.key = key
    · simp [chain_update, hk] at h
      subst h
      have : ¬ key = key' := fun h => hne h.symm
      simp [chain_lookup, hk, this]
    · simp [chain_update, hk] at h
      obtain ⟨c, hc, rfl⟩ := h
      simp [chain_lookup, ih c hc]

theorem chain_lookup_unlink_other (key key' : List Byte)
    (chain chain' : List hash_entry_t) (hne : key' ≠ key)
    (h : chain_unlink key chain = some chain') :
    chain_lookup key' chain' = chain_lookup key' chain := by
  induction chain generalizing chain' with
  | nil => simp [chain_unlink] at h
  | cons e next ih =>
    by_cases hk : e.key = key
    · simp [chain_unlink, hk] at h
      subst h
      have : ¬ key = key' := fun h => hne h.symm
      simp [chain_lookup, hk, this]
    · simp [chain_unlink, hk] at h
      obtain ⟨c, hc, rfl⟩ := h
      simp [chain_lookup, ih c hc]

theorem hash_table_put_of_some (table : hash_table_t) (key value : List Byte)
    (chain' : List hash_entry_t) (h : chain_update key value (chain_of table key) = some chain') :
    hash_table_put table key value =
      (SUCCESS, { buckets := table.buckets.set (hash_string key % table.bucket_count) chain',
                  size := table.size }) := by
  unfold chain_of at h
  simp only [hash_table_put, h]

theorem hash_table_put_of_none (table : hash_table_t) (key value : List Byte)
    (h : chain_update key value (chain_of table key) = none) :
    hash_table_put table key value =
      (SUCCESS, { buckets := table.buckets.set (hash_string key % table.bucket_count)
                    ({ key := key, value := value } :: chain_of table key),
                  size := (table.size + 1) % 18446744073709551616 }) := by
  unfold chain_of at h
  simp only [hash_table_put, h, chain_of]

theorem hash_table_delete_of_some (table : hash_table_t) (key : List Byte)
    (chain' : List hash_entry_t) (h : chain_unlink key (chain_of table key) = some chain') :
    hash_table_delete table key =
      (SUCCESS, { buckets := table.buckets.set (hash_string key % table.bucket_count) chain',
                  size := (table.size + 18446744073709551615) % 18446744073709551616 }) := by
  unfold chain_of at h
  simp only [hash_table_delete, h]

theorem hash_table_delete_of_none (table : hash_table_t) (key : List Byte)
    (h : chain_unlink key (chain_of table key) = none) :
    hash_table_delete table key = (ERROR_NOT_FOUND, table) := by
  unfold chain_of at h
  simp only [hash_table_delete, h]

theorem hash_table_get_eq (table : hash_table_t) (key : List Byte) :
    hash_table_get table key =
      match chain_lookup key (chain_of table key) with
      | some entry => (SUCCESS, some entry.value)
      | none => (ERROR_NOT_FOUND, none) := rfl

theorem hash_table_put_rc (table : hash_table_t) (key value : List Byte) :
    (hash_table_put table key value).1 = SUCCESS := by
  cases h : chain_update key value (chain_of table key) with
  | none => rw [hash_table_put_of_none _ _ _ h]
  | some c => rw [hash_table_put_of_some _ _ _ _ h]

theorem hash_table_put_bucket_count (table : hash_table_t) (key value : List Byte) :
    (hash_table_put table key value).2.bucket_count = table.bucket_count := by
  cases h : chain_update key value (chain_of table key) with
  | none => rw [hash_table_put_of_none _ _ _ h]; simp [hash_table_t.bucket_count]
  | some c => rw [hash_table_put_of_some _ _ _ _ h]; simp [hash_table_t.bucket_count]

theorem hash_table_delete_bucket_count (table : hash_table_t) (key : List Byte) :
    (hash_table_delete table key).2.bucket_count = table.bucket_count := by
  cases h : chain_unlink key (chain_of table key) with
  | none => rw [hash_table_delete_of_none _ _ h]
  | some c => rw [hash_table_delete_of_some _ _ _ h]; simp [hash_table_t.bucket_count]

theorem buckets_getD_put (table : hash_table_t) (key value : List Byte) (i : Nat) :
    (hash_table_put table key value).2.buckets.getD i [] =
      if hash_string key % table.bucket_count = i ∧ 0 < table.bucket_count then
        match chain_update key value (chain_of table key) with
        | some chain' => chain'
        | none => { key := key, value := value } :: chain_of table key
      else table.buckets.getD i [] := by
  have hput := hash_table_put_of_some table key value
  have hput' := hash_table_put_of_none table key value
  unfold chain_of at *
  by_cases h0 : 0 < table.bucket_count
  · have hl : hash_string key % table.bucket_count < table.buckets.length := Nat.mod_lt _ h0
    by_cases hb : hash_string key % table.bucket_count = i
    · rw [if_pos ⟨hb, h0⟩]
      cases h : chain_update key value
          (table.buckets.getD (hash_string key % table.bucket_count) []) with
      | none => rw [hput' h, ← hb]; simp only [getD_set_self _ _ _ hl]
      | some c => rw [hput _ h, ← hb]; simp only [getD_set_self _ _ _ hl]
    · rw [if_neg (fun h => hb h.1)]
      cases h : chain_update key value
          (table.buckets.getD (hash_string key % table.bucket_count) []) with
      | none => rw [hput' h]; simp only [getD_set_other _ _ _ _ hb]
      | some c => rw [hput _ h]; simp only [getD_set_other _ _ _ _ hb]
  · rw [if_neg (fun h => h0 h.2)]
    have hl : table.buckets.length ≤ hash_string key % table.bucket_count := by
      have : table.bucket_count = 0 := Nat.eq_zero_of_not_pos h0
      unfold hash_table_t.bucket_count at this
      omega
    cases h : chain_update key value
        (table.buckets.getD (hash_string key % table.bucket_count) []) with
    | none => rw [hput' h]; simp only [List.set_eq_of_length_le hl]
    | some c => rw [hput _ h]; simp only [List.set_eq_of_length_le hl]

theorem buckets_getD_delete (table : hash_table_t) (key : List Byte) (i : Nat) :
    (hash_table_delete table key).2.buckets.getD i [] =
      if hash_string key % table.bucket_count = i ∧ 0 < table.bucket_count then
        match chain_unlink key (chain_of table key) with
        | some chain' => chain'
        | none => chain_of table key
      else table.buckets.getD i [] := by
  have hdel := hash_table_delete_of_some table key
  have hdel' := hash_table_delete_of_none table key
  unfold chain_of at *
  by_cases h0 : 0 < table.bucket_count
  · have hl : hash_string key % table.bucket_count < table.buckets.length := Nat.mod_lt _ h0
    by_cases hb : hash_string key % table.bucket_count = i
    · rw [if_pos ⟨hb, h0⟩]
      cases h : chain_unlink key
          (table.buckets.getD (hash_string key % table.bucket_count) []) with
      | none => rw [hdel' h, ← hb]
      | some c => rw [hdel _ h, ← hb]; simp only [getD_set_self _ _ _ hl]
    · rw [if_neg (fun h => hb h.1)]
      cases h : chain_unlink key
          (table.buckets.getD (hash_string key % table.bucket_count) []) with
      | none => rw [hdel' h]
      | some c => rw [hdel _ h]; simp only [getD_set_other _ _ _ _ hb]
  · rw [if_neg (fun h => h0 h.2)]
    have hl : table.buckets.length ≤ hash_string key % table.bucket_count := by
      have : table.bucket_count = 0 := Nat.eq_zero_of_not_pos h0
      unfold hash_table_t.bucket_count at this
      omega
    cases h : chain_unlink key
        (table.buckets.getD (hash_string key % table.bucket_count) []) with
    | none => rw [hdel' h]
    | some c => rw [hdel _ h]; simp only [List.set_eq_of_length_le hl]

/-- The chain of `key'` after a put of `key`. -/
theorem chain_of_put (table : hash_table_t) (key key' value : List Byte) :
    chain_of (hash_table_put table key value).2 key' =
      if hash_string key % table.bucket_count = hash_string key' % table.bucket_count
          ∧ 0 < table.bucket_count then
        match chain_update key value (chain_of table key) with
        | some chain' => chain'
        | none => { key := key, value := value } :: chain_of table key
      else chain_of table key' := by
  unfold chain_of
  rw [hash_table_put_bucket_count]
  exact buckets_getD_put table key value _

/-- The chain of `key'` after a delete of `key`. -/
theorem chain_of_delete (table : hash_table_t) (key key' : List Byte) :
    chain_of (hash_table_delete table key).2 key' =
      if hash_string key % table.bucket_count = hash_string key' % table.bucket_count
          ∧ 0 < table.bucket_count then
        match chain_unlink key (chain_of table key) with
        | some chain' => chain'
        | none => chain_of table key
      else chain_of table key' := by
  unfold chain_of
  rw [hash_table_delete_bucket_count]
  exact buckets_getD_delete table key _

theorem hash_table_get_put_self (table : hash_table_t) (key value : List Byte)
    (h : 0 < table.bucket_count) :
    hash_table_get (hash_table_put table key value).2 key = (SUCCESS, some value) := by
  rw [hash_table_get_eq, chain_of_put, if_pos ⟨rfl, h⟩]
  cases hc : chain_update key value (chain_of table key) with
  | none => simp [chain_lookup]
  | some c => simp [chain_lookup_update_self _ _ _ _ hc]

theorem hash_table_get_put_other (table : hash_table_t) (key key' value : List Byte)
    (hne : key' ≠ key) :
    hash_table_get (hash_table_put table key value).2 key' = hash_table_get table key' := by
  rw [hash_table_get_eq, hash_table_get_eq, chain_of_put]
  by_cases hb : hash_string key % table.bucket_count = hash_string key' % table.bucket_count
      ∧ 0 < table.bucket_count
  · rw [if_pos hb]
    have hch : chain_of table key = chain_of table key' := by
      unfold chain_of; rw [hb.1]
    have : ¬ key = key' := fun h => hne h.symm
    cases hc : chain_update key value (chain_of table key) with
    | none => simp [chain_lookup, this, hch]
    | some c => simp [chain_lookup_update_other _ _ _ _ _ hne hc, hch]
  · rw [if_neg hb]

theorem hash_table_get_delete_other (table : hash_table_t) (key key' : List Byte)
    (hne : key' ≠ key) :
    hash_table_get (hash_table_delete table key).2 key' = hash_table_get table key' := by
  rw [hash_table_get_eq, hash_table_get_eq, chain_of_delete]
  by_cases hb : hash_string key % table.bucket_count = hash_string key' % table.bucket_count
      ∧ 0 < table.bucket_count
  · rw [if_pos hb]
    have hch : chain_of table key = chain_of table key' := by
      unfold chain_of; rw [hb.1]
    cases hc : chain_unlink key (chain_of table key) with
    | none => simp [hch]
    | some c => simp [chain_lookup_unlink_other _ _ _ _ hne hc, hch]
  · rw [if_neg hb]


theorem chain_lookup_eq_none (key : List Byte) (chain : List hash_entry_t) :
    chain_lookup key chain = none ↔ key ∉ chain.map hash_entry_t.key := by
  induction chain with
  | nil => simp [chain_lookup]
  | cons e next ih =>
    by_cases h : e.key = key
    · simp [chain_lookup, h]
    · have h' : ¬ key = e.key := fun x => h x.symm
      simp only [chain_lookup, h, if_false, ih, List.map_cons, List.mem_cons, h', false_or]

theorem chain_lookup_eq_some (key : List Byte) (chain : List hash_entry_t) (e : hash_entry_t)
    (hnd : (chain.map hash_entry_t.key).Nodup) :
    chain_lookup key chain = some e ↔ e ∈ chain ∧ e.key = key := by
  induction chain with
  | nil => simp [chain_lookup]
  | cons x next ih =>
    rw [List.map_cons, List.nodup_cons] at hnd
    by_cases h : x.key = key
    · simp only [chain_lookup, h, if_true, Option.some.injEq, List.mem_cons]
      constructor
      · rintro rfl; exact ⟨Or.inl rfl, h⟩
      · rintro ⟨h1 | h1, h2⟩
        · exact h1.symm
        · exfalso; apply hnd.1; rw [h, ← h2]; exact List.mem_map_of_mem _ h1
    · simp only [chain_lookup, h, if_false, ih hnd.2, List.mem_cons]
      constructor
      · rintro ⟨h1, h2⟩; exact ⟨Or.inr h1, h2⟩
      · rintro ⟨h1 | h1, h2⟩
        · exfalso; apply h; rw [← h1]; exact h2
        · exact ⟨h1, h2⟩

theorem chain_update_keys (key value : List Byte) (chain chain' : List hash_entry_t)
    (h : chain_update key value chain = some chain') :
    chain'.map hash_entry_t.key = chain.map hash_entry_t.key := by
  induction chain generalizing chain' with
  | nil => simp [chain_update] at h
  | cons e next ih =>
    by_cases hk : e.key = key
    · simp [chain_update, hk] at h
      subst h
      simp [hk]
    · simp [chain_update, hk] at h
      obtain ⟨c, hc, rfl⟩ := h
      simp [ih c hc]

theorem chain_unlink_sublist (key : List Byte) (chain chain' : List hash_entry_t)
    (h : chain_unlink key chain = some chain') : chain'.Sublist chain := by
  induction chain generalizing chain' with
  | nil => simp [chain_unlink] at h
  | cons e next ih =>
    by_cases hk : e.key = key
    · simp [chain_unlink, hk] at h
      subst h
      exact List.sublist_cons_self _ _
    · simp [chain_unlink, hk] at h
      obtain ⟨c, hc, rfl⟩ := h
      exact (ih c hc).cons₂ _


theorem table_wf_create (n : Nat) : table_wf (hash_table_create n) := by
  intro i
  have : (hash_table_create n).buckets.getD i [] = [] := by
    simp only [hash_table_create, List.getD_eq_getElem?_getD, List.getElem?_replicate]
    split <;> rfl
  rw [this]
  simp

theorem table_wf_put (table : hash_table_t) (key value : List Byte) (h : table_wf table) :
    table_wf (hash_table_put table key value).2 := by
  intro i
  rw [buckets_getD_put, hash_table_put_bucket_count]
  by_cases hb : hash_string key % table.bucket_count = i ∧ 0 < table.bucket_count
  · rw [if_pos hb]
    have hi := h i
    have hch : chain_of table key = table.buckets.getD i [] := by
      unfold chain_of; rw [hb.1]
    rw [hch]
    cases hc : chain_update key value (table.buckets.getD i []) with
    | none =>
      have hnot := (chain_lookup_eq_none key _).1 ((chain_update_eq_none key value _).1 hc)
      refine ⟨?_, ?_⟩
      · simp only [List.map_cons, List.nodup_cons]
        exact ⟨hnot, hi.1⟩
      · intro e he
        rcases List.mem_cons.1 he with rfl | he
        · exact hb.1
        · exact hi.2 e he
    | some c =>
      have hk := chain_update_keys _ _ _ _ hc
      refine ⟨?_, ?_⟩
      · show (c.map hash_entry_t.key).Nodup
        rw [hk]; exact hi.1
      · intro e he
        have : e.key ∈ c.map hash_entry_t.key := List.mem_map_of_mem _ he
        rw [hk] at this
        obtain ⟨e', he', hke⟩ := List.mem_map.1 this
        rw [← hke]; exact hi.2 e' he'
  · rw [if_neg hb]; exact h i

theorem table_wf_delete (table : hash_table_t) (key : List Byte) (h : table_wf table) :
    table_wf (hash_table_delete table key).2 := by
  intro i
  rw [buckets_getD_delete, hash_table_delete_bucket_count]
  by_cases hb : hash_string key % table.bucket_count = i ∧ 0 < table.bucket_count
  · rw [if_pos hb]
    have hi := h i
    have hch : chain_of table key = table.buckets.getD i [] := by
      unfold chain_of; rw [hb.1]
    rw [hch]
    cases hc : chain_unlink key (table.buckets.getD i []) with
    | none => exact hi
    | some c =>
      have hs := chain_unlink_sublist _ _ _ hc
      exact ⟨(hs.map _).nodup hi.1, fun e he => hi.2 e (hs.subset he)⟩
  · rw [if_neg hb]; exact h i

/-- In a well-formed table no key occurs twice among all entries. -/
theorem table_wf_nodup (t : hash_table_t) (h : table_wf t) :
    (t.buckets.flatten.map hash_entry_t.key).Nodup := by
  rw [List.map_flatten, List.nodup_flatten]
  constructor
  · intro l hl
    obtain ⟨c, hc, rfl⟩ := List.mem_map.1 hl
    obtain ⟨i, hi, rfl⟩ := List.mem_iff_getElem.1 hc
    have := (h i).1
    rwa [List.getD_eq_getElem?_getD, List.getElem?_eq_getElem hi] at this
  · rw [List.pairwise_map, List.pairwise_iff_getElem]
    intro i j hi hj hij
    rw [List.disjoint_left]
    intro k hk1 hk2
    obtain ⟨e1, he1, hk1⟩ := List.mem_map.1 hk1
    obtain ⟨e2, he2, hk2⟩ := List.mem_map.1 hk2
    have h1 := (h i).2 e1 (by
      rw [List.getD_eq_getElem?_getD, List.getElem?_eq_getElem hi]; exact he1)
    have h2 := (h j).2 e2 (by
      rw [List.getD_eq_getElem?_getD, List.getElem?_eq_getElem hj]; exact he2)
    rw [hk1] at h1; rw [hk2] at h2
    omega

/-- In a well-formed table the entries with a given key are those of its chain. -/
theorem table_wf_mem (t : hash_table_t) (h : table_wf t) (e : hash_entry_t) :
    e ∈ t.buckets.flatten ↔ e ∈ chain_of t e.key := by
  constructor
  · intro he
    obtain ⟨c, hc, hec⟩ := List.mem_flatten.1 he
    obtain ⟨i, hi, rfl⟩ := List.mem_iff_getElem.1 hc
    have h1 := (h i).2 e (by
      rw [List.getD_eq_getElem?_getD, List.getElem?_eq_getElem hi]; exact hec)
    unfold chain_of
    rw [h1, List.getD_eq_getElem?_getD, List.getElem?_eq_getElem hi]; exact hec
  · intro he
    unfold chain_of at he
    rw [List.getD_eq_getElem?_getD] at he
    by_cases hl : hash_string e.key % t.bucket_count < t.buckets.length
    · rw [List.getElem?_eq_getElem hl] at he
      exact List.mem_flatten.2 ⟨_, List.getElem_mem _, he⟩
    · rw [List.getElem?_eq_none (Nat.le_of_not_lt hl)] at he
      simp at he

theorem table_wf_lookup (t : hash_table_t) (h : table_wf t) (key : List Byte) :
    chain_lookup key t.buckets.flatten = chain_lookup key (chain_of t key) := by
  have hnd := table_wf_nodup t h
  have hnd2 : ((chain_of t key).map hash_entry_t.key).Nodup := (h _).1
  cases h2 : chain_lookup key (chain_of t key) with
  | none =>
    rw [chain_lookup_eq_none] at h2 ⊢
    intro hmem
    obtain ⟨e, he, hk⟩ := List.mem_map.1 hmem
    apply h2
    rw [table_wf_mem t h, hk] at he
    rw [← hk]; rw [← hk] at he
    exact List.mem_map_of_mem _ he
  | some e =>
    rw [chain_lookup_eq_some _ _ _ hnd2] at h2
    rw [chain_lookup_eq_some _ _ _ hnd, table_wf_mem t h, h2.2]
    exact ⟨h2.1, rfl⟩


theorem commit_chain_bucket_count (table : hash_table_t) (chain : List hash_entry_t) :
    (commit_chain table chain).bucket_count = table.bucket_count := by
  induction chain generalizing table with
  | nil => rfl
  | cons e rest ih =>
    show (commit_chain (hash_table_put table e.key e.value).2 rest).bucket_count = _
    rw [ih, hash_table_put_bucket_count]

theorem commit_buckets_eq (table : hash_table_t) (buckets : List (List hash_entry_t)) :
    commit_buckets table buckets = commit_chain table buckets.flatten := by
  unfold commit_buckets commit_chain
  rw [List.foldl_flatten]

/-- Applying a list of entries without repeated keys: a key of the list ends with the
value of its entry, every other key keeps what it had. -/
theorem hash_table_get_commit_chain (table : hash_table_t) (entries : List hash_entry_t)
    (key : List Byte) (h0 : 0 < table.bucket_count)
    (hnd : (entries.map hash_entry_t.key).Nodup) :
    hash_table_get (commit_chain table entries) key =
      match chain_lookup key entries with
      | some entry => (SUCCESS, some entry.value)
      | none => hash_table_get table key := by
  induction entries generalizing table with
  | nil => rfl
  | cons e rest ih =>
    rw [List.map_cons, List.nodup_cons] at hnd
    show hash_table_get (commit_chain (hash_table_put table e.key e.value).2 rest) key = _
    rw [ih _ (by rw [hash_table_put_bucket_count]; exact h0) hnd.2]
    by_cases hk : e.key = key
    · have hnone : chain_lookup key rest = none := by
        rw [chain_lookup_eq_none, ← hk]; exact hnd.1
      simp only [chain_lookup, hk, if_true, hnone]
      rw [← hk]
      exact hash_table_get_put_self _ _ _ h0
    · simp only [chain_lookup, hk, if_false]
      rw [hash_table_get_put_other _ _ _ _ (fun h => hk h.symm)]

theorem chain_lookup_perm (key : List Byte) (l1 l2 : List hash_entry_t) (hp : l1.Perm l2)
    (hnd : (l1.map hash_entry_t.key).Nodup) :
    chain_lookup key l1 = chain_lookup key l2 := by
  have hnd2 : (l2.map hash_entry_t.key).Nodup := ((hp.map _).nodup_iff).1 hnd
  cases h2 : chain_lookup key l2 with
  | none =>
    rw [chain_lookup_eq_none] at h2 ⊢
    intro hm; exact h2 (((hp.map _).mem_iff).1 hm)
  | some e =>
    rw [chain_lookup_eq_some _ _ _ hnd2] at h2
    rw [chain_lookup_eq_some _ _ _ hnd]
    exact ⟨hp.mem_iff.2 h2.1, h2.2⟩

/-! ## Log record lemmas -/

theorem u32_at_header (magic type txn_id key_size value_size : Nat) (data rest file : List Byte)
    (hfile : wal_entry_bytes magic type txn_id key_size value_size data ++ rest = file) :
    u32_at (file.take WAL_HEADER_SIZE) 0 = magic % 4294967296 ∧
    u32_at (file.take WAL_HEADER_SIZE) 4 = type % 4294967296 ∧
    u32_at (file.take WAL_HEADER_SIZE) 16 = key_size % 4294967296 ∧
    u32_at (file.take WAL_HEADER_SIZE) 20 = value_size % 4294967296 := by
  subst hfile
  simp only [wal_entry_bytes, u32_bytes, u64_bytes, WAL_HEADER_SIZE, List.cons_append,
    List.nil_append, List.take_succ_cons, List.take_zero, u32_at, List.getD_cons_succ,
    List.getD_cons_zero, byte, List.append_assoc]
  refine ⟨?_, ?_, ?_, ?_⟩ <;> omega

theorem wal_entry_bytes_length (magic type txn_id key_size value_size : Nat)
    (data : List Byte) :
    (wal_entry_bytes magic type txn_id key_size value_size data).length
      = WAL_HEADER_SIZE + data.length := by
  simp [wal_entry_bytes, u32_bytes, u64_bytes, WAL_HEADER_SIZE]
  omega

theorem wal_entry_bytes_drop (magic type txn_id key_size value_size : Nat)
    (data rest : List Byte) :
    (wal_entry_bytes magic type txn_id key_size value_size data ++ rest).drop WAL_HEADER_SIZE
      = data ++ rest := by
  simp [wal_entry_bytes, u32_bytes, u64_bytes, WAL_HEADER_SIZE]

theorem read_fill_full (data rest : List Byte) (junk : Nat → Byte) :
    read_fill (data ++ rest) data.length junk = data := by
  simp [read_fill]

theorem c_string_at_terminated (key tail : List Byte) (h : (0 : Byte) ∉ key) :
    c_string_at (key ++ 0 :: tail) = some key := by
  induction key with
  | nil => simp [c_string_at]
  | cons c cs ih =>
    have hc : c ≠ 0 := fun hc => h (by simp [hc])
    have hcs : (0 : Byte) ∉ cs := fun hm => h (List.mem_cons_of_mem _ hm)
    simp [c_string_at, hc, ih hcs]

/-- One round of recovery over a record with the valid marker. -/
theorem recover_loop_header (junk : Nat → Byte) (fuel : Nat) (table : hash_table_t)
    (type key_size value_size : Nat) (data rest : List Byte)
    (hk : key_size < 4294967296) (hv : value_size < 4294967296)
    (ht : type < 4294967296) :
    recover_loop junk (fuel + 1) table
        (wal_entry_bytes WAL_MAGIC type 0 key_size value_size data ++ rest)
      = if type = WAL_ENTRY_PUT then
          match c_string_at
              (read_fill (data ++ rest) ((key_size + value_size) % 4294967296) junk) with
          | none => none
          | some key =>
            if key_size + value_size
                ≤ (read_fill (data ++ rest)
                    ((key_size + value_size) % 4294967296) junk).length then
              recover_loop junk fuel
                (hash_table_put table key
                  (((read_fill (data ++ rest) ((key_size + value_size) % 4294967296)
                    junk).drop key_size).take value_size)).2
                ((data ++ rest).drop ((key_size + value_size) % 4294967296))
            else none
        else if type = WAL_ENTRY_DELETE then
          match c_string_at
              (read_fill (data ++ rest) ((key_size + value_size) % 4294967296) junk) with
          | none => none
          | some key =>
            recover_loop junk fuel (hash_table_delete table key).2
              ((data ++ rest).drop ((key_size + value_size) % 4294967296))
        else recover_loop junk fuel table
          ((data ++ rest).drop ((key_size + value_size) % 4294967296)) := by
  generalize hfile : wal_entry_bytes WAL_MAGIC type 0 key_size value_size data ++ rest = file
  have hh := u32_at_header _ _ _ _ _ _ _ _ hfile
  have hlen : ¬ file.length < WAL_HEADER_SIZE := by
    rw [← hfile, List.length_append, wal_entry_bytes_length]; omega
  have hdrop : file.drop WAL_HEADER_SIZE = data ++ rest := by
    rw [← hfile, wal_entry_bytes_drop]
  have hmagic : WAL_MAGIC % 4294967296 = WAL_MAGIC := by decide
  rw [recover_loop]
  simp only [hh.1, hh.2.1, hh.2.2.1, hh.2.2.2, hlen, if_false, hmagic, ne_eq,
    not_true_eq_false, Nat.mod_eq_of_lt hk, Nat.mod_eq_of_lt hv, Nat.mod_eq_of_lt ht,
    hdrop]

/-- One round of recovery over a record with the valid marker whose `data` is complete. -/
theorem recover_loop_entry (junk : Nat → Byte) (fuel : Nat) (table : hash_table_t)
    (type key_size value_size : Nat) (data rest : List Byte)
    (hk : key_size < 4294967296) (hv : value_size < 4294967296)
    (ht : type < 4294967296)
    (hcount : (key_size + value_size) % 4294967296 = data.length) :
    recover_loop junk (fuel + 1) table
        (wal_entry_bytes WAL_MAGIC type 0 key_size value_size data ++ rest)
      = if type = WAL_ENTRY_PUT then
          match c_string_at data with
          | none => none
          | some key =>
            if key_size + value_size ≤ data.length then
              recover_loop junk fuel
                (hash_table_put table key ((data.drop key_size).take value_size)).2 rest
            else none
        else if type = WAL_ENTRY_DELETE then
          match c_string_at data with
          | none => none
          | some key => recover_loop junk fuel (hash_table_delete table key).2 rest
        else recover_loop junk fuel table rest := by
  rw [recover_loop_header junk fuel table type key_size value_size data rest hk hv ht]
  simp only [hcount, read_fill_full, List.drop_left]

theorem read_fill_length (file : List Byte) (count : Nat) (junk : Nat → Byte) :
    (read_fill file count junk).length = count := by
  unfold read_fill
  simp only [List.length_append, List.length_map, List.length_range', List.length_take]
  omega

/-- The first `w` bytes of a record, for `w` of at least the header size: the whole
header and the first `w - 24` bytes of the data. -/
theorem wal_entry_bytes_take (magic type txn_id key_size value_size : Nat)
    (data : List Byte) (w : Nat) (hw : WAL_HEADER_SIZE ≤ w) :
    (wal_entry_bytes magic type txn_id key_size value_size data).take w
      = wal_entry_bytes magic type txn_id key_size value_size
          (data.take (w - WAL_HEADER_SIZE)) := by
  have hl : (u32_bytes magic ++ u32_bytes type ++ u64_bytes txn_id ++ u32_bytes key_size
      ++ u32_bytes value_size).length = WAL_HEADER_SIZE := by
    simp [u32_bytes, u64_bytes, WAL_HEADER_SIZE]
  unfold wal_entry_bytes
  rw [List.take_append_eq_append_take, hl, List.take_of_length_le (by rw [hl]; exact hw)]

/-- Recovery over the part of a Put record that reached the file, header included, when
the two sizes of the record add up to `2^32` or more: the buffer has the wrapped sum as
its size, and the key or the value is read past its end. -/
theorem recover_loop_put_cut (junk : Nat → Byte) (fuel : Nat) (table : hash_table_t)
    (key value : List Byte) (w : Nat)
    (hk : key.length + 1 < 4294967296) (hv : value.length < 4294967296)
    (hov : 4294967296 ≤ key.length + 1 + value.length) (hw : WAL_HEADER_SIZE ≤ w) :
    recover_loop junk (fuel + 1) table ((put_entry key value).take w) = none := by
  have ht : WAL_ENTRY_PUT < 4294967296 := by decide
  have h := recover_loop_header junk fuel table WAL_ENTRY_PUT (key.length + 1) value.length
    ((key ++ [0] ++ value).take (w - WAL_HEADER_SIZE)) [] hk hv ht
  rw [List.append_nil, List.append_nil] at h
  rw [put_entry, wal_entry_bytes_take _ _ _ _ _ _ _ hw, h, if_pos rfl]
  have hlen := read_fill_length ((key ++ [0] ++ value).take (w - WAL_HEADER_SIZE))
    ((key.length + 1 + value.length) % 4294967296) junk
  have hshort : ¬ key.length + 1 + value.length
      ≤ (read_fill ((key ++ [0] ++ value).take (w - WAL_HEADER_SIZE))
          ((key.length + 1 + value.length) % 4294967296) junk).length := by
    rw [hlen]; omega
  generalize c_string_at (read_fill ((key ++ [0] ++ value).take (w - WAL_HEADER_SIZE))
    ((key.length + 1 + value.length) % 4294967296) junk) = str
  cases str with
  | none => rfl
  | some k => simp only [hshort, if_false]

/-- One round of recovery over a complete Put record. -/
theorem recover_loop_put (junk : Nat → Byte) (fuel : Nat) (table : hash_table_t)
    (key value rest : List Byte) (h0 : (0 : Byte) ∉ key)
    (hsz : key.length + 1 + value.length < 4294967296) :
    recover_loop junk (fuel + 1) table (put_entry key value ++ rest)
      = recover_loop junk fuel (hash_table_put table key value).2 rest := by
  have hlen : (key ++ [0] ++ value).length = key.length + 1 + value.length := by
    simp only [List.length_append, List.length_cons, List.length_nil]
  rw [put_entry, recover_loop_entry junk fuel table _ _ _ _ _ (by omega) (by omega)
    (by decide) (by rw [Nat.mod_eq_of_lt hsz, hlen])]
  have hstr : c_string_at (key ++ [0] ++ value) = some key := by
    rw [List.append_assoc]; exact c_string_at_terminated key value h0
  have hval : ((key ++ [0] ++ value).drop (key.length + 1)).take value.length = value := by
    have : (key ++ [0]).length = key.length + 1 := by simp
    rw [← this, List.drop_left, List.take_length]
  rw [if_pos rfl, hstr]
  simp only [hval]
  rw [if_pos (by omega)]

/-- One round of recovery over a complete Delete record. -/
theorem recover_loop_delete (junk : Nat → Byte) (fuel : Nat) (table : hash_table_t)
    (key rest : List Byte) (h0 : (0 : Byte) ∉ key)
    (hsz : key.length + 1 < 4294967296) :
    recover_loop junk (fuel + 1) table (delete_entry key ++ rest)
      = recover_loop junk fuel (hash_table_delete table key).2 rest := by
  have hlen : (key ++ [0]).length = key.length + 1 := by
    simp only [List.length_append, List.length_cons, List.length_nil]
  rw [delete_entry, recover_loop_entry junk fuel table _ _ _ _ _ (by omega) (by omega)
    (by decide) (by rw [Nat.add_zero, Nat.mod_eq_of_lt hsz, hlen])]
  have hstr : c_string_at (key ++ [0]) = some key := c_string_at_terminated key [] h0
  rw [if_neg (by decide), if_pos rfl, hstr]

/-! ## Replay and call sequences -/

theorem recover_loop_nil (junk : Nat → Byte) (fuel : Nat) (table : hash_table_t) :
    recover_loop junk fuel table [] = some table := by
  cases fuel with
  | zero => rfl
  | succ n => rw [recover_loop, if_pos (by decide)]

/-- The result of the recovery loop does not depend on the fuel once the fuel covers the
length of the unread log. -/
theorem recover_loop_fuel (junk : Nat → Byte) (fuel1 fuel2 : Nat) (table : hash_table_t)
    (file : List Byte) (h1 : file.length ≤ fuel1) (h2 : file.length ≤ fuel2) :
    recover_loop junk fuel1 table file = recover_loop junk fuel2 table file := by
  induction fuel1 generalizing fuel2 table file with
  | zero =>
    have : file = [] := List.length_eq_zero.1 (Nat.le_zero.1 h1)
    subst this
    rw [recover_loop_nil, recover_loop_nil]
  | succ f1 ih =>
    cases fuel2 with
    | zero =>
      have : file = [] := List.length_eq_zero.1 (Nat.le_zero.1 h2)
      subst this
      rw [recover_loop_nil, recover_loop_nil]
    | succ f2 =>
      by_cases hlen : file.length < WAL_HEADER_SIZE
      · rw [recover_loop, recover_loop, if_pos hlen, if_pos hlen]
      · have key : ∀ (t : hash_table_t) (n : Nat),
            recover_loop junk f1 t (List.drop n (List.drop WAL_HEADER_SIZE file))
              = recover_loop junk f2 t (List.drop n (List.drop WAL_HEADER_SIZE file)) := by
          intro t n
          have hl : (List.drop n (List.drop WAL_HEADER_SIZE file)).length + 24
              ≤ file.length := by
            simp only [List.length_drop, WAL_HEADER_SIZE] at hlen ⊢
            omega
          exact ih f2 t _ (by omega) (by omega)
        rw [recover_loop, recover_loop]
        simp only [key]

theorem replay_nil (junk : Nat → Byte) (table : hash_table_t) :
    replay junk table [] = some table := rfl

theorem replay_put (junk : Nat → Byte) (table : hash_table_t) (key value rest : List Byte)
    (h0 : (0 : Byte) ∉ key) (hsz : key.length + 1 + value.length < 4294967296) :
    replay junk table (put_entry key value ++ rest)
      = replay junk (hash_table_put table key value).2 rest := by
  unfold replay
  have hl : (put_entry key value ++ rest).length
      = (WAL_HEADER_SIZE + (key ++ [0] ++ value).length + rest.length - 1) + 1 := by
    rw [List.length_append, put_entry, wal_entry_bytes_length]
    simp only [WAL_HEADER_SIZE]
    omega
  rw [hl, recover_loop_put junk _ table key value rest h0 hsz]
  exact recover_loop_fuel junk _ _ _ _ (by simp only [WAL_HEADER_SIZE]; omega) (le_refl _)

theorem replay_delete (junk : Nat → Byte) (table : hash_table_t) (key rest : List Byte)
    (h0 : (0 : Byte) ∉ key) (hsz : key.length + 1 < 4294967296) :
    replay junk table (delete_entry key ++ rest)
      = replay junk (hash_table_delete table key).2 rest := by
  unfold replay
  have hl : (delete_entry key ++ rest).length
      = (WAL_HEADER_SIZE + (key ++ [0]).length + rest.length - 1) + 1 := by
    rw [List.length_append, delete_entry, wal_entry_bytes_length]
    simp only [WAL_HEADER_SIZE]
    omega
  rw [hl, recover_loop_delete junk _ table key rest h0 hsz]
  exact recover_loop_fuel junk _ _ _ _ (by simp only [WAL_HEADER_SIZE]; omega) (le_refl _)

theorem db_step_wal_fd (db : database) (call : db_call) :
    (db_step db call).wal_fd = db.wal_fd := by
  cases call with
  | put key value =>
    cases key <;> cases value <;> simp only [db_step, database_put]
    split <;> rfl
  | delete key => cases key <;> rfl

theorem db_step_wal_file (db : database) (call : db_call) (h : 0 ≤ db.wal_fd) :
    (db_step db call).wal_file = db.wal_file ++ call.entry := by
  cases call with
  | put key value =>
    cases key with
    | none => simp [db_step, database_put, db_call.entry]
    | some k =>
      cases value with
      | none => simp [db_step, database_put, db_call.entry]
      | some v =>
        by_cases hv : v.length = 0
        · simp [db_step, database_put, db_call.entry, hv]
        · simp [db_step, database_put, db_call.entry, hv, h]
  | delete key =>
    cases key with
    | none => simp [db_step, database_delete, db_call.entry]
    | some k => simp [db_step, database_delete, db_call.entry, h]

theorem db_run_wal_fd (db : database) (calls : List db_call) :
    (db_run db calls).wal_fd = db.wal_fd := by
  induction calls generalizing db with
  | nil => rfl
  | cons c cs ih =>
    show (db_run (db_step db c) cs).wal_fd = _
    rw [ih, db_step_wal_fd]

theorem db_run_wal_file (db : database) (calls : List db_call) (h : 0 ≤ db.wal_fd) :
    (db_run db calls).wal_file = db.wal_file ++ calls.flatMap db_call.entry := by
  induction calls generalizing db with
  | nil => simp [db_run]
  | cons c cs ih =>
    show (db_run (db_step db c) cs).wal_file = _
    rw [ih _ (by rw [db_step_wal_fd]; exact h), db_step_wal_file _ _ h]
    simp [List.flatMap_cons]

/-- Replaying the record of a call does to a table what the call did to the Index. -/
theorem replay_call (junk : Nat → Byte) (db : database) (call : db_call) (rest : List Byte)
    (hfit : call.fits) :
    replay junk db.table (call.entry ++ rest) = replay junk (db_step db call).table rest := by
  cases call with
  | put key value =>
    cases key with
    | none => simp [db_step, database_put, db_call.entry]
    | some k =>
      cases value with
      | none => simp [db_step, database_put, db_call.entry]
      | some v =>
        by_cases hv : v.length = 0
        · simp [db_step, database_put, db_call.entry, hv]
        · have h := replay_put junk db.table k v rest hfit.1 hfit.2
          simp only [db_step, database_put, db_call.entry, hv, if_false]
          exact h
  | delete key =>
    cases key with
    | none => simp [db_step, database_delete, db_call.entry]
    | some k =>
      have h := replay_delete junk db.table k rest hfit.1 hfit.2
      simp only [db_step, database_delete, db_call.entry]
      exact h

theorem replay_calls (junk : Nat → Byte) (db : database) (calls : List db_call)
    (rest : List Byte) (hfit : ∀ c ∈ calls, c.fits) :
    replay junk db.table (calls.flatMap db_call.entry ++ rest)
      = replay junk (db_run db calls).table rest := by
  induction calls generalizing db with
  | nil => simp [db_run]
  | cons c cs ih =>
    show _ = replay junk (db_run (db_step db c) cs).table rest
    rw [List.flatMap_cons, List.append_assoc,
      replay_call junk db c _ (hfit c (List.mem_cons_self _ _)),
      ih _ (fun x hx => hfit x (List.mem_cons_of_mem _ hx))]

/-! ## Transactions -/

theorem txn_step_committed (txn : transaction) (call : txn_call) :
    (txn_step txn call).committed = txn.committed := by
  cases call with
  | put key value => cases key <;> cases value <;> rfl
  | delete key => cases key <;> rfl

theorem txn_run_committed (txn : transaction) (calls : List txn_call) :
    (txn_run txn calls).committed = txn.committed := by
  induction calls generalizing txn with
  | nil => rfl
  | cons c cs ih =>
    show (txn_run (txn_step txn c) cs).committed = _
    rw [ih, txn_step_committed]

theorem txn_step_wf (txn : transaction) (call : txn_call) (h : table_wf txn.writes) :
    table_wf (txn_step txn call).writes := by
  cases call with
  | put key value =>
    cases key with
    | none => exact h
    | some k =>
      cases value with
      | none => exact h
      | some v => exact table_wf_put _ _ _ h
  | delete key =>
    cases key with
    | none => exact h
    | some k => exact table_wf_delete _ _ h

theorem txn_run_wf (txn : transaction) (calls : List txn_call) (h : table_wf txn.writes) :
    table_wf (txn_run txn calls).writes := by
  induction calls generalizing txn with
  | nil => exact h
  | cons c cs ih => exact ih _ (txn_step_wf txn c h)

theorem txn_step_bucket_count (txn : transaction) (call : txn_call) :
    (txn_step txn call).writes.bucket_count = txn.writes.bucket_count := by
  cases call with
  | put key value =>
    cases key with
    | none => rfl
    | some k =>
      cases value with
      | none => rfl
      | some v => exact hash_table_put_bucket_count _ _ _
  | delete key =>
    cases key with
    | none => rfl
    | some k => exact hash_table_delete_bucket_count _ _

theorem txn_run_bucket_count (txn : transaction) (calls : List txn_call) :
    (txn_run txn calls).writes.bucket_count = txn.writes.bucket_count := by
  induction calls generalizing txn with
  | nil => rfl
  | cons c cs ih =>
    show (txn_run (txn_step txn c) cs).writes.bucket_count = _
    rw [ih, txn_step_bucket_count]

theorem txn_step_get_other (txn : transaction) (call : txn_call) (key : List Byte)
    (h : call.key ≠ some key) :
    hash_table_get (txn_step txn call).writes key = hash_table_get txn.writes key := by
  cases call with
  | put k value =>
    cases k with
    | none => rfl
    | some k =>
      cases value with
      | none => rfl
      | some v =>
        have hne : key ≠ k := fun e => h (by rw [e]; rfl)
        exact hash_table_get_put_other _ _ _ _ hne
  | delete k =>
    cases k with
    | none => rfl
    | some k =>
      have hne : key ≠ k := fun e => h (by rw [e]; rfl)
      exact hash_table_get_delete_other _ _ _ hne

theorem txn_run_get_other (txn : transaction) (calls : List txn_call) (key : List Byte)
    (h : ∀ c ∈ calls, c.key ≠ some key) :
    hash_table_get (txn_run txn calls).writes key = hash_table_get txn.writes key := by
  induction calls generalizing txn with
  | nil => rfl
  | cons c cs ih =>
    show hash_table_get (txn_run (txn_step txn c) cs).writes key = _
    rw [ih _ (fun x hx => h x (List.mem_cons_of_mem _ hx)),
      txn_step_get_other _ _ _ (h c (List.mem_cons_self _ _))]

/-- A live Transaction whose `committed` flag is clear is applied and freed. -/
theorem transaction_commit_live (db : database) (txn : transaction)
    (h : txn.committed = false) :
    transaction_commit db (txn_object.live txn)
      = some (SUCCESS,
          { wal_file := db.wal_file, table := commit_buckets db.table txn.writes.buckets,
            wal_fd := db.wal_fd, next_txn_id := db.next_txn_id, is_open := db.is_open },
          txn_object.freed) := by
  simp only [transaction_commit, h, Bool.false_eq_true, if_false]

/-- A commit that has a result was handed a live Transaction and changed at most the
Index, by the loops over the write set. -/
theorem transaction_commit_some (db : database) (txn : txn_object)
    (r : Int × database × txn_object) (h : transaction_commit db txn = some r) :
    ∃ t : transaction, txn = txn_object.live t ∧
      (r.2.1 = db ∨
        r.2.1 = { wal_file := db.wal_file,
                  table := commit_buckets db.table t.writes.buckets,
                  wal_fd := db.wal_fd, next_txn_id := db.next_txn_id,
                  is_open := db.is_open }) := by
  cases txn with
  | freed => simp only [transaction_commit] at h; cases h
  | live t =>
    refine ⟨t, rfl, ?_⟩
    by_cases hc : t.committed = true
    · simp only [transaction_commit, hc, if_true] at h
      cases h
      exact Or.inl rfl
    · simp only [transaction_commit, hc, if_false] at h
      cases h
      exact Or.inr rfl

/-- A rollback that has a result returns the Engine as it was passed. -/
theorem transaction_rollback_some (db : database) (txn : txn_object)
    (r : Int × database × txn_object) (h : transaction_rollback db txn = some r) :
    r.2.1 = db := by
  cases txn with
  | freed => simp only [transaction_rollback] at h; cases h
  | live t => simp only [transaction_rollback] at h; cases h; rfl

/-- The write set holds the value of the last put of a key. -/
theorem txn_run_get_last (txn : transaction) (pre post : List txn_call)
    (key value : List Byte) (h0 : 0 < txn.writes.bucket_count)
    (hpost : ∀ c ∈ post, c.key ≠ some key) :
    hash_table_get
        (txn_run txn (pre ++ txn_call.put (some key) (some value) :: post)).writes key
      = (SUCCESS, some value) := by
  unfold txn_run
  rw [List.foldl_append, List.foldl_cons]
  have h := txn_run_get_other
    (txn_step (txn_run txn pre) (txn_call.put (some key) (some value))) post key hpost
  unfold txn_run at h
  rw [h]
  have hb : 0 < (List.foldl txn_step txn pre).writes.bucket_count := by
    have := txn_run_bucket_count txn pre
    unfold txn_run at this
    rw [this]; exact h0
  exact hash_table_get_put_self _ _ _ hb

/-- The Index after a commit, read through `hash_table_get`: the value of the write set
where it holds the key, the value before the commit elsewhere. -/
theorem hash_table_get_commit_buckets (table writes : hash_table_t) (key : List Byte)
    (h0 : 0 < table.bucket_count) (hwf : table_wf writes) :
    hash_table_get (commit_buckets table writes.buckets) key =
      if (hash_table_get writes key).1 = SUCCESS then hash_table_get writes key
      else hash_table_get table key := by
  rw [commit_buckets_eq, hash_table_get_commit_chain _ _ _ h0 (table_wf_nodup _ hwf),
    table_wf_lookup _ hwf, hash_table_get_eq writes]
  cases chain_lookup key (chain_of writes key) with
  | none => simp [SUCCESS, ERROR_NOT_FOUND]
  | some e => simp

/-! ## Claims -/

set_option maxRecDepth 100000

/-- The write-ahead invariant where no record wraps.  A freshly created Engine is opened
over the log left by earlier calls `calls0` (empty for none) and then runs any sequence
`calls` of `database_put` and `database_delete` calls whose records are written whole.
When in each call the key is a C string and `strlen(key) + 1 + value_size` is below `2^32`,
the open returns SUCCESS and replaying the Engine's log from its start into an empty Index
yields exactly the Engine's Index. -/
theorem write_ahead_replay (calls0 calls : List db_call) (fd : Int) (junk junk' : Nat → Byte)
    (hfd : 0 ≤ fd) (hfit : ∀ c ∈ calls0 ++ calls, c.fits) :
    ∃ db1 : database,
      database_open (database_create (calls0.flatMap db_call.entry)) fd junk
        = some (SUCCESS, db1) ∧
      replay junk' (hash_table_create 1024) (db_run db1 calls).wal_file
        = some (db_run db1 calls).table := by
  have hfit0 : ∀ c ∈ calls0, c.fits := fun c hc => hfit c (List.mem_append_left _ hc)
  have hfit1 : ∀ c ∈ calls, c.fits := fun c hc => hfit c (List.mem_append_right _ hc)
  have hrep : ∀ j : Nat → Byte,
      replay j (hash_table_create 1024) (calls0.flatMap db_call.entry)
        = some (db_run (database_create []) calls0).table := by
    intro j
    have h := replay_calls j (database_create []) calls0 [] hfit0
    rw [List.append_nil] at h
    exact h
  have hnot : ¬ fd < 0 := by omega
  refine ⟨{ database_create (calls0.flatMap db_call.entry) with
      wal_fd := fd, table := (db_run (database_create []) calls0).table,
      is_open := true }, ?_, ?_⟩
  · simp only [database_open, database_recover, database_create, hnot, if_false,
      Bool.false_eq_true]
    have h := hrep junk
    simp only [database_create] at h
    rw [h]
  · rw [db_run_wal_file _ _ hfd]
    show replay junk' (hash_table_create 1024)
      (calls0.flatMap db_call.entry ++ calls.flatMap db_call.entry) = _
    have h1 := replay_calls junk' (database_create []) calls0
      (calls.flatMap db_call.entry) hfit0
    have h2 := replay_calls junk'
      { database_create (calls0.flatMap db_call.entry) with
        wal_fd := fd, table := (db_run (database_create []) calls0).table,
        is_open := true } calls [] hfit1
    rw [List.append_nil] at h2
    exact h1.trans h2

/-- The invariant at a concrete input: the log of an earlier `put("a","1")`, then
`put("b","2")` and `delete("a")`. -/
theorem write_ahead_replay_witness :
    ((0 : Int) ≤ 3 ∧
      ∀ c ∈ [db_call.put (some [97]) (some [49])]
          ++ [db_call.put (some [98]) (some [50]), db_call.delete (some [97])], c.fits) ∧
    ∃ db1 : database,
      database_open
          (database_create ([db_call.put (some [97]) (some [49])].flatMap db_call.entry))
          3 (fun _ => 0) = some (SUCCESS, db1) ∧
      replay (fun _ => 7) (hash_table_create 1024)
          (db_run db1
            [db_call.put (some [98]) (some [50]), db_call.delete (some [97])]).wal_file
        = some (db_run db1
            [db_call.put (some [98]) (some [50]), db_call.delete (some [97])]).table :=
  ⟨⟨by decide, by decide⟩,
    write_ahead_replay [db_call.put (some [97]) (some [49])]
      [db_call.put (some [98]) (some [50]), db_call.delete (some [97])] 3
      (fun _ => 0) (fun _ => 7) (by decide) (by decide)⟩

theorem replay_put_cut (junk : Nat → Byte) (table : hash_table_t) (key value : List Byte)
    (w : Nat) (hk : key.length + 1 < 4294967296) (hv : value.length < 4294967296)
    (hov : 4294967296 ≤ key.length + 1 + value.length) (hw : WAL_HEADER_SIZE ≤ w) :
    replay junk table ((put_entry key value).take w) = none := by
  unfold replay
  have hl : ((put_entry key value).take w).length
      = ((put_entry key value).take w).length - 1 + 1 := by
    rw [List.length_take, put_entry, wal_entry_bytes_length]
    simp only [WAL_HEADER_SIZE] at hw ⊢
    omega
  rw [hl]
  exact recover_loop_put_cut junk _ table key value w hk hv hov hw

/-- A `database_put` whose value size is below `2^32` while `strlen(key) + 1 + value_size`
is `2^32` or more, on an Engine with an open, empty log.  Whatever number `w` of bytes of
the record reaches the file, the header included (`24 ≤ w`): the put returns SUCCESS and
the Index holds the pair, the log holds the first `w` bytes of the record, and neither the
replay of that log into any table nor `database_open` of a new Engine over it has a
result, because the key or the value is read outside the buffer. -/
theorem database_put_wrapped_record (db : database) (key value : List Byte) (w : Nat)
    (fd : Int) (junk : Nat → Byte)
    (hopen : 0 ≤ db.wal_fd) (hlog : db.wal_file = []) (hb : 0 < db.table.bucket_count)
    (hk : key.length + 1 < 4294967296) (hv : value.length < 4294967296)
    (hov : 4294967296 ≤ key.length + 1 + value.length) (hw : 24 ≤ w) (hfd : 0 ≤ fd) :
    (database_put db (some key) (some value) w).1 = SUCCESS ∧
    database_get (database_put db (some key) (some value) w).2 (some key)
      = (SUCCESS, some value) ∧
    (database_put db (some key) (some value) w).2.wal_file = (put_entry key value).take w ∧
    (∀ table : hash_table_t,
      replay junk table (database_put db (some key) (some value) w).2.wal_file = none) ∧
    database_open (database_create (database_put db (some key) (some value) w).2.wal_file)
      fd junk = none := by
  have hne : ¬ value.length = 0 := by omega
  have hfile : (database_put db (some key) (some value) w).2.wal_file
      = (put_entry key value).take w := by
    simp only [database_put, hne, if_false, hopen, if_true, hlog, List.nil_append]
  have hrep : ∀ table : hash_table_t,
      replay junk table ((put_entry key value).take w) = none :=
    fun table => replay_put_cut junk table key value w hk hv hov hw
  refine ⟨?_, ?_, hfile, fun table => by rw [hfile]; exact hrep table, ?_⟩
  · simp only [database_put, hne, if_false]
    exact hash_table_put_rc _ _ _
  · simp only [database_put, hne, if_false, database_get]
    exact hash_table_get_put_self _ _ _ hb
  · rw [hfile]
    have hnot : ¬ fd < 0 := by omega
    simp only [database_open, database_recover, database_create, hnot, if_false,
      Bool.false_eq_true]
    rw [hrep]

/-- C1: on a freshly created Engine opened over an empty log, `database_put("k", value)`
with a value of `2^32 - 1` bytes, a value size below `2^32`.  `database_put` sizes the
record in `size_t` and stores `key_size = 2` and `value_size = 2^32 - 1` in the 32-bit
header fields; `database_recover` adds the two fields in 32 bits, so its buffer has the
wrapped sum, one byte, as size.  With the first 2147479552 bytes of the record in the file
(`0x7ffff000`, what a single `write` stores): the put returns SUCCESS, the Index holds the
pair, the log has 2147479552 bytes, and `database_open` of a new Engine over that log has
no result, the key being read past the one-byte buffer.  The same holds for every number
`w` of stored bytes that covers the header and for every content of unfilled memory. -/
theorem wrapped_record_breaks_replay :
    database_open (database_create []) 3 (fun _ => 0)
      = some (SUCCESS, { database_create [] with wal_fd := 3, is_open := true }) ∧
    (List.replicate 4294967295 (1 : Byte)).length < 4294967296 ∧
    (database_put { database_create [] with wal_fd := 3, is_open := true }
        (some [107]) (some (List.replicate 4294967295 1)) 2147479552).1 = SUCCESS ∧
    database_get
        (database_put { database_create [] with wal_fd := 3, is_open := true }
          (some [107]) (some (List.replicate 4294967295 1)) 2147479552).2 (some [107])
      = (SUCCESS, some (List.replicate 4294967295 1)) ∧
    (database_put { database_create [] with wal_fd := 3, is_open := true }
        (some [107]) (some (List.replicate 4294967295 1)) 2147479552).2.wal_file.length
      = 2147479552 ∧
    database_open
        (database_create
          (database_put { database_create [] with wal_fd := 3, is_open := true }
            (some [107]) (some (List.replicate 4294967295 1)) 2147479552).2.wal_file)
        3 (fun _ => 0) = none ∧
    ∀ (w : Nat) (junk : Nat → Byte), 24 ≤ w →
      (database_put { database_create [] with wal_fd := 3, is_open := true }
          (some [107]) (some (List.replicate 4294967295 1)) w).1 = SUCCESS ∧
      replay junk (hash_table_create 1024)
          (database_put { database_create [] with wal_fd := 3, is_open := true }
            (some [107]) (some (List.replicate 4294967295 1)) w).2.wal_file = none ∧
      database_open
          (database_create
            (database_put { database_create [] with wal_fd := 3, is_open := true }
              (some [107]) (some (List.replicate 4294967295 1)) w).2.wal_file)
          3 junk = none := by
  have hlen : (List.replicate 4294967295 (1 : Byte)).length = 4294967295 :=
    List.length_replicate _ _
  have hall : ∀ (w : Nat) (junk : Nat → Byte), 24 ≤ w →
      _ ∧ _ ∧ _ ∧ _ ∧ _ :=
    fun w junk hw =>
      database_put_wrapped_record { database_create [] with wal_fd := 3, is_open := true }
        [107] (List.replicate 4294967295 1) w 3 junk
        (by decide) (by decide) (by decide) (by decide)
        (by rw [hlen]; decide) (by rw [hlen]; decide) hw (by decide)
  have h := hall 2147479552 (fun _ => 0) (by decide)
  refine ⟨by decide, by rw [hlen]; decide, h.1, h.2.1, ?_, h.2.2.2.2,
    fun w junk hw =>
      ⟨(hall w junk hw).1, (hall w junk hw).2.2.2.1 _, (hall w junk hw).2.2.2.2⟩⟩
  rw [h.2.2.1, List.length_take, put_entry, wal_entry_bytes_length, List.length_append,
    List.length_append, hlen]
  simp only [WAL_HEADER_SIZE, List.length_cons, List.length_nil]
  decide

/-- C2: the scenario of the claim, run on the code.  An Engine is opened over an empty
directory; `put("a","1")`, `put("b","2")`, `delete("a")` (every record written whole) and
`database_close` return SUCCESS; the log is then empty, and a new Engine opened over the
same directory answers `get("b")` with ERROR_NOT_FOUND: `database_close` runs
`database_checkpoint`, which truncates the log the new Engine rebuilds its Index from. -/
theorem close_then_reopen_loses_put :
    database_open (database_create []) 3 (fun _ => 0)
      = some (SUCCESS, { database_create [] with wal_fd := 3, is_open := true }) ∧
    (database_put
        (db_run { database_create [] with wal_fd := 3, is_open := true }
          [db_call.put (some [97]) (some [49])])
        (some [98]) (some [50]) 27).1 = SUCCESS ∧
    database_get
        (db_run { database_create [] with wal_fd := 3, is_open := true }
          [db_call.put (some [97]) (some [49]), db_call.put (some [98]) (some [50]),
            db_call.delete (some [97])])
        (some [98]) = (SUCCESS, some [50]) ∧
    (database_close
        (db_run { database_create [] with wal_fd := 3, is_open := true }
          [db_call.put (some [97]) (some [49]), db_call.put (some [98]) (some [50]),
            db_call.delete (some [97])])).1 = SUCCESS ∧
    (database_close
        (db_run { database_create [] with wal_fd := 3, is_open := true }
          [db_call.put (some [97]) (some [49]), db_call.put (some [98]) (some [50]),
            db_call.delete (some [97])])).2.wal_file = [] ∧
    (database_open
        (database_create
          (database_close
            (db_run { database_create [] with wal_fd := 3, is_open := true }
              [db_call.put (some [97]) (some [49]), db_call.put (some [98]) (some [50]),
                db_call.delete (some [97])])).2.wal_file)
        3 (fun _ => 0)).map (fun r => (r.1, database_get r.2 (some [98])))
      = some (SUCCESS, (ERROR_NOT_FOUND, none)) := by
  decide

/-- C3: `database_put` and `database_delete` on an open Engine whose `write` stores no byte
of the record (`w = 0`).  Both return SUCCESS, the Index is changed by both (the key is
readable after the put and gone after the delete) and the log holds neither record. -/
theorem failed_append_still_applied :
    database_open (database_create []) 3 (fun _ => 0)
      = some (SUCCESS, { database_create [] with wal_fd := 3, is_open := true }) ∧
    (database_put { database_create [] with wal_fd := 3, is_open := true }
        (some [97]) (some [49]) 0).1 = SUCCESS ∧
    (database_put { database_create [] with wal_fd := 3, is_open := true }
        (some [97]) (some [49]) 0).2.wal_file = [] ∧
    database_get
        (database_put { database_create [] with wal_fd := 3, is_open := true }
          (some [97]) (some [49]) 0).2 (some [97]) = (SUCCESS, some [49]) ∧
    (database_delete
        (database_put { database_create [] with wal_fd := 3, is_open := true }
          (some [97]) (some [49]) 0).2 (some [97]) 0).1 = SUCCESS ∧
    (database_delete
        (database_put { database_create [] with wal_fd := 3, is_open := true }
          (some [97]) (some [49]) 0).2 (some [97]) 0).2.wal_file = [] ∧
    database_get
        (database_delete
          (database_put { database_create [] with wal_fd := 3, is_open := true }
            (some [97]) (some [49]) 0).2 (some [97]) 0).2 (some [97])
      = (ERROR_NOT_FOUND, none) := by
  decide

/-- C4: a log made of the complete record of `put("a","1")` followed by the record of
`put("k","v")` cut one byte short (header and key complete, the value byte missing).
`database_open` returns SUCCESS and the Index holds `"k"`, with the unspecified byte of the
unfilled buffer (here `170`) as its value: the cut record is applied. -/
theorem recover_applies_cut_record :
    (database_open (database_create (put_entry [97] [49] ++ (put_entry [107] [118]).take 26))
        3 (fun _ => 170)).map
      (fun r => (r.1, database_get r.2 (some [97]), database_get r.2 (some [107])))
      = some (SUCCESS, (SUCCESS, some [49]), (SUCCESS, some [170])) := by
  decide

/-- C5: a transaction with one buffered `put("x","1")` committed on an open Engine over an
empty log.  `transaction_commit` returns SUCCESS and the Index holds `"x"`; the log is
still empty, and its replay into an empty Index does not hold `"x"`. -/
theorem commit_appends_nothing :
    database_open (database_create []) 3 (fun _ => 0)
      = some (SUCCESS, { database_create [] with wal_fd := 3, is_open := true }) ∧
    (transaction_commit
        (database_begin_transaction { database_create [] with wal_fd := 3, is_open := true }
          isolation_level_t.ISOLATION_READ_COMMITTED).2
        (txn_object.live
          (transaction_put
            (database_begin_transaction
              { database_create [] with wal_fd := 3, is_open := true }
              isolation_level_t.ISOLATION_READ_COMMITTED).1
            (some [120]) (some [49])).2)).map (fun r => (r.1, r.2.2))
      = some (SUCCESS, txn_object.freed) ∧
    (transaction_commit
        (database_begin_transaction { database_create [] with wal_fd := 3, is_open := true }
          isolation_level_t.ISOLATION_READ_COMMITTED).2
        (txn_object.live
          (transaction_put
            (database_begin_transaction
              { database_create [] with wal_fd := 3, is_open := true }
              isolation_level_t.ISOLATION_READ_COMMITTED).1
            (some [120]) (some [49])).2)).map (fun r => database_get r.2.1 (some [120]))
      = some (SUCCESS, some [49]) ∧
    (transaction_commit
        (database_begin_transaction { database_create [] with wal_fd := 3, is_open := true }
          isolation_level_t.ISOLATION_READ_COMMITTED).2
        (txn_object.live
          (transaction_put
            (database_begin_transaction
              { database_create [] with wal_fd := 3, is_open := true }
              isolation_level_t.ISOLATION_READ_COMMITTED).1
            (some [120]) (some [49])).2)).map (fun r => r.2.1.wal_file)
      = some [] ∧
    (transaction_commit
        (database_begin_transaction { database_create [] with wal_fd := 3, is_open := true }
          isolation_level_t.ISOLATION_READ_COMMITTED).2
        (txn_object.live
          (transaction_put
            (database_begin_transaction
              { database_create [] with wal_fd := 3, is_open := true }
              isolation_level_t.ISOLATION_READ_COMMITTED).1
            (some [120]) (some [49])).2)).bind
        (fun r =>
          (replay (fun _ => 0) (hash_table_create 1024) r.2.1.wal_file).map
            (fun table => hash_table_get table [120]))
      = some (ERROR_NOT_FOUND, none) := by
  decide

/-- C6: read-committed isolation.  `T1` is begun on an Engine `db` (with a bucket array
that is not empty, as `database_create` makes it) and runs any calls of its write path in
which the last write of `key` is `transaction_put(key, value)`; `T2` is any Transaction
without an entry for `key`.  Before the commit every `database_get` and
every `transaction_get` of `T2` returns what it returned before `T1` began; the commit
returns SUCCESS (and frees `T1`), and on the Engine it leaves `database_get(key)` and
`T2`'s `transaction_get(key)` return `value`. -/
theorem read_committed_isolation (db : database) (level : isolation_level_t)
    (pre post : List txn_call) (key value : List Byte) (T2 : transaction)
    (h0 : 0 < db.table.bucket_count)
    (hpost : ∀ c ∈ post, c.key ≠ some key)
    (hT2 : (hash_table_get T2.writes key).1 ≠ SUCCESS) :
    (∀ k, database_get (database_begin_transaction db level).2 k = database_get db k) ∧
    (∀ k, transaction_get (database_begin_transaction db level).2 T2 k
        = transaction_get db T2 k) ∧
    ∃ db' : database,
      transaction_commit (database_begin_transaction db level).2
          (txn_object.live
            (txn_run (database_begin_transaction db level).1
              (pre ++ txn_call.put (some key) (some value) :: post)))
        = some (SUCCESS, db', txn_object.freed) ∧
      database_get db' (some key) = (SUCCESS, some value) ∧
      transaction_get db' T2 (some key) = (SUCCESS, some value) := by
  have hc : (txn_run (database_begin_transaction db level).1
      (pre ++ txn_call.put (some key) (some value) :: post)).committed = false := by
    rw [txn_run_committed]; rfl
  have hwf : table_wf (txn_run (database_begin_transaction db level).1
      (pre ++ txn_call.put (some key) (some value) :: post)).writes :=
    txn_run_wf _ _ (table_wf_create 64)
  have hlast := txn_run_get_last (database_begin_transaction db level).1 pre post key value
    (by show 0 < (hash_table_create 64).bucket_count; decide) hpost
  have h0' : 0 < (database_begin_transaction db level).2.table.bucket_count := h0
  have hget : hash_table_get
      (commit_buckets (database_begin_transaction db level).2.table
        (txn_run (database_begin_transaction db level).1
          (pre ++ txn_call.put (some key) (some value) :: post)).writes.buckets) key
      = (SUCCESS, some value) := by
    rw [hash_table_get_commit_buckets _ _ _ h0' hwf, hlast]
    simp
  refine ⟨fun k => rfl, fun k => rfl, _, transaction_commit_live _ _ hc, hget, ?_⟩
  simp only [transaction_get, if_neg hT2]
  exact hget

/-- C6 at the scenario of the claim: on a fresh Engine, `begin`, `put("x","1")` inside the
transaction, `get("x")` on the Engine is ERROR_NOT_FOUND, and after the commit it is
`"1"`. -/
theorem read_committed_isolation_witness :
    (0 < (database_create []).table.bucket_count ∧
      (∀ c ∈ ([] : List txn_call), c.key ≠ some [120]) ∧
      (hash_table_get (hash_table_create 64) [120]).1 ≠ SUCCESS) ∧
    database_get
      (database_begin_transaction (database_create [])
        isolation_level_t.ISOLATION_READ_COMMITTED).2 (some [120])
      = (ERROR_NOT_FOUND, none) ∧
    ∃ db' : database,
      transaction_commit
          (database_begin_transaction (database_create [])
            isolation_level_t.ISOLATION_READ_COMMITTED).2
          (txn_object.live
            (txn_run
              (database_begin_transaction (database_create [])
                isolation_level_t.ISOLATION_READ_COMMITTED).1
              ([] ++ txn_call.put (some [120]) (some [49]) :: [])))
        = some (SUCCESS, db', txn_object.freed) ∧
      database_get db' (some [120]) = (SUCCESS, some [49]) ∧
      transaction_get db'
          { txn_id := 7, level := isolation_level_t.ISOLATION_READ_COMMITTED,
            writes := hash_table_create 64, committed := false } (some [120])
        = (SUCCESS, some [49]) :=
  ⟨⟨by decide, by decide, by decide⟩, by decide,
    (read_committed_isolation (database_create [])
      isolation_level_t.ISOLATION_READ_COMMITTED [] [] [120] [49]
      { txn_id := 7, level := isolation_level_t.ISOLATION_READ_COMMITTED,
        writes := hash_table_create 64, committed := false }
      (by decide) (by decide) (by decide)).2.2⟩

/-- C7: rollback has no effect.  After `database_begin_transaction` and any sequence of
`transaction_put` / `transaction_delete` calls, `transaction_rollback` returns SUCCESS
(and frees the Transaction), and the Engine's Index and log are those from before the
transaction began. -/
theorem rollback_no_effect (db : database) (level : isolation_level_t)
    (calls : List txn_call) :
    ∃ db' : database,
      transaction_rollback (database_begin_transaction db level).2
          (txn_object.live (txn_run (database_begin_transaction db level).1 calls))
        = some (SUCCESS, db', txn_object.freed) ∧
      db'.table = db.table ∧ db'.wal_file = db.wal_file :=
  ⟨_, rfl, rfl, rfl⟩

/-- C8: commit applies the overlay.  For a Transaction begun on any Engine and carried
through any calls of its write path, `transaction_commit` on an Engine `db` (with a bucket
array that is not empty, as `database_create` makes it) returns SUCCESS and frees the
Transaction; on the Engine it leaves, every key the write set holds reads as the write
set's value and every other key reads as before the commit; and applying the entries of
the write set in any other order gives an Index that reads the same for every key. -/
theorem commit_applies_overlay (db0 db : database) (level : isolation_level_t)
    (calls : List txn_call) (h0 : 0 < db.table.bucket_count) :
    ∃ db' : database,
      transaction_commit db
          (txn_object.live (txn_run (database_begin_transaction db0 level).1 calls))
        = some (SUCCESS, db', txn_object.freed) ∧
      (∀ key : List Byte,
        database_get db' (some key)
          = if (hash_table_get
                (txn_run (database_begin_transaction db0 level).1 calls).writes key).1
                = SUCCESS
            then hash_table_get
              (txn_run (database_begin_transaction db0 level).1 calls).writes key
            else database_get db (some key)) ∧
      (∀ entries : List hash_entry_t,
        entries.Perm
          (txn_run (database_begin_transaction db0 level).1 calls).writes.buckets.flatten →
        ∀ key : List Byte,
          hash_table_get (commit_chain db.table entries) key
            = database_get db' (some key)) := by
  have hc : (txn_run (database_begin_transaction db0 level).1 calls).committed = false := by
    rw [txn_run_committed]; rfl
  have hwf : table_wf (txn_run (database_begin_transaction db0 level).1 calls).writes :=
    txn_run_wf _ _ (table_wf_create 64)
  refine ⟨_, transaction_commit_live _ _ hc, ?_, ?_⟩
  · intro key
    simp only [database_get]
    exact hash_table_get_commit_buckets _ _ _ h0 hwf
  · intro entries hp key
    have hnd := table_wf_nodup _ hwf
    have hnd' : (entries.map hash_entry_t.key).Nodup := ((hp.map _).nodup_iff).2 hnd
    simp only [database_get]
    rw [commit_buckets_eq, hash_table_get_commit_chain _ _ _ h0 hnd,
      hash_table_get_commit_chain _ _ _ h0 hnd', chain_lookup_perm key _ _ hp hnd']

/-- C8 at a concrete input: a write set with `put("x","1")` and `put("y","2")` committed
on a fresh Engine. -/
theorem commit_applies_overlay_witness :
    0 < (database_create []).table.bucket_count ∧
    ∃ db' : database,
      transaction_commit (database_create [])
          (txn_object.live
            (txn_run
              (database_begin_transaction (database_create [])
                isolation_level_t.ISOLATION_SERIALIZABLE).1
              [txn_call.put (some [120]) (some [49]),
                txn_call.put (some [121]) (some [50])]))
        = some (SUCCESS, db', txn_object.freed) ∧
      database_get db' (some [121]) = (SUCCESS, some [50]) :=
  ⟨by decide,
    (commit_applies_overlay (database_create []) (database_create [])
      isolation_level_t.ISOLATION_SERIALIZABLE
      [txn_call.put (some [120]) (some [49]), txn_call.put (some [121]) (some [50])]
      (by decide)).elim
      (fun db' h => ⟨db', h.1, (h.2.1 [121]).trans (by decide)⟩)⟩

/-- C9: `transaction_delete` of a key that is in the Index and not in the write set.  On an
open Engine holding `"k" -> "v"`, the call returns ERROR_NOT_FOUND and leaves the write
set as it was (no tombstone), `transaction_get("k")` still returns `"v"`, the commit
returns SUCCESS and `database_get("k")` still returns `"v"`. -/
theorem transaction_delete_keeps_committed_key :
    database_open (database_create []) 3 (fun _ => 0)
      = some (SUCCESS, { database_create [] with wal_fd := 3, is_open := true }) ∧
    database_get
        (db_run { database_create [] with wal_fd := 3, is_open := true }
          [db_call.put (some [107]) (some [118])]) (some [107]) = (SUCCESS, some [118]) ∧
    transaction_delete
        (database_begin_transaction
          (db_run { database_create [] with wal_fd := 3, is_open := true }
            [db_call.put (some [107]) (some [118])])
          isolation_level_t.ISOLATION_READ_COMMITTED).1 (some [107])
      = (ERROR_NOT_FOUND,
          (database_begin_transaction
            (db_run { database_create [] with wal_fd := 3, is_open := true }
              [db_call.put (some [107]) (some [118])])
            isolation_level_t.ISOLATION_READ_COMMITTED).1) ∧
    transaction_get
        (database_begin_transaction
          (db_run { database_create [] with wal_fd := 3, is_open := true }
            [db_call.put (some [107]) (some [118])])
          isolation_level_t.ISOLATION_READ_COMMITTED).2
        (txn_run
          (database_begin_transaction
            (db_run { database_create [] with wal_fd := 3, is_open := true }
              [db_call.put (some [107]) (some [118])])
            isolation_level_t.ISOLATION_READ_COMMITTED).1
          [txn_call.delete (some [107])])
        (some [107]) = (SUCCESS, some [118]) ∧
    (transaction_commit
        (database_begin_transaction
          (db_run { database_create [] with wal_fd := 3, is_open := true }
            [db_call.put (some [107]) (some [118])])
          isolation_level_t.ISOLATION_READ_COMMITTED).2
        (txn_object.live
          (txn_run
            (database_begin_transaction
              (db_run { database_create [] with wal_fd := 3, is_open := true }
                [db_call.put (some [107]) (some [118])])
              isolation_level_t.ISOLATION_READ_COMMITTED).1
            [txn_call.delete (some [107])]))).map
        (fun r => (r.1, database_get r.2.1 (some [107])))
      = some (SUCCESS, (SUCCESS, some [118])) := by
  decide

/-! ## Claims C11 to C20 -/

theorem txn_step_fields (txn : transaction) (call : txn_call) :
    (txn_step txn call).txn_id = txn.txn_id ∧ (txn_step txn call).level = txn.level ∧
      (txn_step txn call).committed = txn.committed := by
  cases call with
  | put key value => cases key <;> cases value <;> exact ⟨rfl, rfl, rfl⟩
  | delete key => cases key <;> exact ⟨rfl, rfl, rfl⟩

theorem txn_call_at_db (s : program_state) (i : Nat) (call : txn_call) :
    (txn_call_at s i call).db = s.db := by
  unfold txn_call_at
  cases s.txns[i]? <;> rfl

theorem txn_call_at_other (s : program_state) (i j : Nat) (call : txn_call) (h : i ≠ j) :
    (txn_call_at s i call).txns[j]? = s.txns[j]? := by
  unfold txn_call_at
  cases s.txns[i]? with
  | none => rfl
  | some txn => simp [List.getElem?_set, h]

theorem txn_call_at_fields (s : program_state) (i : Nat) (call : txn_call) :
    (txn_call_at s i call).txns.map (fun t => (t.txn_id, t.level, t.committed))
      = s.txns.map (fun t => (t.txn_id, t.level, t.committed)) := by
  unfold txn_call_at
  cases h : s.txns[i]? with
  | none => rfl
  | some txn =>
    have hf := txn_step_fields txn call
    apply List.ext_getElem?
    intro n
    simp only [List.getElem?_map, List.getElem?_set]
    by_cases hn : i = n
    · subst hn
      have hi : i < s.txns.length := by
        rcases Nat.lt_or_ge i s.txns.length with hlt | hge
        · exact hlt
        · rw [List.getElem?_eq_none hge] at h; cases h
      simp [hi, h, hf.1, hf.2.1, hf.2.2]
    · simp [hn]

/-- C11: transaction writes are private.  Whatever `transaction_put` and
`transaction_delete` calls are made on whichever Transactions of a program, the Engine
(Index, log, transaction-id counter and all) is the one from before, every Transaction that
was not called is unchanged, and in the called ones nothing but the write set has changed;
so a Transaction that is dropped after such calls has left the Engine as it was. -/
theorem transaction_writes_private (s : program_state) (calls : List (Nat × txn_call)) :
    (txn_calls_at s calls).db = s.db ∧
    (∀ j : Nat, (∀ c ∈ calls, c.1 ≠ j) → (txn_calls_at s calls).txns[j]? = s.txns[j]?) ∧
    (txn_calls_at s calls).txns.map (fun t => (t.txn_id, t.level, t.committed))
      = s.txns.map (fun t => (t.txn_id, t.level, t.committed)) := by
  induction calls generalizing s with
  | nil => exact ⟨rfl, fun _ _ => rfl, rfl⟩
  | cons c cs ih =>
    have h := ih (txn_call_at s c.1 c.2)
    refine ⟨?_, ?_, ?_⟩
    · exact h.1.trans (txn_call_at_db s c.1 c.2)
    · intro j hj
      have h2 := h.2.1 j (fun x hx => hj x (List.mem_cons_of_mem _ hx))
      exact h2.trans (txn_call_at_other s c.1 j c.2 (hj c (List.mem_cons_self _ _)))
    · exact h.2.2.trans (txn_call_at_fields s c.1 c.2)

/-- C11 at a concrete input: two Transactions begun on a fresh Engine, a put and a delete
on the first one; the Engine and the second Transaction are unchanged. -/
theorem transaction_writes_private_witness :
    (∀ c ∈ [(0, txn_call.put (some [120]) (some [49])), (0, txn_call.delete (some [121]))],
      c.1 ≠ 1) ∧
    (txn_calls_at
        { db := database_create [],
          txns := [(database_begin_transaction (database_create [])
                      isolation_level_t.ISOLATION_READ_COMMITTED).1,
                   (database_begin_transaction (database_create [])
                      isolation_level_t.ISOLATION_SERIALIZABLE).1] }
        [(0, txn_call.put (some [120]) (some [49])),
          (0, txn_call.delete (some [121]))]).txns[1]?
      = some (database_begin_transaction (database_create [])
          isolation_level_t.ISOLATION_SERIALIZABLE).1 :=
  ⟨by decide,
    (transaction_writes_private
      { db := database_create [],
        txns := [(database_begin_transaction (database_create [])
                    isolation_level_t.ISOLATION_READ_COMMITTED).1,
                 (database_begin_transaction (database_create [])
                    isolation_level_t.ISOLATION_SERIALIZABLE).1] }
      [(0, txn_call.put (some [120]) (some [49])),
        (0, txn_call.delete (some [121]))]).2.1 1 (by decide)⟩

/-- C12: Index put and get.  On a table with a bucket array that is not empty (every table
is made by `hash_table_create` with 1024 or 64 buckets), `hash_table_put(k, v)` returns
SUCCESS; afterwards `hash_table_get(k)` returns exactly `v` (and its size, the length of
`v`), whether or not `k` was present; and `hash_table_get` of every other key, in the same
bucket or not, returns what it returned before. -/
theorem hash_table_put_get (table : hash_table_t) (key value : List Byte)
    (h0 : 0 < table.bucket_count) :
    (hash_table_put table key value).1 = SUCCESS ∧
    hash_table_get (hash_table_put table key value).2 key = (SUCCESS, some value) ∧
    ∀ key' : List Byte, key' ≠ key →
      hash_table_get (hash_table_put table key value).2 key' = hash_table_get table key' :=
  ⟨hash_table_put_rc table key value, hash_table_get_put_self table key value h0,
    fun key' hne => hash_table_get_put_other table key key' value hne⟩

/-- C12 at a concrete input: the keys `"ad"` and `"bC"` have the same hash; a put of
`"ad"` into a table holding `"bC"` leaves `"bC"` readable with its value. -/
theorem hash_table_put_get_witness :
    0 < (hash_table_put (hash_table_create 1024) [98, 67] [50]).2.bucket_count ∧
    hash_string [97, 100] = hash_string [98, 67] ∧
    hash_table_get
      (hash_table_put (hash_table_put (hash_table_create 1024) [98, 67] [50]).2
        [97, 100] [49]).2 [98, 67] = (SUCCESS, some [50]) ∧
    hash_table_get
      (hash_table_put (hash_table_put (hash_table_create 1024) [98, 67] [50]).2
        [97, 100] [49]).2 [97, 100] = (SUCCESS, some [49]) :=
  ⟨by decide, by decide,
    ((hash_table_put_get (hash_table_put (hash_table_create 1024) [98, 67] [50]).2
      [97, 100] [49] (by decide)).2.2 [98, 67] (by decide)).trans (by decide),
    by decide⟩

theorem chain_unlink_eq_none (key : List Byte) (chain : List hash_entry_t) :
    chain_unlink key chain = none ↔ chain_lookup key chain = none := by
  induction chain with
  | nil => simp [chain_unlink, chain_lookup]
  | cons e next ih =>
    by_cases h : e.key = key <;> simp [chain_unlink, chain_lookup, h, ih]

theorem chain_lookup_unlink_self (key : List Byte) (chain chain' : List hash_entry_t)
    (hnd : (chain.map hash_entry_t.key).Nodup)
    (h : chain_unlink key chain = some chain') : chain_lookup key chain' = none := by
  induction chain generalizing chain' with
  | nil => simp [chain_unlink] at h
  | cons e next ih =>
    rw [List.map_cons, List.nodup_cons] at hnd
    by_cases hk : e.key = key
    · simp [chain_unlink, hk] at h
      subst h
      rw [chain_lookup_eq_none, ← hk]
      exact hnd.1
    · simp [chain_unlink, hk] at h
      obtain ⟨c, hc, rfl⟩ := h
      simp [chain_lookup, hk, ih c hnd.2 hc]

theorem hash_table_delete_rc (table : hash_table_t) (key : List Byte) :
    (hash_table_delete table key).1
      = if (hash_table_get table key).1 = SUCCESS then SUCCESS else ERROR_NOT_FOUND := by
  rw [hash_table_get_eq]
  cases hc : chain_unlink key (chain_of table key) with
  | none =>
    rw [hash_table_delete_of_none _ _ hc, (chain_unlink_eq_none _ _).1 hc]
    simp [SUCCESS, ERROR_NOT_FOUND]
  | some c =>
    rw [hash_table_delete_of_some _ _ _ hc]
    cases hl : chain_lookup key (chain_of table key) with
    | none => rw [(chain_unlink_eq_none _ _).2 hl] at hc; cases hc
    | some e => simp

theorem hash_table_get_delete_self (table : hash_table_t) (key : List Byte)
    (hwf : table_wf table) (h : (hash_table_delete table key).1 = SUCCESS) :
    hash_table_get (hash_table_delete table key).2 key = (ERROR_NOT_FOUND, none) := by
  cases hc : chain_unlink key (chain_of table key) with
  | none =>
    rw [hash_table_delete_of_none _ _ hc] at h
    simp [SUCCESS, ERROR_NOT_FOUND] at h
  | some c =>
    rw [hash_table_get_eq, chain_of_delete, hc]
    by_cases hb : hash_string key % table.bucket_count = hash_string key % table.bucket_count
        ∧ 0 < table.bucket_count
    · rw [if_pos hb]
      simp only [chain_lookup_unlink_self key _ c (hwf _).1 hc]
    · rw [if_neg hb]
      have h0 : table.bucket_count = 0 := by
        have : ¬ 0 < table.bucket_count := fun h0 => hb ⟨rfl, h0⟩
        omega
      have hnil : chain_of table key = [] := by
        unfold chain_of
        unfold hash_table_t.bucket_count at h0
        rw [List.length_eq_zero.1 h0]
        rfl
      rw [hnil] at hc
      simp [chain_unlink] at hc

theorem recover_loop_wf (junk : Nat → Byte) (fuel : Nat) (table table' : hash_table_t)
    (file : List Byte) (hwf : table_wf table)
    (h : recover_loop junk fuel table file = some table') : table_wf table' := by
  induction fuel generalizing table file with
  | zero =>
    simp only [recover_loop, Option.some.injEq] at h
    rw [← h]; exact hwf
  | succ n ih =>
    rw [recover_loop] at h
    split at h
    · cases h; exact hwf
    · dsimp only at h
      split at h
      · cases h; exact hwf
      · split at h
        · split at h
          · cases h
          · split at h
            · exact ih _ _ (table_wf_put _ _ _ hwf) h
            · cases h
        · split at h
          · split at h
            · cases h
            · exact ih _ _ (table_wf_delete _ _ hwf) h
          · exact ih _ _ hwf h

theorem commit_chain_wf (table : hash_table_t) (chain : List hash_entry_t)
    (hwf : table_wf table) : table_wf (commit_chain table chain) := by
  induction chain generalizing table with
  | nil => exact hwf
  | cons e rest ih => exact ih _ (table_wf_put _ _ _ hwf)

theorem commit_buckets_wf (table : hash_table_t) (buckets : List (List hash_entry_t))
    (hwf : table_wf table) : table_wf (commit_buckets table buckets) := by
  rw [commit_buckets_eq]
  exact commit_chain_wf _ _ hwf

theorem database_recover_wf (db : database) (junk : Nat → Byte) (r : Int × database)
    (hwf : table_wf db.table) (h : database_recover db junk = some r) :
    table_wf r.2.table := by
  unfold database_recover at h
  by_cases hfd : db.wal_fd < 0
  · rw [if_pos hfd] at h
    cases h; exact hwf
  · rw [if_neg hfd] at h
    cases ht : replay junk db.table db.wal_file with
    | none => rw [ht] at h; cases h
    | some t =>
      rw [ht] at h
      cases h
      exact recover_loop_wf junk _ _ _ _ hwf ht

theorem database_open_wf (db : database) (fd : Int) (junk : Nat → Byte)
    (r : Int × database) (hwf : table_wf db.table)
    (h : database_open db fd junk = some r) : table_wf r.2.table := by
  unfold database_open at h
  by_cases ho : db.is_open = true
  · rw [if_pos ho] at h
    cases h; exact hwf
  · rw [if_neg ho] at h
    by_cases hfd : fd < 0
    · rw [if_pos hfd] at h
      cases h; exact hwf
    · rw [if_neg hfd] at h
      cases hr : database_recover
          { wal_file := db.wal_file, table := db.table, wal_fd := fd,
            next_txn_id := db.next_txn_id, is_open := db.is_open } junk with
      | none => rw [hr] at h; cases h
      | some r1 =>
        rw [hr] at h
        cases h
        have hn := fun hw => database_recover_wf _ _ r1 hw hr
        exact hn hwf

theorem database_put_wf (db : database) (key value : Option (List Byte)) (w : Nat)
    (hwf : table_wf db.table) : table_wf (database_put db key value w).2.table := by
  cases key with
  | none => exact hwf
  | some k =>
    cases value with
    | none => exact hwf
    | some v =>
      simp only [database_put]
      split
      · exact hwf
      · exact table_wf_put _ _ _ hwf

theorem database_delete_wf (db : database) (key : Option (List Byte)) (w : Nat)
    (hwf : table_wf db.table) : table_wf (database_delete db key w).2.table := by
  cases key with
  | none => exact hwf
  | some k => exact table_wf_delete _ _ hwf

theorem database_checkpoint_table (db : database) :
    (database_checkpoint db).2.table = db.table := by
  unfold database_checkpoint
  split <;> rfl

theorem database_close_table (db : database) :
    (database_close db).2.table = db.table := by
  have h := database_checkpoint_table db
  unfold database_close
  by_cases ho : (!db.is_open) = true
  · rw [if_pos ho]
  · rw [if_neg ho]
    show (if 0 ≤ (database_checkpoint db).2.wal_fd then
        ({ (database_checkpoint db).2 with wal_fd := -1 } : database)
      else (database_checkpoint db).2).table = db.table
    split <;> exact h

theorem transaction_commit_wf (db : database) (txn : txn_object)
    (r : Int × database × txn_object) (hwf : table_wf db.table)
    (h : transaction_commit db txn = some r) : table_wf r.2.1.table := by
  obtain ⟨t, _, hr⟩ := transaction_commit_some db txn r h
  cases hr with
  | inl hr => rw [hr]; exact hwf
  | inr hr => rw [hr]; exact commit_buckets_wf _ _ hwf

theorem engine_step_wf (db : database) (op : engine_op) (r : database × Option Nat)
    (hwf : table_wf db.table) (h : engine_step db op = some r) : table_wf r.1.table := by
  cases op with
  | open_db fd junk =>
    simp only [engine_step, Option.map_eq_some'] at h
    obtain ⟨a, ha, rfl⟩ := h
    exact database_open_wf _ _ _ _ hwf ha
  | close_db =>
    cases h
    show table_wf (database_close db).2.table
    rw [database_close_table]; exact hwf
  | put key value w => cases h; exact database_put_wf _ _ _ _ hwf
  | get key => cases h; exact hwf
  | delete key w => cases h; exact database_delete_wf _ _ _ hwf
  | exists_key key => cases h; exact hwf
  | begin_transaction level => cases h; exact hwf
  | commit txn =>
    simp only [engine_step, Option.map_eq_some'] at h
    obtain ⟨a, ha, rfl⟩ := h
    exact transaction_commit_wf _ _ _ hwf ha
  | rollback txn =>
    simp only [engine_step, Option.map_eq_some'] at h
    obtain ⟨a, ha, rfl⟩ := h
    show table_wf a.2.1.table
    rw [transaction_rollback_some _ _ _ ha]; exact hwf
  | txn_get txn key => cases h; exact hwf
  | checkpoint =>
    cases h
    show table_wf (database_checkpoint db).2.table
    rw [database_checkpoint_table]; exact hwf
  | recover junk =>
    simp only [engine_step, Option.map_eq_some'] at h
    obtain ⟨a, ha, rfl⟩ := h
    exact database_recover_wf _ _ _ hwf ha
  | get_stats => cases h; exact hwf
  | create_index index_name type => cases h; exact hwf
  | drop_index index_name => cases h; exact hwf
  | compact => cases h; exact hwf

/-- The Index of an Engine reached by any calls from a well-formed one is well-formed. -/
theorem engine_run_wf (ops : List engine_op) (db db' : database) (ids : List Nat)
    (hwf : table_wf db.table) (h : engine_run db ops = some (db', ids)) :
    table_wf db'.table := by
  induction ops generalizing db ids with
  | nil =>
    simp only [engine_run, Option.some.injEq, Prod.mk.injEq] at h
    rw [← h.1]; exact hwf
  | cons op ops ih =>
    rw [engine_run] at h
    cases hs : engine_step db op with
    | none => simp only [hs] at h; cases h
    | some r =>
      simp only [hs] at h
      cases hr : engine_run r.1 ops with
      | none => simp only [hr] at h; cases h
      | some rest =>
        simp only [hr, Option.some.injEq, Prod.mk.injEq] at h
        obtain ⟨hdb, _⟩ := h
        subst hdb
        exact ih r.1 rest.2 (engine_step_wf db op r hwf hs) hr


/-- C13: delete.  On every Engine reached from a freshly created one by any calls of the
interface, `database_delete(k)` returns SUCCESS when `database_get(k)` returned SUCCESS
and ERROR_NOT_FOUND otherwise, whatever is written to the log; after a delete that
returned SUCCESS `database_get(k)` returns ERROR_NOT_FOUND; and `database_get` of every
other key returns what it returned before. -/
theorem database_delete_get (file : List Byte) (ops : List engine_op) (db : database)
    (ids : List Nat) (key : List Byte) (w : Nat)
    (hrun : engine_run (database_create file) ops = some (db, ids)) :
    ((database_delete db (some key) w).1
      = if (database_get db (some key)).1 = SUCCESS then SUCCESS else ERROR_NOT_FOUND) ∧
    ((database_delete db (some key) w).1 = SUCCESS →
      database_get (database_delete db (some key) w).2 (some key)
        = (ERROR_NOT_FOUND, none)) ∧
    ∀ key' : List Byte, key' ≠ key →
      database_get (database_delete db (some key) w).2 (some key')
        = database_get db (some key') :=
  ⟨hash_table_delete_rc db.table key,
    fun h => hash_table_get_delete_self db.table key
      (engine_run_wf ops _ db ids (table_wf_create 1024) hrun) h,
    fun key' hne => hash_table_get_delete_other db.table key key' hne⟩

/-- C13 at a concrete input: an open Engine holding `"k"` and `"a"`; `delete("k")` returns
SUCCESS, then `get("k")` is ERROR_NOT_FOUND and `get("a")` still returns `"1"`. -/
theorem database_delete_get_witness :
    engine_run (database_create [])
        [engine_op.open_db 3 (fun _ => 0), engine_op.put (some [107]) (some [118]) 27,
          engine_op.put (some [97]) (some [49]) 27]
      = some (db_run { database_create [] with wal_fd := 3, is_open := true }
          [db_call.put (some [107]) (some [118]), db_call.put (some [97]) (some [49])],
          []) ∧
    (database_delete
      (db_run { database_create [] with wal_fd := 3, is_open := true }
        [db_call.put (some [107]) (some [118]), db_call.put (some [97]) (some [49])])
      (some [107]) 26).1 = SUCCESS ∧
    database_get
      (database_delete
        (db_run { database_create [] with wal_fd := 3, is_open := true }
          [db_call.put (some [107]) (some [118]), db_call.put (some [97]) (some [49])])
        (some [107]) 26).2 (some [107]) = (ERROR_NOT_FOUND, none) ∧
    database_get
      (database_delete
        (db_run { database_create [] with wal_fd := 3, is_open := true }
          [db_call.put (some [107]) (some [118]), db_call.put (some [97]) (some [49])])
        (some [107]) 26).2 (some [97]) = (SUCCESS, some [49]) :=
  ⟨by decide, by decide,
    (database_delete_get []
      [engine_op.open_db 3 (fun _ => 0), engine_op.put (some [107]) (some [118]) 27,
        engine_op.put (some [97]) (some [49]) 27]
      (db_run { database_create [] with wal_fd := 3, is_open := true }
        [db_call.put (some [107]) (some [118]), db_call.put (some [97]) (some [49])])
      [] [107] 26 (by decide)).2.1 (by decide),
    by decide⟩

/-- C18: empty value is rejected.  `database_put` called with a null value pointer, or with
`value_size = 0`, returns ERROR_INVALID_PARAM and leaves the Engine, its Index and its log
as they were, whatever the key and the state of the Engine. -/
theorem database_put_empty_value (db : database) (key : Option (List Byte)) (w : Nat) :
    database_put db key none w = (ERROR_INVALID_PARAM, db) ∧
    database_put db key (some []) w = (ERROR_INVALID_PARAM, db) := by
  cases key <;> exact ⟨rfl, rfl⟩

/-- C14: `database_checkpoint` on an open Engine holding `"a" -> "1"` (put with its record
written whole).  The checkpoint returns SUCCESS, the Index still holds `"a"`, the log is
cut to length zero, and a new Engine opened over the same directory recovers an Index
without `"a"`: nothing makes the Index recoverable before the log is truncated. -/
theorem checkpoint_loses_index :
    database_open (database_create []) 3 (fun _ => 0)
      = some (SUCCESS, { database_create [] with wal_fd := 3, is_open := true }) ∧
    (database_checkpoint
        (db_run { database_create [] with wal_fd := 3, is_open := true }
          [db_call.put (some [97]) (some [49])])).1 = SUCCESS ∧
    database_get
        (database_checkpoint
          (db_run { database_create [] with wal_fd := 3, is_open := true }
            [db_call.put (some [97]) (some [49])])).2 (some [97]) = (SUCCESS, some [49]) ∧
    (database_checkpoint
        (db_run { database_create [] with wal_fd := 3, is_open := true }
          [db_call.put (some [97]) (some [49])])).2.wal_file = [] ∧
    (database_open
        (database_create
          (database_checkpoint
            (db_run { database_create [] with wal_fd := 3, is_open := true }
              [db_call.put (some [97]) (some [49])])).2.wal_file)
        3 (fun _ => 0)).map (fun r => (r.1, database_get r.2 (some [97])))
      = some (SUCCESS, (ERROR_NOT_FOUND, none)) := by
  decide

/-- C15: a finished Transaction is freed memory, and a call on it has no result.  On an
open Engine a Transaction with a buffered `put("x","1")` is committed: the call returns
SUCCESS and frees the Transaction; `transaction_rollback` and `transaction_commit` on that
pointer then have no result (the program reads and frees the block again), where the claim
says they fail with InvalidState.  The same holds after a rollback.  And the `committed`
test of `transaction_commit` never fires on a live Transaction: whatever the calls of the
write path, the Transaction begun on an Engine is applied and freed with SUCCESS. -/
theorem finished_transaction_is_freed :
    (transaction_commit
        (database_begin_transaction { database_create [] with wal_fd := 3, is_open := true }
          isolation_level_t.ISOLATION_READ_COMMITTED).2
        (txn_object.live
          (txn_run
            (database_begin_transaction
              { database_create [] with wal_fd := 3, is_open := true }
              isolation_level_t.ISOLATION_READ_COMMITTED).1
            [txn_call.put (some [120]) (some [49])]))).map (fun r => (r.1, r.2.2))
      = some (SUCCESS, txn_object.freed) ∧
    (transaction_commit
        (database_begin_transaction { database_create [] with wal_fd := 3, is_open := true }
          isolation_level_t.ISOLATION_READ_COMMITTED).2
        (txn_object.live
          (txn_run
            (database_begin_transaction
              { database_create [] with wal_fd := 3, is_open := true }
              isolation_level_t.ISOLATION_READ_COMMITTED).1
            [txn_call.put (some [120]) (some [49])]))).bind
        (fun r => transaction_rollback r.2.1 r.2.2) = none ∧
    (transaction_commit
        (database_begin_transaction { database_create [] with wal_fd := 3, is_open := true }
          isolation_level_t.ISOLATION_READ_COMMITTED).2
        (txn_object.live
          (txn_run
            (database_begin_transaction
              { database_create [] with wal_fd := 3, is_open := true }
              isolation_level_t.ISOLATION_READ_COMMITTED).1
            [txn_call.put (some [120]) (some [49])]))).bind
        (fun r => transaction_commit r.2.1 r.2.2) = none ∧
    (transaction_rollback
        (database_begin_transaction { database_create [] with wal_fd := 3, is_open := true }
          isolation_level_t.ISOLATION_READ_COMMITTED).2
        (txn_object.live
          (txn_run
            (database_begin_transaction
              { database_create [] with wal_fd := 3, is_open := true }
              isolation_level_t.ISOLATION_READ_COMMITTED).1
            [txn_call.put (some [120]) (some [49])]))).map (fun r => (r.1, r.2.2))
      = some (SUCCESS, txn_object.freed) ∧
    (transaction_rollback
        (database_begin_transaction { database_create [] with wal_fd := 3, is_open := true }
          isolation_level_t.ISOLATION_READ_COMMITTED).2
        (txn_object.live
          (txn_run
            (database_begin_transaction
              { database_create [] with wal_fd := 3, is_open := true }
              isolation_level_t.ISOLATION_READ_COMMITTED).1
            [txn_call.put (some [120]) (some [49])]))).bind
        (fun r => transaction_commit r.2.1 r.2.2) = none ∧
    (transaction_rollback
        (database_begin_transaction { database_create [] with wal_fd := 3, is_open := true }
          isolation_level_t.ISOLATION_READ_COMMITTED).2
        (txn_object.live
          (txn_run
            (database_begin_transaction
              { database_create [] with wal_fd := 3, is_open := true }
              isolation_level_t.ISOLATION_READ_COMMITTED).1
            [txn_call.put (some [120]) (some [49])]))).bind
        (fun r => transaction_rollback r.2.1 r.2.2) = none ∧
    ∀ (db0 db : database) (level : isolation_level_t) (calls : List txn_call),
      (transaction_commit db
          (txn_object.live (txn_run (database_begin_transaction db0 level).1 calls))).map
        (fun r => (r.1, r.2.2)) = some (SUCCESS, txn_object.freed) := by
  refine ⟨by decide, by decide, by decide, by decide, by decide, by decide, ?_⟩
  intro db0 db level calls
  have hc : (txn_run (database_begin_transaction db0 level).1 calls).committed = false := by
    rw [txn_run_committed]; rfl
  rw [transaction_commit_live _ _ hc]
  rfl

/-- C16 (as stated, refuted): on an Engine that was never opened, and on one that was
opened and closed, `database_put("a","1")` returns SUCCESS and changes the Index, and
`database_get` and `database_delete` of the stored key return SUCCESS. -/
theorem closed_engine_put_succeeds :
    (database_create []).is_open = false ∧
    (database_put (database_create []) (some [97]) (some [49]) 27).1 = SUCCESS ∧
    database_get (database_create []) (some [97]) = (ERROR_NOT_FOUND, none) ∧
    database_get (database_put (database_create []) (some [97]) (some [49]) 27).2 (some [97])
      = (SUCCESS, some [49]) ∧
    (database_delete (database_put (database_create []) (some [97]) (some [49]) 27).2
      (some [97]) 26).1 = SUCCESS ∧
    (database_close { database_create [] with wal_fd := 3, is_open := true }).2.is_open
      = false ∧
    (database_put (database_close { database_create [] with wal_fd := 3, is_open := true }).2
      (some [97]) (some [49]) 27).1 = SUCCESS ∧
    database_get
      (database_put
        (database_close { database_create [] with wal_fd := 3, is_open := true }).2
        (some [97]) (some [49]) 27).2 (some [97]) = (SUCCESS, some [49]) := by
  decide

/-- C16 (amended): on an Engine that is not open, never opened or closed after being open,
`database_put`, `database_delete` and `database_get` do not fail for that reason: they act
on the Index exactly as `hash_table_put`, `hash_table_delete` and `hash_table_get` do and
return their result, and `database_put` and `database_delete` leave the log as it was. -/
theorem closed_engine_operates (db db0 : database) (file key value : List Byte) (w : Nat)
    (hdb : db = database_create file ∨ (db0.is_open = true ∧ db = (database_close db0).2))
    (hv : value ≠ []) :
    db.is_open = false ∧
    database_put db (some key) (some value) w
      = (SUCCESS, { db with table := (hash_table_put db.table key value).2 }) ∧
    database_delete db (some key) w
      = ((hash_table_delete db.table key).1,
          { db with table := (hash_table_delete db.table key).2 }) ∧
    database_get db (some key) = hash_table_get db.table key := by
  have hfd : ¬ (0 : Int) ≤ db.wal_fd ∧ db.is_open = false := by
    rcases hdb with h | ⟨h1, h2⟩
    · subst h
      refine ⟨?_, rfl⟩
      show ¬ (0 : Int) ≤ -1
      decide
    · subst h2
      unfold database_close database_checkpoint
      simp only [h1]
      by_cases hneg : db0.wal_fd < 0
      · have hn : ¬ (0 : Int) ≤ db0.wal_fd := by omega
        simp [hneg, hn]
      · have hp : (0 : Int) ≤ db0.wal_fd := by omega
        simp [hneg, hp]
  have hlen : ¬ value.length = 0 := fun h => hv (List.length_eq_zero.1 h)
  refine ⟨hfd.2, ?_, ?_, rfl⟩
  · simp only [database_put, hlen, if_false, hfd.1, hash_table_put_rc]
  · simp only [database_delete, hfd.1, if_false]

/-- C16 (amended) at a concrete input: an Engine opened and closed again. -/
theorem closed_engine_operates_witness :
    (((database_close { database_create [] with wal_fd := 3, is_open := true }).2
        = database_create [97] ∨
      (({ database_create [] with wal_fd := 3, is_open := true } : database).is_open = true ∧
        (database_close { database_create [] with wal_fd := 3, is_open := true }).2
          = (database_close { database_create [] with wal_fd := 3, is_open := true }).2)) ∧
      ([49] : List Byte) ≠ []) ∧
    database_get
      (database_put (database_close { database_create [] with wal_fd := 3, is_open := true }).2
        (some [97]) (some [49]) 27).2 (some [97]) = (SUCCESS, some [49]) :=
  ⟨⟨Or.inr ⟨rfl, rfl⟩, by decide⟩,
    (congrArg (fun r => database_get r.2 (some [97]))
      (closed_engine_operates
        (database_close { database_create [] with wal_fd := 3, is_open := true }).2
        { database_create [] with wal_fd := 3, is_open := true } [97] [97] [49] 27
        (Or.inr ⟨rfl, rfl⟩) (by decide)).2.1).trans (by decide)⟩

/-- C17 (as stated, refuted): `database_put` with the empty key `""` and the value `"1"` on
an open Engine returns SUCCESS, stores the value under the empty key and appends the
26-byte record to the log. -/
theorem empty_key_put_succeeds :
    (database_put { database_create [] with wal_fd := 3, is_open := true }
      (some []) (some [49]) 26).1 = SUCCESS ∧
    database_get
      (database_put { database_create [] with wal_fd := 3, is_open := true }
        (some []) (some [49]) 26).2 (some []) = (SUCCESS, some [49]) ∧
    (database_put { database_create [] with wal_fd := 3, is_open := true }
      (some []) (some [49]) 26).2.wal_file = put_entry [] [49] ∧
    (put_entry [] [49]).length = 26 := by
  decide

/-- C17 (amended): `database_put` rejects a null key, not an empty one.  With the empty key
`""` and any value that is not empty it returns SUCCESS, the value is then read back under
the empty key, and on an open Engine the record reaches the log; with a null key it
returns ERROR_INVALID_PARAM and leaves the Index and the log as they were. -/
theorem empty_key_accepted (db : database) (value : List Byte) (w : Nat)
    (hv : value ≠ []) (h0 : 0 < db.table.bucket_count) (hfd : 0 ≤ db.wal_fd) :
    (database_put db (some []) (some value) w).1 = SUCCESS ∧
    database_get (database_put db (some []) (some value) w).2 (some [])
      = (SUCCESS, some value) ∧
    (database_put db (some []) (some value) w).2.wal_file
      = db.wal_file ++ (put_entry [] value).take w ∧
    ∀ v : Option (List Byte), database_put db none v w = (ERROR_INVALID_PARAM, db) := by
  have hlen : ¬ value.length = 0 := fun h => hv (List.length_eq_zero.1 h)
  refine ⟨?_, ?_, ?_, fun v => rfl⟩
  · simp only [database_put, hlen, if_false, hash_table_put_rc]
  · simp only [database_put, hlen, if_false, database_get]
    exact hash_table_get_put_self _ _ _ h0
  · simp only [database_put, hlen, if_false, hfd, if_true]

/-- C17 (amended) at a concrete input: the empty key with the value `"1"` on an open
Engine. -/
theorem empty_key_accepted_witness :
    (([49] : List Byte) ≠ [] ∧
      0 < ({ database_create [] with wal_fd := 3, is_open := true } : database).table.bucket_count ∧
      (0 : Int) ≤ ({ database_create [] with wal_fd := 3, is_open := true } : database).wal_fd) ∧
    database_get
      (database_put { database_create [] with wal_fd := 3, is_open := true }
        (some []) (some [49]) 26).2 (some []) = (SUCCESS, some [49]) :=
  ⟨⟨by decide, by decide, by decide⟩,
    (empty_key_accepted { database_create [] with wal_fd := 3, is_open := true } [49] 26
      (by decide) (by decide) (by decide)).2.1⟩

theorem database_recover_next (db : database) (junk : Nat → Byte) (r : Int × database)
    (h : database_recover db junk = some r) : r.2.next_txn_id = db.next_txn_id := by
  unfold database_recover at h
  by_cases hfd : db.wal_fd < 0
  · rw [if_pos hfd] at h
    cases h; rfl
  · rw [if_neg hfd] at h
    cases ht : replay junk db.table db.wal_file with
    | none => rw [ht] at h; cases h
    | some t => rw [ht] at h; cases h; rfl

theorem database_open_next (db : database) (fd : Int) (junk : Nat → Byte)
    (r : Int × database) (h : database_open db fd junk = some r) :
    r.2.next_txn_id = db.next_txn_id := by
  unfold database_open at h
  by_cases ho : db.is_open = true
  · rw [if_pos ho] at h
    cases h; rfl
  · rw [if_neg ho] at h
    by_cases hfd : fd < 0
    · rw [if_pos hfd] at h
      cases h; rfl
    · rw [if_neg hfd] at h
      cases hr : database_recover
          { wal_file := db.wal_file, table := db.table, wal_fd := fd,
            next_txn_id := db.next_txn_id, is_open := db.is_open } junk with
      | none => rw [hr] at h; cases h
      | some r1 =>
        rw [hr] at h
        cases h
        have hn := database_recover_next _ _ r1 hr
        exact hn

theorem database_put_next (db : database) (key value : Option (List Byte)) (w : Nat) :
    (database_put db key value w).2.next_txn_id = db.next_txn_id := by
  cases key <;> cases value <;> simp only [database_put]
  split <;> rfl

theorem database_delete_next (db : database) (key : Option (List Byte)) (w : Nat) :
    (database_delete db key w).2.next_txn_id = db.next_txn_id := by
  cases key <;> rfl

theorem database_checkpoint_next (db : database) :
    (database_checkpoint db).2.next_txn_id = db.next_txn_id := by
  unfold database_checkpoint
  split <;> rfl

theorem database_close_next (db : database) :
    (database_close db).2.next_txn_id = db.next_txn_id := by
  have h := database_checkpoint_next db
  unfold database_close
  by_cases ho : (!db.is_open) = true
  · rw [if_pos ho]
  · rw [if_neg ho]
    show (if 0 ≤ (database_checkpoint db).2.wal_fd then
        ({ (database_checkpoint db).2 with wal_fd := -1 } : database)
      else (database_checkpoint db).2).next_txn_id = db.next_txn_id
    split <;> exact h

theorem transaction_commit_next (db : database) (txn : txn_object)
    (r : Int × database × txn_object) (h : transaction_commit db txn = some r) :
    r.2.1.next_txn_id = db.next_txn_id := by
  obtain ⟨t, _, hr⟩ := transaction_commit_some db txn r h
  cases hr with
  | inl hr => rw [hr]
  | inr hr => rw [hr]

/-- One call either begins a Transaction, which gets the counter as id and advances it,
or leaves the counter alone. -/
theorem engine_step_next (db : database) (op : engine_op) (r : database × Option Nat)
    (h : engine_step db op = some r) :
    (r.2 = none ∧ r.1.next_txn_id = db.next_txn_id) ∨
    (r.2 = some db.next_txn_id ∧
      r.1.next_txn_id = (db.next_txn_id + 1) % 18446744073709551616) := by
  cases op with
  | open_db fd junk =>
    simp only [engine_step, Option.map_eq_some'] at h
    obtain ⟨a, ha, rfl⟩ := h
    exact Or.inl ⟨rfl, database_open_next _ _ _ _ ha⟩
  | close_db => cases h; exact Or.inl ⟨rfl, database_close_next _⟩
  | put key value w => cases h; exact Or.inl ⟨rfl, database_put_next _ _ _ _⟩
  | get key => cases h; exact Or.inl ⟨rfl, rfl⟩
  | delete key w => cases h; exact Or.inl ⟨rfl, database_delete_next _ _ _⟩
  | exists_key key => cases h; exact Or.inl ⟨rfl, rfl⟩
  | begin_transaction level => cases h; exact Or.inr ⟨rfl, rfl⟩
  | commit txn =>
    simp only [engine_step, Option.map_eq_some'] at h
    obtain ⟨a, ha, rfl⟩ := h
    exact Or.inl ⟨rfl, transaction_commit_next _ _ _ ha⟩
  | rollback txn =>
    simp only [engine_step, Option.map_eq_some'] at h
    obtain ⟨a, ha, rfl⟩ := h
    exact Or.inl ⟨rfl, by show a.2.1.next_txn_id = _; rw [transaction_rollback_some _ _ _ ha]⟩
  | txn_get txn key => cases h; exact Or.inl ⟨rfl, rfl⟩
  | checkpoint => cases h; exact Or.inl ⟨rfl, database_checkpoint_next _⟩
  | recover junk =>
    simp only [engine_step, Option.map_eq_some'] at h
    obtain ⟨a, ha, rfl⟩ := h
    exact Or.inl ⟨rfl, database_recover_next _ _ _ ha⟩
  | get_stats => cases h; exact Or.inl ⟨rfl, rfl⟩
  | create_index index_name type => cases h; exact Or.inl ⟨rfl, rfl⟩
  | drop_index index_name => cases h; exact Or.inl ⟨rfl, rfl⟩
  | compact => cases h; exact Or.inl ⟨rfl, rfl⟩

/-- While the counter does not wrap, the ids handed out by a run are consecutive from the
counter the run starts with. -/
theorem engine_run_ids (ops : List engine_op) (db db' : database) (ids : List Nat)
    (h : engine_run db ops = some (db', ids))
    (hb : db.next_txn_id + ids.length ≤ 18446744073709551616) :
    ids = List.range' db.next_txn_id ids.length := by
  induction ops generalizing db ids with
  | nil =>
    simp only [engine_run, Option.some.injEq, Prod.mk.injEq] at h
    rw [← h.2]; rfl
  | cons op ops ih =>
    rw [engine_run] at h
    cases hs : engine_step db op with
    | none => simp only [hs] at h; cases h
    | some r =>
      simp only [hs] at h
      cases hr : engine_run r.1 ops with
      | none => simp only [hr] at h; cases h
      | some rest =>
        simp only [hr, Option.some.injEq, Prod.mk.injEq] at h
        obtain ⟨hdb, hids⟩ := h
        subst hids
        subst hdb
        have hrest : engine_run r.1 ops = some (rest.1, rest.2) := hr
        rcases engine_step_next db op r hs with ⟨h1, h2⟩ | ⟨h1, h2⟩
        · rw [h1] at hb ⊢
          simp only [Option.toList, List.nil_append] at hb ⊢
          rw [← h2]
          exact ih r.1 rest.2 hrest (by rw [h2]; exact hb)
        · rw [h1] at hb ⊢
          simp only [Option.toList, List.singleton_append, List.length_cons] at hb ⊢
          rw [List.range'_succ]
          congr 1
          by_cases hz : rest.2.length = 0
          · rw [List.length_eq_zero.1 hz]; rfl
          · have hlt : db.next_txn_id + 1 < 18446744073709551616 := by omega
            have hn : r.1.next_txn_id = db.next_txn_id + 1 := by
              rw [h2, Nat.mod_eq_of_lt hlt]
            rw [← hn]
            exact ih r.1 rest.2 hrest (by rw [hn]; omega)

/-- A run of `n` calls of `database_begin_transaction` and nothing else. -/
theorem engine_run_begins (level : isolation_level_t) (n : Nat) (db : database)
    (h : db.next_txn_id < 18446744073709551616) :
    engine_run db (List.replicate n (engine_op.begin_transaction level))
      = some ({ db with next_txn_id := (db.next_txn_id + n) % 18446744073709551616 },
          (List.range n).map (fun i => (db.next_txn_id + i) % 18446744073709551616)) := by
  induction n generalizing db with
  | zero =>
    simp only [List.replicate_zero, engine_run, List.range_zero, List.map_nil,
      Nat.add_zero, Nat.mod_eq_of_lt h]
  | succ n ih =>
    rw [List.replicate_succ, engine_run]
    simp only [engine_step, database_begin_transaction]
    rw [ih _ (Nat.mod_lt _ (by decide))]
    simp only [Option.toList, List.singleton_append, List.range_succ_eq_map, List.map_cons,
      List.map_map, Option.some.injEq, Prod.mk.injEq, List.cons.injEq]
    refine ⟨?_, ?_, ?_⟩
    · congr 1
      omega
    · omega
    · apply List.map_congr_left
      intro i _
      simp only [Function.comp]
      omega

/-- C19 (as stated, refuted): the counter `next_txn_id` is a `uint64_t`.  Of `2^64` calls
of `database_begin_transaction` on a freshly created Engine, the last one (place
`2^64 - 1` of the list, counted from 0) returns the id 0, not `2^64`. -/
theorem transaction_id_wraps :
    (engine_run (database_create [])
        (List.replicate 18446744073709551616
          (engine_op.begin_transaction isolation_level_t.ISOLATION_READ_COMMITTED))).map
      (fun r => r.2[18446744073709551615]?) = some (some 0) := by
  rw [engine_run_begins _ _ _ (by decide), Option.map_some', List.getElem?_map,
    List.getElem?_range (by decide)]
  rfl

/-- C19 (amended): transaction ids.  Starting from a freshly created Engine, whatever calls
are made on the Engine (open, close, put, get, delete, exists, commit, rollback,
transaction reads, checkpoint, recover) between the calls of
`database_begin_transaction`, and as long as fewer than `2^64` Transactions have been
begun, the ids returned are 1, 2, 3, ... in the order of the calls: the n-th call returns
the id n. -/
theorem transaction_ids_sequential (file : List Byte) (ops : List engine_op)
    (db' : database) (ids : List Nat)
    (hrun : engine_run (database_create file) ops = some (db', ids))
    (hlen : ids.length < 18446744073709551616) :
    ids = List.range' 1 ids.length ∧ ∀ n : Nat, n < ids.length → ids[n]? = some (n + 1) := by
  have h := engine_run_ids ops (database_create file) db' ids hrun
    (by show 1 + ids.length ≤ 18446744073709551616; omega)
  have h1 : ids = List.range' 1 ids.length := h
  refine ⟨h1, fun n hn => ?_⟩
  have hg := List.getElem?_range' 1 1 hn
  rw [← h1] at hg
  rw [hg]
  congr 1
  omega

/-- C19 (amended) at a concrete input: three Transactions begun on a fresh Engine with an
open, a put, a commit of the first Transaction and a close in between. -/
theorem transaction_ids_sequential_witness :
    (engine_run (database_create [])
        [engine_op.open_db 3 (fun _ => 0),
          engine_op.begin_transaction isolation_level_t.ISOLATION_READ_COMMITTED,
          engine_op.put (some [97]) (some [49]) 0,
          engine_op.begin_transaction isolation_level_t.ISOLATION_SERIALIZABLE,
          engine_op.commit
            (txn_object.live
              (database_begin_transaction (database_create [])
                isolation_level_t.ISOLATION_READ_COMMITTED).1),
          engine_op.close_db,
          engine_op.begin_transaction isolation_level_t.ISOLATION_READ_COMMITTED]
        = some ({ database_create [] with
                    table := (hash_table_put (hash_table_create 1024) [97] [49]).2,
                    next_txn_id := 4 }, [1, 2, 3]) ∧
      [1, 2, 3].length < 18446744073709551616) ∧
    [1, 2, 3] = List.range' 1 [1, 2, 3].length :=
  ⟨⟨by decide, by decide⟩,
    (transaction_ids_sequential []
      [engine_op.open_db 3 (fun _ => 0),
        engine_op.begin_transaction isolation_level_t.ISOLATION_READ_COMMITTED,
        engine_op.put (some [97]) (some [49]) 0,
        engine_op.begin_transaction isolation_level_t.ISOLATION_SERIALIZABLE,
        engine_op.commit
          (txn_object.live
            (database_begin_transaction (database_create [])
              isolation_level_t.ISOLATION_READ_COMMITTED).1),
        engine_op.close_db,
        engine_op.begin_transaction isolation_level_t.ISOLATION_READ_COMMITTED]
      { database_create [] with
          table := (hash_table_put (hash_table_create 1024) [97] [49]).2,
          next_txn_id := 4 }
      [1, 2, 3] (by decide) (by decide)).1⟩

/-- C20 (as stated, refuted): the bytes appended by `database_put("a","1")` and by
`database_delete("a")` on an open Engine with an empty log.  The put record has 27 bytes,
not `13 + 1 + 1` (nor `13 + 2 + 1` with the NUL counted in the key): its kind field takes
4 bytes, an 8-byte `txn_id` follows it, and the key is stored with its NUL.  The delete
record has the same 24-byte header, the value-length field included. -/
theorem record_layout_bytes :
    (database_put { database_create [] with wal_fd := 3, is_open := true }
        (some [97]) (some [49]) 27).2.wal_file
      = [0, 76, 65, 87, 0, 0, 0, 0, 0, 0, 0, 0, 0, 0, 0, 0, 2, 0, 0, 0, 1, 0, 0, 0,
          97, 0, 49] ∧
    (database_put { database_create [] with wal_fd := 3, is_open := true }
        (some [97]) (some [49]) 27).2.wal_file.length ≠ 13 + 1 + 1 ∧
    (database_put { database_create [] with wal_fd := 3, is_open := true }
        (some [97]) (some [49]) 27).2.wal_file.length ≠ 13 + 2 + 1 ∧
    (database_delete { database_create [] with wal_fd := 3, is_open := true }
        (some [97]) 26).2.wal_file
      = [0, 76, 65, 87, 1, 0, 0, 0, 0, 0, 0, 0, 0, 0, 0, 0, 2, 0, 0, 0, 0, 0, 0, 0,
          97, 0] := by
  decide

/-- C20 (amended): the on-disk record layout.  With the record written whole on an open
Engine, `database_put` appends exactly: the 4-byte marker, the 4-byte record kind (0), the
8-byte transaction id (0), the 4-byte key size `strlen(key) + 1`, the 4-byte value size,
the key bytes with their NUL, and the value bytes, `24 + strlen(key) + 1 + value_size`
bytes in all; `database_delete` appends the same 24-byte header with kind 1 and value size
0, and the key bytes with their NUL. -/
theorem record_layout (db : database) (key value : List Byte)
    (hfd : 0 ≤ db.wal_fd) (hv : value ≠ []) :
    (database_put db (some key) (some value) (24 + (key.length + 1) + value.length)).2.wal_file
      = db.wal_file ++ (u32_bytes WAL_MAGIC ++ u32_bytes WAL_ENTRY_PUT ++ u64_bytes 0
          ++ u32_bytes (key.length + 1) ++ u32_bytes value.length
          ++ (key ++ [0] ++ value)) ∧
    (u32_bytes WAL_MAGIC ++ u32_bytes WAL_ENTRY_PUT ++ u64_bytes 0
        ++ u32_bytes (key.length + 1) ++ u32_bytes value.length
        ++ (key ++ [0] ++ value)).length = 24 + (key.length + 1) + value.length ∧
    (database_delete db (some key) (24 + (key.length + 1))).2.wal_file
      = db.wal_file ++ (u32_bytes WAL_MAGIC ++ u32_bytes WAL_ENTRY_DELETE ++ u64_bytes 0
          ++ u32_bytes (key.length + 1) ++ u32_bytes 0 ++ (key ++ [0])) ∧
    (u32_bytes WAL_MAGIC ++ u32_bytes WAL_ENTRY_DELETE ++ u64_bytes 0
        ++ u32_bytes (key.length + 1) ++ u32_bytes 0 ++ (key ++ [0])).length
      = 24 + (key.length + 1) ∧
    (∀ n : Nat, (u32_bytes n).length = 4 ∧ (u64_bytes n).length = 8) := by
  have hlen : ¬ value.length = 0 := fun h => hv (List.length_eq_zero.1 h)
  have hp : (put_entry key value).length = 24 + (key.length + 1) + value.length := by
    rw [put_entry, wal_entry_bytes_length]
    simp only [WAL_HEADER_SIZE, List.length_append, List.length_cons, List.length_nil]
    omega
  have hd : (delete_entry key).length = 24 + (key.length + 1) := by
    rw [delete_entry, wal_entry_bytes_length]
    simp only [WAL_HEADER_SIZE, List.length_append, List.length_cons, List.length_nil]
  refine ⟨?_, hp, ?_, hd, fun n => ⟨rfl, rfl⟩⟩
  · simp only [database_put, hlen, if_false, hfd, if_true]
    rw [← hp, List.take_length]
    rfl
  · simp only [database_delete, hfd, if_true]
    rw [← hd, List.take_length]
    rfl

/-- C20 (amended) at a concrete input: `put("a","1")` on an open Engine with an empty
log. -/
theorem record_layout_witness :
    ((0 : Int) ≤ ({ database_create [] with wal_fd := 3, is_open := true } : database).wal_fd ∧
      ([49] : List Byte) ≠ []) ∧
    (u32_bytes WAL_MAGIC ++ u32_bytes WAL_ENTRY_PUT ++ u64_bytes 0
        ++ u32_bytes (([97] : List Byte).length + 1) ++ u32_bytes ([49] : List Byte).length
        ++ ([97] ++ [0] ++ [49])).length = 24 + (([97] : List Byte).length + 1)
          + ([49] : List Byte).length :=
  ⟨⟨by decide, by decide⟩,
    (record_layout { database_create [] with wal_fd := 3, is_open := true } [97] [49]
      (by decide) (by decide)).2.1⟩

/-! ## Claims C21 to C30 -/

/-- C21 (as stated, refuted): one Engine value is opened over an empty directory, holds
`put("a","1")`, is closed and opened again.  The second `database_open` returns SUCCESS
with an empty log, and the Index still holds `"a"`, while the replay of that log into an
empty Index holds nothing. -/
theorem reopen_keeps_old_index :
    (database_close
        (db_run { database_create [] with wal_fd := 3, is_open := true }
          [db_call.put (some [97]) (some [49])])).1 = SUCCESS ∧
    (database_open
        (database_close
          (db_run { database_create [] with wal_fd := 3, is_open := true }
            [db_call.put (some [97]) (some [49])])).2 3 (fun _ => 0)).map
      (fun r => (r.1, r.2.wal_file, database_get r.2 (some [97])))
      = some (SUCCESS, [], (SUCCESS, some [49])) ∧
    (replay (fun _ => 0) (hash_table_create 1024) []).map
      (fun table => hash_table_get table [97]) = some (ERROR_NOT_FOUND, none) := by
  decide

/-- C21 (amended): whenever `database_open` returns SUCCESS, the Index is exactly the
result of replaying the log into the Index the Engine held when it was called, and the log
is as it was.  For a freshly created Engine that Index is the empty one of
`database_create`; for an Engine that was opened, populated and closed before, it is the
Index the earlier session left. -/
theorem open_replays_into_current_index (db db' : database) (fd : Int) (junk : Nat → Byte)
    (h : database_open db fd junk = some (SUCCESS, db')) :
    replay junk db.table db.wal_file = some db'.table ∧ db'.wal_file = db.wal_file := by
  unfold database_open at h
  by_cases ho : db.is_open = true
  · rw [if_pos ho] at h
    simp [SUCCESS, ERROR_INVALID_PARAM] at h
  · rw [if_neg ho] at h
    by_cases hfd : fd < 0
    · rw [if_pos hfd] at h
      simp [SUCCESS, ERROR_IO] at h
    · rw [if_neg hfd] at h
      unfold database_recover at h
      simp only [hfd, if_false] at h
      cases hr : replay junk db.table db.wal_file with
      | none => simp only [hr] at h; cases h
      | some t =>
        simp only [hr, Option.some.injEq, Prod.mk.injEq, true_and] at h
        rw [← h]
        exact ⟨rfl, rfl⟩

/-- C21 (amended) at a concrete input: a freshly created Engine opened over the log of
`put("a","1")`. -/
theorem open_replays_into_current_index_witness :
    database_open (database_create (put_entry [97] [49])) 3 (fun _ => 0)
      = some (SUCCESS,
          (db_run { database_create [] with wal_fd := 3, is_open := true }
            [db_call.put (some [97]) (some [49])])) ∧
    replay (fun _ => 0) (hash_table_create 1024) (put_entry [97] [49])
      = some (db_run { database_create [] with wal_fd := 3, is_open := true }
          [db_call.put (some [97]) (some [49])]).table :=
  ⟨by decide,
    (open_replays_into_current_index (database_create (put_entry [97] [49]))
      (db_run { database_create [] with wal_fd := 3, is_open := true }
        [db_call.put (some [97]) (some [49])]) 3 (fun _ => 0) (by decide)).1⟩

theorem table_run_wf (table : hash_table_t) (ops : List table_op) (h : table_wf table) :
    table_wf (table_run table ops) := by
  induction ops generalizing table with
  | nil => exact h
  | cons op ops ih =>
    cases op with
    | put key value => exact ih _ (table_wf_put _ _ _ h)
    | delete key => exact ih _ (table_wf_delete _ _ h)

theorem key_unique_of_wf (table : hash_table_t) (h : table_wf table) : key_unique table :=
  ⟨table_wf_nodup table h, fun i e he => (h i).2 e he⟩

/-- C22: key uniqueness.  In every table built from an empty one by any sequence of
`hash_table_put` and `hash_table_delete` calls, in the Index of every Engine reached from
a freshly created one by any calls of the interface (recovery and commit included), and in
the write set of every Transaction, no two entries hold the same key and every entry is
stored in bucket `hash_string(key) % bucket_count`. -/
theorem index_key_unique :
    (∀ (n : Nat) (ops : List table_op), key_unique (table_run (hash_table_create n) ops)) ∧
    (∀ (file : List Byte) (ops : List engine_op) (db : database) (ids : List Nat),
      engine_run (database_create file) ops = some (db, ids) → key_unique db.table) ∧
    (∀ (db : database) (level : isolation_level_t) (calls : List txn_call),
      key_unique (txn_run (database_begin_transaction db level).1 calls).writes) :=
  ⟨fun n ops => key_unique_of_wf _ (table_run_wf _ ops (table_wf_create n)),
    fun _ ops db ids h =>
      key_unique_of_wf _ (engine_run_wf ops _ db ids (table_wf_create 1024) h),
    fun _ _ calls => key_unique_of_wf _ (txn_run_wf _ calls (table_wf_create 64))⟩

/-- C22 at a concrete input: an Engine opened over the log of `put("a","1")` that then
stores `"ad"` and `"bC"`, two keys of one bucket, and overwrites `"ad"`. -/
theorem index_key_unique_witness :
    engine_run (database_create (put_entry [97] [49]))
        [engine_op.open_db 3 (fun _ => 0), engine_op.put (some [97, 100]) (some [49]) 0,
          engine_op.put (some [98, 67]) (some [50]) 0,
          engine_op.put (some [97, 100]) (some [51]) 0]
      = some ((database_put
          (database_put
            (database_put
              (db_run { database_create [] with wal_fd := 3, is_open := true }
                [db_call.put (some [97]) (some [49])])
              (some [97, 100]) (some [49]) 0).2
            (some [98, 67]) (some [50]) 0).2
          (some [97, 100]) (some [51]) 0).2, []) ∧
    key_unique (database_put
          (database_put
            (database_put
              (db_run { database_create [] with wal_fd := 3, is_open := true }
                [db_call.put (some [97]) (some [49])])
              (some [97, 100]) (some [49]) 0).2
            (some [98, 67]) (some [50]) 0).2
          (some [97, 100]) (some [51]) 0).2.table :=
  ⟨by decide,
    index_key_unique.2.1 (put_entry [97] [49])
      [engine_op.open_db 3 (fun _ => 0), engine_op.put (some [97, 100]) (some [49]) 0,
        engine_op.put (some [98, 67]) (some [50]) 0,
        engine_op.put (some [97, 100]) (some [51]) 0] _ [] (by decide)⟩

/-- C23: a Transaction on an open Engine buffers `transaction_put("x", value, 0)` with a
value pointer that is not null and `value_size = 0`.  The call returns SUCCESS, the commit
returns SUCCESS, and the Index then holds `"x"` with a value of size 0. -/
theorem commit_stores_empty_value :
    (transaction_put
        (database_begin_transaction { database_create [] with wal_fd := 3, is_open := true }
          isolation_level_t.ISOLATION_READ_COMMITTED).1 (some [120]) (some [])).1
      = SUCCESS ∧
    (transaction_commit
        (database_begin_transaction { database_create [] with wal_fd := 3, is_open := true }
          isolation_level_t.ISOLATION_READ_COMMITTED).2
        (txn_object.live
          (txn_run
            (database_begin_transaction
              { database_create [] with wal_fd := 3, is_open := true }
              isolation_level_t.ISOLATION_READ_COMMITTED).1
            [txn_call.put (some [120]) (some [])]))).map
        (fun r => (r.1, database_get r.2.1 (some [120])))
      = some (SUCCESS, (SUCCESS, some [])) ∧
    database_put { database_create [] with wal_fd := 3, is_open := true }
        (some [120]) (some []) 0
      = (ERROR_INVALID_PARAM, { database_create [] with wal_fd := 3, is_open := true }) := by
  decide

/-- C25: the log of C4 (the record of `put("a","1")`, then the record of `put("k","v")` cut
one byte short) replayed into two empty Indexes, once with the byte 170 and once with the
byte 171 in the part of the buffer that `read` did not fill.  The two Indexes hold
different values for `"k"`: the replay depends on more than the bytes of the log. -/
theorem replay_depends_on_junk :
    (replay (fun _ => 170) (hash_table_create 1024)
        (put_entry [97] [49] ++ (put_entry [107] [118]).take 26)).map
      (fun table => hash_table_get table [107]) = some (SUCCESS, some [170]) ∧
    (replay (fun _ => 171) (hash_table_create 1024)
        (put_entry [97] [49] ++ (put_entry [107] [118]).take 26)).map
      (fun table => hash_table_get table [107]) = some (SUCCESS, some [171]) := by
  decide

/-- C26: reads are pure.  `database_get` and `database_exists` are handed the Engine and
return a result only: the Engine after the call, Index and log included, is the Engine
from before; and `database_exists(k)` returns 1 exactly when `database_get(k)` returns
SUCCESS, and 0 otherwise (a null key included). -/
theorem reads_are_pure (db : database) (key : Option (List Byte)) :
    engine_step db (engine_op.get key) = some (db, none) ∧
    engine_step db (engine_op.exists_key key) = some (db, none) ∧
    database_exists db key = (if (database_get db key).1 = SUCCESS then 1 else 0) := by
  refine ⟨rfl, rfl, ?_⟩
  cases key with
  | none => simp [database_exists, database_get, SUCCESS, ERROR_INVALID_PARAM]
  | some k => rfl

/-- C28 (as stated, refuted): `tcp_send`, `udp_sendto` and `udp_send` with a connection or
socket and a buffer that are not null and `len = 2^63` return `(ssize_t)len`, which is
`-2^63` and not `len`. -/
theorem send_large_len_negative :
    tcp_send (some { sockfd := -1, is_active := true }) (some [72]) 9223372036854775808
      = -9223372036854775808 ∧
    udp_sendto (some { sockfd := -1, is_bound := false, is_connected := false }) (some [72])
        9223372036854775808 (some [49]) 7070 = -9223372036854775808 ∧
    udp_send (some { sockfd := -1, is_bound := false, is_connected := true }) (some [72])
        9223372036854775808 = -9223372036854775808 := by
  decide

/-- C28 (amended): send reports the full length.  `tcp_send`, `udp_sendto` and `udp_send`
called with a connection or socket that is not null, a data buffer that is not null and
`0 < len <= SSIZE_MAX` (`2^63 - 1`) return exactly `len`; they return -1 when the
connection or socket is null, when the buffer is null, and when `len` is 0. -/
theorem send_reports_length (conn : tcp_connection_t) (socket : udp_socket_t)
    (data : List Byte) (len : Nat) (dest_addr : Option (List Byte)) (dest_port : Int)
    (hpos : 0 < len) (hmax : len < 9223372036854775808) :
    tcp_send (some conn) (some data) len = (len : Int) ∧
    udp_sendto (some socket) (some data) len dest_addr dest_port = (len : Int) ∧
    udp_send (some socket) (some data) len = (len : Int) ∧
    (∀ (d : Option (List Byte)) (n : Nat),
      tcp_send none d n = -1 ∧ udp_sendto none d n dest_addr dest_port = -1 ∧
        udp_send none d n = -1) ∧
    (∀ (c : Option tcp_connection_t) (s : Option udp_socket_t) (n : Nat),
      tcp_send c none n = -1 ∧ udp_sendto s none n dest_addr dest_port = -1 ∧
        udp_send s none n = -1) ∧
    (∀ (c : Option tcp_connection_t) (s : Option udp_socket_t) (d : Option (List Byte)),
      tcp_send c d 0 = -1 ∧ udp_sendto s d 0 dest_addr dest_port = -1 ∧
        udp_send s d 0 = -1) := by
  have hne : ¬ len = 0 := by omega
  have hcast : to_ssize_t len = (len : Int) := by
    unfold to_ssize_t
    have hm : len % 18446744073709551616 = len := Nat.mod_eq_of_lt (by omega)
    rw [hm, if_pos hmax]
  refine ⟨?_, ?_, ?_, fun d n => ⟨rfl, rfl, rfl⟩, fun c s n => ?_, fun c s d => ?_⟩
  · simp only [tcp_send, hne, if_false, hcast]
  · simp only [udp_sendto, hne, if_false, hcast]
  · simp only [udp_send, hne, if_false, hcast]
  · cases c <;> cases s <;> exact ⟨rfl, rfl, rfl⟩
  · cases c <;> cases s <;> cases d <;> exact ⟨rfl, rfl, rfl⟩

/-- C28 (amended) at the input of the tests: the 11 bytes of `"Hello, TCP!"`. -/
theorem send_reports_length_witness :
    (0 < 11 ∧ 11 < 9223372036854775808) ∧
    tcp_send (some { sockfd := -1, is_active := true })
      (some [72, 101, 108, 108, 111, 44, 32, 84, 67, 80, 33]) 11 = 11 :=
  ⟨⟨by decide, by decide⟩,
    (send_reports_length { sockfd := -1, is_active := true }
      { sockfd := -1, is_bound := false, is_connected := false }
      [72, 101, 108, 108, 111, 44, 32, 84, 67, 80, 33] 11 (some [49]) 7070
      (by decide) (by decide)).1⟩

theorem getD_take_append (bad rest : List Byte) (i : Nat) (hi : i < bad.length)
    (h24 : i < WAL_HEADER_SIZE) :
    ((bad ++ rest).take WAL_HEADER_SIZE).getD i 0 = bad.getD i 0 := by
  simp only [List.getD_eq_getElem?_getD, List.getElem?_take, h24, if_true,
    List.getElem?_append_left hi]

/-- The replay stops at a record whose marker is not `WAL_MAGIC`, whatever follows it. -/
theorem replay_bad_marker (junk : Nat → Byte) (table : hash_table_t) (bad rest : List Byte)
    (hlen : 4 ≤ bad.length) (hbad : u32_at bad 0 ≠ WAL_MAGIC) :
    replay junk table (bad ++ rest) = some table := by
  unfold replay
  cases hn : (bad ++ rest).length with
  | zero => rfl
  | succ n =>
    rw [recover_loop]
    by_cases hshort : (bad ++ rest).length < WAL_HEADER_SIZE
    · rw [if_pos hshort]
    · rw [if_neg hshort]
      have hm : u32_at ((bad ++ rest).take WAL_HEADER_SIZE) 0 = u32_at bad 0 := by
        unfold u32_at
        rw [getD_take_append bad rest 0 (by omega) (by decide),
          getD_take_append bad rest (0 + 1) (by omega) (by decide),
          getD_take_append bad rest (0 + 2) (by omega) (by decide),
          getD_take_append bad rest (0 + 3) (by omega) (by decide)]
      simp only [hm, hbad, ne_eq, not_false_eq_true, if_true]

/-- C29: writes after a corrupt tail are unrecoverable.  The log at open time is the
records of earlier calls (each within the sizes the record can carry) followed by bytes
that start with a marker other than `WAL_MAGIC`.  `database_open` returns SUCCESS with the
Index of the earlier calls and leaves those bytes in the log; later `database_put` and
`database_delete` calls, written whole, append their records after them; and a replay of
that log into an empty Index gives the Index of the open again, without any of the later
calls. -/
theorem corrupt_tail_hides_later_puts (calls0 calls : List db_call) (bad : List Byte)
    (fd : Int) (junk junk' : Nat → Byte) (hfd : 0 ≤ fd)
    (hfit : ∀ c ∈ calls0, c.fits) (hlen : 4 ≤ bad.length)
    (hbad : u32_at bad 0 ≠ WAL_MAGIC) :
    ∃ db1 : database,
      database_open (database_create (calls0.flatMap db_call.entry ++ bad)) fd junk
        = some (SUCCESS, db1) ∧
      db1.wal_file = calls0.flatMap db_call.entry ++ bad ∧
      db1.table = (db_run (database_create []) calls0).table ∧
      (db_run db1 calls).wal_file
        = calls0.flatMap db_call.entry ++ bad ++ calls.flatMap db_call.entry ∧
      replay junk' (hash_table_create 1024) (db_run db1 calls).wal_file
        = some db1.table := by
  have hrep : ∀ (j : Nat → Byte) (rest : List Byte),
      replay j (hash_table_create 1024) (calls0.flatMap db_call.entry ++ (bad ++ rest))
        = some (db_run (database_create []) calls0).table := by
    intro j rest
    have h := replay_calls j (database_create []) calls0 (bad ++ rest) hfit
    rw [replay_bad_marker j _ bad rest hlen hbad] at h
    exact h
  have hnot : ¬ fd < 0 := by omega
  refine ⟨{ database_create (calls0.flatMap db_call.entry ++ bad) with
      wal_fd := fd, table := (db_run (database_create []) calls0).table,
      is_open := true }, ?_, rfl, rfl, ?_, ?_⟩
  · simp only [database_open, database_recover, database_create, hnot, if_false,
      Bool.false_eq_true]
    have h := hrep junk []
    rw [List.append_nil] at h
    simp only [database_create] at h
    rw [h]
  · rw [db_run_wal_file _ _ hfd]
    rfl
  · rw [db_run_wal_file _ _ hfd]
    show replay junk' (hash_table_create 1024)
      (calls0.flatMap db_call.entry ++ bad ++ calls.flatMap db_call.entry) = _
    rw [List.append_assoc]
    exact hrep junk' _

/-- C29 at a concrete input: the record of `put("a","1")`, four bytes 255, then a
`put("b","2")` after the open; the replay holds `"a"` and not `"b"`. -/
theorem corrupt_tail_hides_later_puts_witness :
    ((0 : Int) ≤ 3 ∧ (∀ c ∈ [db_call.put (some [97]) (some [49])], c.fits) ∧
      4 ≤ ([255, 255, 255, 255] : List Byte).length ∧
      u32_at [255, 255, 255, 255] 0 ≠ WAL_MAGIC) ∧
    (∃ db1 : database,
      database_open
          (database_create
            ([db_call.put (some [97]) (some [49])].flatMap db_call.entry
              ++ [255, 255, 255, 255])) 3 (fun _ => 0) = some (SUCCESS, db1) ∧
      db1.wal_file = [db_call.put (some [97]) (some [49])].flatMap db_call.entry
        ++ [255, 255, 255, 255] ∧
      db1.table = (db_run (database_create []) [db_call.put (some [97]) (some [49])]).table ∧
      (db_run db1 [db_call.put (some [98]) (some [50])]).wal_file
        = [db_call.put (some [97]) (some [49])].flatMap db_call.entry
          ++ [255, 255, 255, 255] ++ [db_call.put (some [98]) (some [50])].flatMap db_call.entry ∧
      replay (fun _ => 0) (hash_table_create 1024)
          (db_run db1 [db_call.put (some [98]) (some [50])]).wal_file = some db1.table) ∧
    hash_table_get (db_run (database_create []) [db_call.put (some [97]) (some [49])]).table
      [98] = (ERROR_NOT_FOUND, none) :=
  ⟨⟨by decide, by decide, by decide, by decide⟩,
    corrupt_tail_hides_later_puts [db_call.put (some [97]) (some [49])]
      [db_call.put (some [98]) (some [50])] [255, 255, 255, 255] 3 (fun _ => 0) (fun _ => 0)
      (by decide) (by decide) (by decide) (by decide),
    by decide⟩

theorem hash_table_delete_absent (table : hash_table_t) (key : List Byte)
    (h : (hash_table_get table key).1 ≠ SUCCESS) :
    hash_table_delete table key = (ERROR_NOT_FOUND, table) := by
  apply hash_table_delete_of_none
  rw [chain_unlink_eq_none]
  rw [hash_table_get_eq] at h
  cases hl : chain_lookup key (chain_of table key) with
  | none => rfl
  | some e => rw [hl] at h; exact absurd rfl h

/-- C30: a failed delete still logs.  `database_delete` of a key that is absent from the
Index (and within the length the record can carry), on an open Engine and with the record
written whole, returns ERROR_NOT_FOUND and leaves the Index as it was, while the log grows
by exactly the Delete record of the key; and the replay of that record into the Index
leaves the Index as it was. -/
theorem failed_delete_still_logs (db : database) (key : List Byte) (junk : Nat → Byte)
    (hfd : 0 ≤ db.wal_fd) (habsent : (database_get db (some key)).1 ≠ SUCCESS)
    (h0 : (0 : Byte) ∉ key) (hlen : key.length + 1 < 4294967296) :
    database_delete db (some key) (delete_entry key).length
      = (ERROR_NOT_FOUND, { db with wal_file := db.wal_file ++ delete_entry key }) ∧
    replay junk db.table (delete_entry key) = some db.table := by
  have hdel := hash_table_delete_absent db.table key habsent
  constructor
  · simp only [database_delete, hfd, if_true, hdel, List.take_length]
  · have h := replay_delete junk db.table key [] h0 hlen
    rw [List.append_nil] at h
    rw [h, hdel]
    rfl

/-- C30 at a concrete input: `delete("z")` on an open Engine that holds only `"a"`. -/
theorem failed_delete_still_logs_witness :
    ((0 : Int) ≤ (db_run { database_create [] with wal_fd := 3, is_open := true }
        [db_call.put (some [97]) (some [49])]).wal_fd ∧
      (database_get (db_run { database_create [] with wal_fd := 3, is_open := true }
        [db_call.put (some [97]) (some [49])]) (some [122])).1 ≠ SUCCESS ∧
      (0 : Byte) ∉ ([122] : List Byte) ∧ ([122] : List Byte).length + 1 < 4294967296) ∧
    (database_delete (db_run { database_create [] with wal_fd := 3, is_open := true }
        [db_call.put (some [97]) (some [49])]) (some [122]) (delete_entry [122]).length).1
      = ERROR_NOT_FOUND ∧
    (database_delete (db_run { database_create [] with wal_fd := 3, is_open := true }
        [db_call.put (some [97]) (some [49])]) (some [122])
        (delete_entry [122]).length).2.wal_file
      = put_entry [97] [49] ++ delete_entry [122] :=
  ⟨⟨by decide, by decide, by decide, by decide⟩,
    (congrArg Prod.fst
      (failed_delete_still_logs
        (db_run { database_create [] with wal_fd := 3, is_open := true }
          [db_call.put (some [97]) (some [49])]) [122] (fun _ => 0)
        (by decide) (by decide) (by decide) (by decide)).1),
    by decide⟩

theorem flatten_length_set (l : List (List hash_entry_t)) (i : Nat)
    (c : List hash_entry_t) (h : i < l.length) :
    (l.set i c).flatten.length + (l.getD i []).length = l.flatten.length + c.length := by
  induction l generalizing i with
  | nil => simp at h
  | cons x xs ih =>
    cases i with
    | zero =>
      simp only [List.set_cons_zero, List.flatten_cons, List.length_append,
        List.getD_cons_zero]
      omega
    | succ j =>
      have hj : j < xs.length := by simpa using h
      have := ih j hj
      simp only [List.set_cons_succ, List.flatten_cons, List.length_append,
        List.getD_cons_succ]
      omega

theorem chain_update_length (key value : List Byte) (chain chain' : List hash_entry_t)
    (h : chain_update key value chain = some chain') : chain'.length = chain.length := by
  have hk := congrArg List.length (chain_update_keys key value chain chain' h)
  simpa using hk

theorem chain_unlink_length (key : List Byte) (chain chain' : List hash_entry_t)
    (h : chain_unlink key chain = some chain') : chain'.length + 1 = chain.length := by
  induction chain generalizing chain' with
  | nil => simp [chain_unlink] at h
  | cons e next ih =>
    by_cases hk : e.key = key
    · simp [chain_unlink, hk] at h
      subst h
      rfl
    · simp [chain_unlink, hk] at h
      obtain ⟨c, hc, rfl⟩ := h
      simp [ih c hc]

theorem size_exact_create (n : Nat) (h : 0 < n) : size_exact (hash_table_create n) := by
  refine ⟨by simpa [hash_table_create, hash_table_t.bucket_count] using h, ?_⟩
  have : (List.replicate n ([] : List hash_entry_t)).flatten = [] := by
    induction n with
    | zero => rfl
    | succ m _ => simp [List.replicate_succ]
  simp [hash_table_create, this]

theorem size_exact_put (table : hash_table_t) (key value : List Byte)
    (h : size_exact table) : size_exact (hash_table_put table key value).2 := by
  refine ⟨by rw [hash_table_put_bucket_count]; exact h.1, ?_⟩
  have hb : hash_string key % table.bucket_count < table.buckets.length :=
    Nat.mod_lt _ h.1
  cases hc : chain_update key value (chain_of table key) with
  | none =>
    rw [hash_table_put_of_none _ _ _ hc]
    have hl := flatten_length_set table.buckets _
      ({ key := key, value := value } :: chain_of table key) hb
    have hsz := h.2
    simp only [chain_of, List.length_cons] at hl ⊢
    omega
  | some c =>
    rw [hash_table_put_of_some _ _ _ _ hc]
    have hl := flatten_length_set table.buckets _ c hb
    have hlen := chain_update_length _ _ _ _ hc
    have hsz := h.2
    simp only [chain_of] at hl hlen ⊢
    omega

theorem size_exact_delete (table : hash_table_t) (key : List Byte)
    (h : size_exact table) : size_exact (hash_table_delete table key).2 := by
  refine ⟨by rw [hash_table_delete_bucket_count]; exact h.1, ?_⟩
  have hb : hash_string key % table.bucket_count < table.buckets.length :=
    Nat.mod_lt _ h.1
  cases hc : chain_unlink key (chain_of table key) with
  | none =>
    rw [hash_table_delete_of_none _ _ hc]
    exact h.2
  | some c =>
    rw [hash_table_delete_of_some _ _ _ hc]
    have hl := flatten_length_set table.buckets _ c hb
    have hlen := chain_unlink_length _ _ _ hc
    have hsz := h.2
    simp only [chain_of] at hl hlen ⊢
    omega

theorem recover_loop_inv (P : hash_table_t → Prop)
    (hput : ∀ t k v, P t → P (hash_table_put t k v).2)
    (hdel : ∀ t k, P t → P (hash_table_delete t k).2)
    (junk : Nat → Byte) (fuel : Nat) (table table' : hash_table_t)
    (file : List Byte) (hp : P table)
    (h : recover_loop junk fuel table file = some table') : P table' := by
  induction fuel generalizing table file with
  | zero =>
    simp only [recover_loop, Option.some.injEq] at h
    rw [← h]; exact hp
  | succ n ih =>
    rw [recover_loop] at h
    split at h
    · cases h; exact hp
    · dsimp only at h
      split at h
      · cases h; exact hp
      · split at h
        · split at h
          · cases h
          · split at h
            · exact ih _ _ (hput _ _ _ hp) h
            · cases h
        · split at h
          · split at h
            · cases h
            · exact ih _ _ (hdel _ _ hp) h
          · exact ih _ _ hp h

theorem commit_chain_inv (P : hash_table_t → Prop)
    (hput : ∀ t k v, P t → P (hash_table_put t k v).2)
    (table : hash_table_t) (chain : List hash_entry_t) (hp : P table) :
    P (commit_chain table chain) := by
  induction chain generalizing table with
  | nil => exact hp
  | cons e rest ih => exact ih _ (hput _ _ _ hp)

theorem engine_step_inv (P : hash_table_t → Prop)
    (hput : ∀ t k v, P t → P (hash_table_put t k v).2)
    (hdel : ∀ t k, P t → P (hash_table_delete t k).2)
    (db : database) (op : engine_op) (r : database × Option Nat)
    (hp : P db.table) (h : engine_step db op = some r) : P r.1.table := by
  have hrec : ∀ (d : database) (junk : Nat → Byte) (a : Int × database),
      P d.table → database_recover d junk = some a → P a.2.table := by
    intro d junk a hd ha
    unfold database_recover at ha
    by_cases hfd : d.wal_fd < 0
    · rw [if_pos hfd] at ha
      cases ha; exact hd
    · rw [if_neg hfd] at ha
      cases ht : replay junk d.table d.wal_file with
      | none => rw [ht] at ha; cases ha
      | some t =>
        rw [ht] at ha
        cases ha
        exact recover_loop_inv P hput hdel junk _ _ _ _ hd ht
  cases op with
  | open_db fd junk =>
    simp only [engine_step, Option.map_eq_some'] at h
    obtain ⟨a, ha, rfl⟩ := h
    unfold database_open at ha
    by_cases ho : db.is_open = true
    · rw [if_pos ho] at ha
      cases ha; exact hp
    · rw [if_neg ho] at ha
      by_cases hfd : fd < 0
      · rw [if_pos hfd] at ha
        cases ha; exact hp
      · rw [if_neg hfd] at ha
        cases hr : database_recover
            { wal_file := db.wal_file, table := db.table, wal_fd := fd,
              next_txn_id := db.next_txn_id, is_open := db.is_open } junk with
        | none => rw [hr] at ha; cases ha
        | some r1 =>
          rw [hr] at ha
          cases ha
          have hn := fun hw => hrec _ junk r1 hw hr
          exact hn hp
  | close_db =>
    cases h
    show P (database_close db).2.table
    rw [database_close_table]; exact hp
  | put key value w =>
    cases h
    cases key with
    | none => exact hp
    | some k =>
      cases value with
      | none => exact hp
      | some v =>
        simp only [database_put]
        split
        · exact hp
        · exact hput _ _ _ hp
  | get key => cases h; exact hp
  | delete key w =>
    cases h
    cases key with
    | none => exact hp
    | some k => exact hdel _ _ hp
  | exists_key key => cases h; exact hp
  | begin_transaction level => cases h; exact hp
  | commit txn =>
    simp only [engine_step, Option.map_eq_some'] at h
    obtain ⟨a, ha, rfl⟩ := h
    obtain ⟨t, _, hr⟩ := transaction_commit_some db txn a ha
    show P a.2.1.table
    cases hr with
    | inl hr => rw [hr]; exact hp
    | inr hr =>
      rw [hr]
      show P (commit_buckets db.table t.writes.buckets)
      rw [commit_buckets_eq]
      exact commit_chain_inv P hput _ _ hp
  | rollback txn =>
    simp only [engine_step, Option.map_eq_some'] at h
    obtain ⟨a, ha, rfl⟩ := h
    show P a.2.1.table
    rw [transaction_rollback_some _ _ _ ha]; exact hp
  | txn_get txn key => cases h; exact hp
  | checkpoint =>
    cases h
    show P (database_checkpoint db).2.table
    rw [database_checkpoint_table]; exact hp
  | recover junk =>
    simp only [engine_step, Option.map_eq_some'] at h
    obtain ⟨a, ha, rfl⟩ := h
    exact hrec db junk a hp ha
  | get_stats => cases h; exact hp
  | create_index index_name type => cases h; exact hp
  | drop_index index_name => cases h; exact hp
  | compact => cases h; exact hp

/-- A property of tables that `hash_table_put` and `hash_table_delete` keep holds of the
Index after any calls of the interface. -/
theorem engine_run_inv (P : hash_table_t → Prop)
    (hput : ∀ t k v, P t → P (hash_table_put t k v).2)
    (hdel : ∀ t k, P t → P (hash_table_delete t k).2)
    (ops : List engine_op) (db db' : database) (ids : List Nat)
    (hp : P db.table) (h : engine_run db ops = some (db', ids)) : P db'.table := by
  induction ops generalizing db ids with
  | nil =>
    simp only [engine_run, Option.some.injEq, Prod.mk.injEq] at h
    rw [← h.1]; exact hp
  | cons op ops ih =>
    rw [engine_run] at h
    cases hs : engine_step db op with
    | none => simp only [hs] at h; cases h
    | some r =>
      simp only [hs] at h
      cases hr : engine_run r.1 ops with
      | none => simp only [hr] at h; cases h
      | some rest =>
        simp only [hr, Option.some.injEq, Prod.mk.injEq] at h
        obtain ⟨hdb, _⟩ := h
        subst hdb
        exact ih r.1 rest.2 (engine_step_inv P hput hdel db op r hp hs) hr

/-- The counter after a run: advanced once for every Transaction begun. -/
theorem engine_run_next (ops : List engine_op) (db db' : database) (ids : List Nat)
    (hlt : db.next_txn_id < 18446744073709551616)
    (h : engine_run db ops = some (db', ids)) :
    db'.next_txn_id = (db.next_txn_id + ids.length) % 18446744073709551616 := by
  induction ops generalizing db ids with
  | nil =>
    simp only [engine_run, Option.some.injEq, Prod.mk.injEq] at h
    rw [← h.1, ← h.2]
    simp only [List.length_nil, Nat.add_zero]
    exact (Nat.mod_eq_of_lt hlt).symm
  | cons op ops ih =>
    rw [engine_run] at h
    cases hs : engine_step db op with
    | none => simp only [hs] at h; cases h
    | some r =>
      simp only [hs] at h
      cases hr : engine_run r.1 ops with
      | none => simp only [hr] at h; cases h
      | some rest =>
        simp only [hr, Option.some.injEq, Prod.mk.injEq] at h
        obtain ⟨hdb, hids⟩ := h
        subst hdb
        subst hids
        have hrest : engine_run r.1 ops = some (rest.1, rest.2) := hr
        rcases engine_step_next db op r hs with ⟨h1, h2⟩ | ⟨h1, h2⟩
        · rw [ih r.1 rest.2 (by rw [h2]; exact hlt) hrest, h1, h2]
          simp only [Option.toList, List.nil_append]
        · have hlt' : r.1.next_txn_id < 18446744073709551616 := by
            rw [h2]; exact Nat.mod_lt _ (by decide)
          rw [ih r.1 rest.2 hlt' hrest, h1, h2]
          simp only [Option.toList, List.singleton_append, List.length_cons]
          omega

theorem foldl_add_sum (f : hash_entry_t → Nat) (l : List hash_entry_t) (a : Nat) :
    l.foldl (fun sum entry => sum + f entry) a = a + (l.map f).sum := by
  induction l generalizing a with
  | nil => simp
  | cons e rest ih =>
    simp only [List.foldl_cons, List.map_cons, List.sum_cons, ih]
    omega

theorem stats_total_size_eq (buckets : List (List hash_entry_t)) :
    stats_total_size buckets
      = (buckets.flatten.map (fun e => strlen e.key + e.value.length)).sum := by
  unfold stats_total_size
  rw [← List.foldl_flatten, foldl_add_sum]
  omega

theorem table_wf_retrievable (table : hash_table_t) (h : table_wf table) (key : List Byte) :
    key ∈ table.buckets.flatten.map hash_entry_t.key
      ↔ (hash_table_get table key).1 = SUCCESS := by
  rw [hash_table_get_eq, ← table_wf_lookup table h key]
  cases hl : chain_lookup key table.buckets.flatten with
  | none =>
    have hnot := (chain_lookup_eq_none key _).1 hl
    constructor
    · intro hm; exact absurd hm hnot
    · intro hs
      simp [SUCCESS, ERROR_NOT_FOUND] at hs
  | some e =>
    have hne : ¬ chain_lookup key table.buckets.flatten = none := by rw [hl]; simp
    have := fun hn => hne ((chain_lookup_eq_none key _).2 hn)
    simp only [iff_true]
    exact Classical.not_not.1 this

theorem database_get_stats_transactions (db : database) (stats : database_stats_t) :
    (database_get_stats db (some stats)).2.map (fun st => st.num_transactions)
      = some ((db.next_txn_id + 18446744073709551615) % 18446744073709551616) := rfl

/-- C27 (as stated, refuted): after `2^64` calls of `database_begin_transaction` on a
freshly created Engine, `database_get_stats` reports `num_transactions = 0`: the count is
`next_txn_id - 1` in 64 bits. -/
theorem stats_transactions_wrap :
    (engine_run (database_create [])
        (List.replicate 18446744073709551616
          (engine_op.begin_transaction isolation_level_t.ISOLATION_READ_COMMITTED))).map
      (fun r => (r.2.length,
        (database_get_stats r.1
          (some { num_keys := 0, total_size := 0, wal_size := 0,
                  num_transactions := 0 })).2.map (fun st => st.num_transactions)))
      = some (18446744073709551616, some 0) := by
  rw [engine_run_begins _ _ _ (by decide), Option.map_some', List.length_map,
    List.length_range, database_get_stats_transactions]
  rfl

/-- C27 (amended): statistics are exact.  On every Engine reached from a freshly created
one by any calls of the interface, as long as fewer than `2^64` Transactions have been
begun (and the Index holds fewer than `2^64` entries, as any Index in memory does),
`database_get_stats` returns SUCCESS with `num_keys` the number of keys of the Index, each
of them held once and a key being among them exactly when `database_get` finds it,
`total_size` the sum over the entries of `strlen(key)` plus the value size, and
`num_transactions` the number of `database_begin_transaction` calls made so far. -/
theorem stats_exact (file : List Byte) (ops : List engine_op) (db : database)
    (ids : List Nat) (stats : database_stats_t)
    (hrun : engine_run (database_create file) ops = some (db, ids))
    (hids : ids.length < 18446744073709551616)
    (hmem : db.table.buckets.flatten.length < 18446744073709551616) :
    ∃ st : database_stats_t,
      database_get_stats db (some stats) = (SUCCESS, some st) ∧
      st.num_keys = (db.table.buckets.flatten.map hash_entry_t.key).length ∧
      (db.table.buckets.flatten.map hash_entry_t.key).Nodup ∧
      (∀ key : List Byte, key ∈ db.table.buckets.flatten.map hash_entry_t.key
        ↔ (database_get db (some key)).1 = SUCCESS) ∧
      st.total_size
        = (db.table.buckets.flatten.map (fun e => strlen e.key + e.value.length)).sum ∧
      st.num_transactions = ids.length := by
  have hwf := engine_run_wf ops _ db ids (table_wf_create 1024) hrun
  have hsz := engine_run_inv size_exact size_exact_put size_exact_delete ops _ db ids
    (size_exact_create 1024 (by decide)) hrun
  have hnext := engine_run_next ops _ db ids
    (by show (1 : Nat) < 18446744073709551616; decide) hrun
  have hn1 : (database_create file).next_txn_id = 1 := rfl
  rw [hn1] at hnext
  refine ⟨_, rfl, ?_, table_wf_nodup _ hwf, fun key => table_wf_retrievable _ hwf key,
    stats_total_size_eq _, ?_⟩
  · show db.table.size = _
    rw [hsz.2, List.length_map, Nat.mod_eq_of_lt hmem]
  · show (db.next_txn_id + 18446744073709551615) % 18446744073709551616 = ids.length
    rw [hnext]
    omega

/-- C27 (amended) at a concrete input: an Engine that stored `"ab"` and `"c"`, deleted
`"c"` and began two Transactions reports 1 key, 3 bytes and 2 transactions. -/
theorem stats_exact_witness :
    (engine_run (database_create [])
        [engine_op.put (some [97, 98]) (some [49]) 0,
          engine_op.begin_transaction isolation_level_t.ISOLATION_READ_COMMITTED,
          engine_op.put (some [99]) (some [50]) 0, engine_op.delete (some [99]) 0,
          engine_op.begin_transaction isolation_level_t.ISOLATION_SERIALIZABLE]
        = some ({ database_create [] with
                    table := (hash_table_delete
                      (hash_table_put (hash_table_put (hash_table_create 1024) [97, 98] [49]).2
                        [99] [50]).2 [99]).2,
                    next_txn_id := 3 }, [1, 2]) ∧
      [1, 2].length < 18446744073709551616 ∧
      (hash_table_delete
        (hash_table_put (hash_table_put (hash_table_create 1024) [97, 98] [49]).2
          [99] [50]).2 [99]).2.buckets.flatten.length < 18446744073709551616) ∧
    database_get_stats
        { database_create [] with
            table := (hash_table_delete
              (hash_table_put (hash_table_put (hash_table_create 1024) [97, 98] [49]).2
                [99] [50]).2 [99]).2,
            next_txn_id := 3 }
        (some { num_keys := 0, total_size := 0, wal_size := 0, num_transactions := 0 })
      = (SUCCESS,
          some { num_keys := 1, total_size := 3, wal_size := 0, num_transactions := 2 }) ∧
    ∃ st : database_stats_t,
      database_get_stats
          { database_create [] with
              table := (hash_table_delete
                (hash_table_put (hash_table_put (hash_table_create 1024) [97, 98] [49]).2
                  [99] [50]).2 [99]).2,
              next_txn_id := 3 }
          (some { num_keys := 0, total_size := 0, wal_size := 0, num_transactions := 0 })
        = (SUCCESS, some st) ∧
      st.num_transactions = [1, 2].length :=
  ⟨⟨by decide, by decide, by decide⟩, by decide,
    (stats_exact []
      [engine_op.put (some [97, 98]) (some [49]) 0,
        engine_op.begin_transaction isolation_level_t.ISOLATION_READ_COMMITTED,
        engine_op.put (some [99]) (some [50]) 0, engine_op.delete (some [99]) 0,
        engine_op.begin_transaction isolation_level_t.ISOLATION_SERIALIZABLE]
      { database_create [] with
          table := (hash_table_delete
            (hash_table_put (hash_table_put (hash_table_create 1024) [97, 98] [49]).2
              [99] [50]).2 [99]).2,
          next_txn_id := 3 }
      [1, 2] { num_keys := 0, total_size := 0, wal_size := 0, num_transactions := 0 }
      (by decide) (by decide) (by decide)).imp (fun _ h => ⟨h.1, h.2.2.2.2.2⟩)⟩

/-! ## The transaction read path -/

/-- The two results `hash_table_get` can have, told from the value it hands out. -/
theorem hash_table_get_of_value (table : hash_table_t) (key : List Byte) :
    hash_table_get table key =
      match (hash_table_get table key).2 with
      | some value => (SUCCESS, some value)
      | none => (ERROR_NOT_FOUND, none) := by
  rw [hash_table_get_eq]
  cases chain_lookup key (chain_of table key) <;> rfl

/-- The value a well-formed table hands out for a key is the value of the entry with
that key. -/
theorem hash_table_get_value_iff (table : hash_table_t) (hwf : table_wf table)
    (key value : List Byte) :
    (hash_table_get table key).2 = some value ↔
      ({ key := key, value := value } : hash_entry_t) ∈ table.buckets.flatten := by
  have hnd := table_wf_nodup _ hwf
  constructor
  · intro h
    rw [hash_table_get_eq] at h
    cases hl : chain_lookup key (chain_of table key) with
    | none => simp only [hl] at h; cases h
    | some e =>
      simp only [hl, Option.some.injEq] at h
      rw [← table_wf_lookup _ hwf] at hl
      have hs := (chain_lookup_eq_some key _ e hnd).1 hl
      cases e with
      | mk ek ev =>
        have hk : ek = key := hs.2
        have hv : ev = value := h
        rw [← hk, ← hv]
        exact hs.1
  · intro hm
    have hl : chain_lookup key table.buckets.flatten
        = some { key := key, value := value } :=
      (chain_lookup_eq_some key _ _ hnd).2 ⟨hm, rfl⟩
    rw [table_wf_lookup _ hwf] at hl
    rw [hash_table_get_eq, hl]

/-- A well-formed table hands out no value for a key exactly when no entry has the key. -/
theorem hash_table_get_value_none_iff (table : hash_table_t) (hwf : table_wf table)
    (key : List Byte) :
    (hash_table_get table key).2 = none ↔ ∀ e ∈ table.buckets.flatten, e.key ≠ key := by
  rw [hash_table_get_eq, ← table_wf_lookup _ hwf]
  cases hl : chain_lookup key table.buckets.flatten with
  | none =>
    have hn := (chain_lookup_eq_none key _).1 hl
    simp only [true_iff]
    intro e he hk
    exact hn (List.mem_map.2 ⟨e, he, hk⟩)
  | some e0 =>
    have hs := (chain_lookup_eq_some key _ e0 (table_wf_nodup _ hwf)).1 hl
    simp only [false_iff, reduceCtorEq]
    intro hall
    exact hall e0 hs.1 hs.2

/-- One call of the write path does to the write set what `pending_step` does to the
map. -/
theorem txn_step_pending (txn : transaction) (call : txn_call)
    (pending : List Byte → Option (List Byte))
    (hwf : table_wf txn.writes) (h0 : 0 < txn.writes.bucket_count)
    (h : ∀ k, (hash_table_get txn.writes k).2 = pending k) (k : List Byte) :
    (hash_table_get (txn_step txn call).writes k).2 = pending_step pending call k := by
  cases call with
  | put key value =>
    cases key with
    | none => exact h k
    | some key =>
      cases value with
      | none => exact h k
      | some value =>
        show (hash_table_get (hash_table_put txn.writes key value).2 k).2
          = if k = key then some value else pending k
        by_cases hk : k = key
        · rw [if_pos hk, hk, hash_table_get_put_self _ _ _ h0]
        · rw [if_neg hk, hash_table_get_put_other _ _ _ _ hk]
          exact h k
  | delete key =>
    cases key with
    | none => exact h k
    | some key =>
      show (hash_table_get (hash_table_delete txn.writes key).2 k).2
        = if k = key then none else pending k
      by_cases hk : k = key
      · rw [if_pos hk, hk]
        by_cases hrc : (hash_table_get txn.writes key).1 = SUCCESS
        · have hd : (hash_table_delete txn.writes key).1 = SUCCESS := by
            rw [hash_table_delete_rc, if_pos hrc]
          rw [hash_table_get_delete_self _ _ hwf hd]
        · rw [hash_table_delete_absent _ _ hrc]
          have hg := hash_table_get_of_value txn.writes key
          cases hv : (hash_table_get txn.writes key).2 with
          | none => rfl
          | some v =>
            rw [hv] at hg
            exact absurd (by rw [hg]) hrc
      · rw [if_neg hk, hash_table_get_delete_other _ _ _ hk]
        exact h k

/-- The write set after any calls of the write path hands out, for every key, what the
calls have left pending for it. -/
theorem txn_run_pending (txn : transaction) (calls : List txn_call)
    (pending : List Byte → Option (List Byte))
    (hwf : table_wf txn.writes) (h0 : 0 < txn.writes.bucket_count)
    (h : ∀ k, (hash_table_get txn.writes k).2 = pending k) (k : List Byte) :
    (hash_table_get (txn_run txn calls).writes k).2 = calls.foldl pending_step pending k := by
  induction calls generalizing txn pending with
  | nil => exact h k
  | cons c cs ih =>
    show (hash_table_get (txn_run (txn_step txn c) cs).writes k).2
      = cs.foldl pending_step (pending_step pending c) k
    exact ih (txn_step txn c) (pending_step pending c) (txn_step_wf txn c hwf)
      (by rw [txn_step_bucket_count]; exact h0)
      (fun k' => txn_step_pending txn c pending hwf h0 h k')

/-- C10: the transaction read path.  `T` is the Transaction begun on an Engine and carried
through any calls of `transaction_put` and `transaction_delete`; `db` is the Engine at the
moment of the read, with any Index.  The overlay holds `key` with `value` (the write set
has the entry `(key, value)`) exactly when the last `transaction_put` of `key` stored
`value` and no `transaction_delete` of `key` followed; it holds no entry for `key` exactly
when the calls left nothing pending for it.  `transaction_get(T, key)` returns SUCCESS with
the overlay's value in the first case, whatever the Index contains, and exactly the result
of `database_get(key)` on `db` in the second. -/
theorem transaction_get_read_path (db0 db : database) (level : isolation_level_t)
    (calls : List txn_call) (key : List Byte) :
    (∀ value : List Byte,
      pending_value calls key = some value ↔
        ({ key := key, value := value } : hash_entry_t)
          ∈ (txn_run (database_begin_transaction db0 level).1 calls).writes.buckets.flatten) ∧
    (pending_value calls key = none ↔
      ∀ e ∈ (txn_run (database_begin_transaction db0 level).1 calls).writes.buckets.flatten,
        e.key ≠ key) ∧
    transaction_get db (txn_run (database_begin_transaction db0 level).1 calls) (some key)
      = match pending_value calls key with
        | some value => (SUCCESS, some value)
        | none => database_get db (some key) := by
  have hwf : table_wf (txn_run (database_begin_transaction db0 level).1 calls).writes :=
    txn_run_wf _ _ (table_wf_create 64)
  have hp : (hash_table_get
      (txn_run (database_begin_transaction db0 level).1 calls).writes key).2
      = pending_value calls key :=
    txn_run_pending (database_begin_transaction db0 level).1 calls (fun _ => none)
      (table_wf_create 64) (by show 0 < (hash_table_create 64).bucket_count; decide)
      (fun k => by
        show (hash_table_get (hash_table_create 64) k).2 = none
        rw [hash_table_get_value_none_iff _ (table_wf_create 64)]
        intro e he
        simp [hash_table_create] at he) key
  refine ⟨fun value => ?_, ?_, ?_⟩
  · rw [← hp]; exact hash_table_get_value_iff _ hwf key value
  · rw [← hp]; exact hash_table_get_value_none_iff _ hwf key
  · have hg := hash_table_get_of_value
      (txn_run (database_begin_transaction db0 level).1 calls).writes key
    rw [hp] at hg
    simp only [transaction_get]
    cases hv : pending_value calls key with
    | none =>
      rw [hv] at hg
      rw [hg]
      simp [SUCCESS, ERROR_NOT_FOUND]
    | some v =>
      rw [hv] at hg
      rw [hg]
      simp

/-- C10 at a concrete input.  The Index holds `"k" -> "old"` and `"i" -> "1"`; the
Transaction runs `put("k","new")`, `put("j","x")`, `delete("j")`.  The read of `"k"`
returns the overlay's `"new"`; the read of `"j"`, whose entry was deleted from the
overlay, and the read of `"i"` return what `database_get` returns: ERROR_NOT_FOUND and
`"1"`. -/
theorem transaction_get_read_path_witness :
    transaction_get
        (db_run (database_create [])
          [db_call.put (some [107]) (some [111, 108, 100]),
            db_call.put (some [105]) (some [49])])
        (txn_run
          (database_begin_transaction (database_create [])
            isolation_level_t.ISOLATION_READ_COMMITTED).1
          [txn_call.put (some [107]) (some [110, 101, 119]),
            txn_call.put (some [106]) (some [120]), txn_call.delete (some [106])])
        (some [107]) = (SUCCESS, some [110, 101, 119]) ∧
    transaction_get
        (db_run (database_create [])
          [db_call.put (some [107]) (some [111, 108, 100]),
            db_call.put (some [105]) (some [49])])
        (txn_run
          (database_begin_transaction (database_create [])
            isolation_level_t.ISOLATION_READ_COMMITTED).1
          [txn_call.put (some [107]) (some [110, 101, 119]),
            txn_call.put (some [106]) (some [120]), txn_call.delete (some [106])])
        (some [106]) = (ERROR_NOT_FOUND, none) ∧
    transaction_get
        (db_run (database_create [])
          [db_call.put (some [107]) (some [111, 108, 100]),
            db_call.put (some [105]) (some [49])])
        (txn_run
          (database_begin_transaction (database_create [])
            isolation_level_t.ISOLATION_READ_COMMITTED).1
          [txn_call.put (some [107]) (some [110, 101, 119]),
            txn_call.put (some [106]) (some [120]), txn_call.delete (some [106])])
        (some [105]) = (SUCCESS, some [49]) ∧
    ({ key := [107], value := [110, 101, 119] } : hash_entry_t)
      ∈ (txn_run
          (database_begin_transaction (database_create [])
            isolation_level_t.ISOLATION_READ_COMMITTED).1
          [txn_call.put (some [107]) (some [110, 101, 119]),
            txn_call.put (some [106]) (some [120]),
            txn_call.delete (some [106])]).writes.buckets.flatten :=
  ⟨((transaction_get_read_path (database_create [])
      (db_run (database_create [])
        [db_call.put (some [107]) (some [111, 108, 100]),
          db_call.put (some [105]) (some [49])])
      isolation_level_t.ISOLATION_READ_COMMITTED
      [txn_call.put (some [107]) (some [110, 101, 119]),
        txn_call.put (some [106]) (some [120]), txn_call.delete (some [106])]
      [107]).2.2).trans (by decide),
    ((transaction_get_read_path (database_create [])
      (db_run (database_create [])
        [db_call.put (some [107]) (some [111, 108, 100]),
          db_call.put (some [105]) (some [49])])
      isolation_level_t.ISOLATION_READ_COMMITTED
      [txn_call.put (some [107]) (some [110, 101, 119]),
        txn_call.put (some [106]) (some [120]), txn_call.delete (some [106])]
      [106]).2.2).trans (by decide),
    ((transaction_get_read_path (database_create [])
      (db_run (database_create [])
        [db_call.put (some [107]) (some [111, 108, 100]),
          db_call.put (some [105]) (some [49])])
      isolation_level_t.ISOLATION_READ_COMMITTED
      [txn_call.put (some [107]) (some [110, 101, 119]),
        txn_call.put (some [106]) (some [120]), txn_call.delete (some [106])]
      [105]).2.2).trans (by decide),
    ((transaction_get_read_path (database_create [])
      (database_create [])
      isolation_level_t.ISOLATION_READ_COMMITTED
      [txn_call.put (some [107]) (some [110, 101, 119]),
        txn_call.put (some [106]) (some [120]), txn_call.delete (some [106])]
      [107]).1 [110, 101, 119]).1 (by decide)⟩

end KVStore
